import Mathlib

/-!
# Heap-profiler trace encoding of MonoComponentHost.cpp

A shallow embedding of the profiler part of
`code/components/citizen-scripting-mono/src/MonoComponentHost.cpp`: the
varint codec, the delta encoder, the record emitters, the heap walker, the
file sink and the GC lifecycle callback, followed by the properties proved
about them.

Modelling conventions.

* A `std::stringbuf` used as an append-only sink is the list of the bytes
  written so far (`List Nat`); `put`, `sputn` and `sputc` append at the end.
  A null `std::stringbuf*` is `none`, and a function that would dereference
  it returns `none`.
* `uint64_t` / `uintptr_t` values are natural numbers, wrapped with
  `% 2 ^ 64` where the C++ arithmetic wraps; `intptr_t` / `int64_t` values
  are integers in `[-2^63, 2^63)`. The target is the 64-bit little-endian
  build, so `sizeof(intptr_t) * 8 = 64`; `>>` on a signed value is the
  arithmetic shift.
* Results of calls into the Mono runtime and of `current_time()` are
  arguments of the embedded functions; opening and writing `test.mlpd`
  succeeds.
-/

namespace MonoComponentHost

/-! ## Machine-integer conversions -/

/-- Conversion of a 64-bit unsigned value to `int64_t` / `intptr_t`
(two's complement reinterpretation). -/
def toInt64 (w : Nat) : Int :=
  if w % 2 ^ 64 < 2 ^ 63 then ((w % 2 ^ 64 : Nat) : Int) else ((w % 2 ^ 64 : Nat) : Int) - 2 ^ 64

/-- Conversion of a signed value to `uint64_t` (reduction modulo `2^64`). -/
def toUInt64 (v : Int) : Nat :=
  (v % 2 ^ 64).toNat

/-- Conversion of an unsigned value to `int` (32 bits, two's complement). -/
def toInt32 (w : Nat) : Int :=
  if w % 2 ^ 32 < 2 ^ 31 then ((w % 2 ^ 32 : Nat) : Int) else ((w % 2 ^ 32 : Nat) : Int) - 2 ^ 32

/-- Unsigned 64-bit subtraction `a - b`, wrapping modulo `2^64`. -/
def sub64 (a b : Nat) : Nat :=
  toUInt64 ((a : Int) - (b : Int))

/-! ## `put` -/

/-- The `n` low-order bytes of `var`, least significant first: the object
representation that `put<Type>` hands to `sputn` on the little-endian
target, `n = sizeof(Type)`. -/
def le_bytes : Nat → Nat → List Nat
  | 0, _ => []
  | n + 1, var => (var &&& 0xff) :: le_bytes n (var >>> 8)

/-- Reading of a little-endian field: the value of a byte string, least
significant byte first. -/
def le_value : List Nat → Nat
  | [] => 0
  | b :: rest => b + 256 * le_value rest

/-- Source `put<Type>(buf, var)`: appends the `size = sizeof var` bytes of
`var` to the sink. -/
def put (size : Nat) (buf : List Nat) (var : Nat) : List Nat :=
  buf ++ le_bytes size var

/-! ## Varint codec -/

/-- Source `encode_uleb128`: a do-while loop emitting 7 bits per byte. -/
def encode_uleb128 (value : Nat) (buffer : List Nat) : List Nat :=
  let b := value &&& 0x7f
  let value := value >>> 7
  if value ≠ 0 then
    -- more bytes to come
    encode_uleb128 value (put 1 buffer (b ||| 0x80))
  else
    put 1 buffer b
termination_by value
decreasing_by
  simp only [Nat.shiftRight_eq_div_pow] at *
  omega

/-- Standard unsigned base-128 varint decoding: 7 payload bits per byte,
least significant group first, stopping at the first byte whose `0x80`
bit is clear. Returns the value and the unread bytes. -/
def decode_uleb128 : List Nat → Option (Nat × List Nat)
  | [] => none
  | b :: rest =>
    if b &&& 0x80 = 0 then some (b &&& 0x7f, rest)
    else
      match decode_uleb128 rest with
      | none => none
      | some (v, rest) => some ((b &&& 0x7f) + 128 * v, rest)

/-! ### Bit-level facts needed to define the signed encoder

`encode_sleb128` loops until the shifted value and the sign bit of the last
group agree; the facts below give the arithmetic meaning of the `&`, `>>`
and `|` steps on integers and show that every step makes progress. -/

theorem ldiff_low_mask_lt (k m : Nat) : Nat.ldiff (2 ^ k - 1) m < 2 ^ k := by
  apply Nat.lt_pow_two_of_testBit
  intro i hi
  rw [Nat.testBit_ldiff, Nat.testBit_two_pow_sub_one]
  have hik : ¬ i < k := by omega
  simp [hik]

theorem ldiff_127 (n : Nat) : Nat.ldiff 127 n = 127 - n % 128 := by
  have h1 : Nat.ldiff 127 n = 127 ^^^ (n &&& 127) := by
    apply Nat.eq_of_testBit_eq
    intro i
    rw [Nat.testBit_ldiff, Nat.testBit_xor, Nat.testBit_and]
    cases Nat.testBit 127 i <;> cases Nat.testBit n i <;> rfl
  have h2 : n &&& 127 = n % 128 := Nat.and_pow_two_sub_one_eq_mod n 7
  have h3 : ∀ k < 128, 127 ^^^ k = 127 - k := by decide
  rw [h1, h2, h3 _ (Nat.mod_lt _ (by decide))]

/-- On two's complement integers `value & 0x7f` is the residue modulo 128. -/
theorem int_land_127 (v : Int) : Int.land v 0x7f = v % 128 := by
  rcases v with n | n
  · have e : Int.land (Int.ofNat n) 0x7f = ((n &&& 127 : Nat) : Int) := rfl
    have h2 : n &&& 127 = n % 128 := Nat.and_pow_two_sub_one_eq_mod n 7
    rw [e, h2]
    simp
  · have e : Int.land (Int.negSucc n) 0x7f = ((Nat.ldiff 127 n : Nat) : Int) := rfl
    rw [e, ldiff_127, Int.negSucc_eq]
    omega

/-- The arithmetic right shift by 7 is the floor division by 128. -/
theorem int_shiftRight_7 (v : Int) : v >>> (7 : Nat) = v / 128 := by
  rw [Int.shiftRight_eq_div_pow]
  norm_num

/-- What the sign-extending `value |= -((intptr_t)1 << (size - 7))` can do. -/
theorem sleb_lor_bounds (v : Int) :
    -(2 ^ 57) ≤ Int.lor v (-((1 : Int) * 2 ^ (64 - 7)))
    ∧ Int.lor v (-((1 : Int) * 2 ^ (64 - 7))) < 0
    ∧ (v < 0 → v ≤ Int.lor v (-((1 : Int) * 2 ^ (64 - 7))))
    ∧ (-(2 ^ 57) ≤ v → v < 0 → Int.lor v (-((1 : Int) * 2 ^ (64 - 7))) = v) := by
  rcases v with n | n
  · have e : Int.lor (Int.ofNat n) (-((1 : Int) * 2 ^ (64 - 7)))
        = Int.negSucc (Nat.ldiff (2 ^ 57 - 1) n) := rfl
    have hlt := ldiff_low_mask_lt 57 n
    rw [e, Int.negSucc_eq]
    simp only [Int.ofNat_eq_coe]
    omega
  · have e : Int.lor (Int.negSucc n) (-((1 : Int) * 2 ^ (64 - 7)))
        = Int.negSucc (n &&& (2 ^ 57 - 1)) := rfl
    have hle : n &&& (2 ^ 57 - 1) ≤ n := Nat.and_le_left
    have hmod : n &&& (2 ^ 57 - 1) = n % 2 ^ 57 := Nat.and_pow_two_sub_one_eq_mod n 57
    rw [e]
    simp only [Int.negSucc_eq]
    rw [hmod] at hle ⊢
    omega

/-- Termination measure of the loop of `encode_sleb128`. -/
def sleb_measure (negative : Bool) (value : Int) : Nat :=
  if negative = true ∧ 0 ≤ value then value.natAbs + 2 ^ 57 + 1 else value.natAbs

theorem sleb_step_decreases (negative : Bool) (value : Int)
    (hmore : ¬ (((if negative then Int.lor (value >>> (7 : Nat)) (-((1 : Int) * 2 ^ (64 - 7)))
          else value >>> (7 : Nat)) = 0
        ∧ (Int.land value 0x7f).toNat &&& 0x40 = 0)
      ∨ ((if negative then Int.lor (value >>> (7 : Nat)) (-((1 : Int) * 2 ^ (64 - 7)))
          else value >>> (7 : Nat)) = -1
        ∧ (Int.land value 0x7f).toNat &&& 0x40 ≠ 0))) :
    sleb_measure negative
      (if negative then Int.lor (value >>> (7 : Nat)) (-((1 : Int) * 2 ^ (64 - 7)))
        else value >>> (7 : Nat))
      < sleb_measure negative value := by
  rw [int_land_127, int_shiftRight_7] at hmore
  rw [int_shiftRight_7]
  obtain ⟨hb1, hb2, hb3, -⟩ := sleb_lor_bounds (value / 128)
  have h0 : value = 0 → (value % 128).toNat &&& 0x40 = 0 := by
    intro h; subst h; decide
  have h1 : value = -1 → (value % 128).toNat &&& 0x40 ≠ 0 := by
    intro h; subst h; decide
  unfold sleb_measure
  cases negative
  · simp only [Bool.false_eq_true, if_false, false_and] at hmore ⊢
    by_cases hv0 : value = 0
    · exact absurd (Or.inl ⟨by omega, h0 hv0⟩) hmore
    · by_cases hv1 : value = -1
      · exact absurd (Or.inr ⟨by omega, h1 hv1⟩) hmore
      · omega
  · simp only [if_true, true_and] at hmore ⊢
    by_cases hv1 : value = -1
    · have hl := (sleb_lor_bounds (value / 128)).2.2.2 (by omega) (by omega)
      rw [hl] at hmore
      exact absurd (Or.inr ⟨by omega, h1 hv1⟩) hmore
    · split_ifs <;> omega

/-- The `while (more)` loop of source `encode_sleb128`; `negative` is the
sign of the argument, computed once before the loop, and `size` is
`sizeof(intptr_t) * 8 = 64`. -/
def encode_sleb128_loop (negative : Bool) (value : Int) (buffer : List Nat) : List Nat :=
  let byte := (Int.land value 0x7f).toNat
  let value1 := value >>> (7 : Nat)
  -- sign extend
  let value2 := if negative then Int.lor value1 (-((1 : Int) * 2 ^ (64 - 7))) else value1
  -- sign bit of byte is second high order bit (0x40)
  if (value2 = 0 ∧ byte &&& 0x40 = 0) ∨ (value2 = -1 ∧ byte &&& 0x40 ≠ 0) then
    put 1 buffer byte
  else
    encode_sleb128_loop negative value2 (put 1 buffer (byte ||| 0x80))
termination_by sleb_measure negative value
decreasing_by
  exact sleb_step_decreases negative value ‹_›

/-- Source `encode_sleb128`. -/
def encode_sleb128 (value : Int) (buffer : List Nat) : List Nat :=
  encode_sleb128_loop (decide (value < 0)) value buffer

/-- Standard signed LEB128 decoding: 7 payload bits per byte, least
significant group first, stopping at the first byte whose `0x80` bit is
clear and sign-extending from bit `0x40` of that last byte. Returns the
value and the unread bytes. -/
def decode_sleb128 : List Nat → Option (Int × List Nat)
  | [] => none
  | b :: rest =>
    if b &&& 0x80 = 0 then
      some (if b &&& 0x40 = 0 then ((b &&& 0x7f : Nat) : Int)
            else ((b &&& 0x7f : Nat) : Int) - 128, rest)
    else
      match decode_sleb128 rest with
      | none => none
      | some (v, rest) => some (((b &&& 0x7f : Nat) : Int) + 128 * v, rest)

/-! ## Event emission primitives -/

/-- Source `emit_byte`: writes `(char)value`. -/
def emit_byte (buffer : List Nat) (value : Int) : List Nat :=
  put 1 buffer (toUInt64 value)

/-- Source `emit_value`: the `int` argument is converted to `uint64_t`. -/
def emit_value (logbuffer : List Nat) (value : Int) : List Nat :=
  encode_uleb128 (toUInt64 value) logbuffer

/-- Source `emit_time`. -/
def emit_time (logbuffer : List Nat) (value : Nat) : List Nat :=
  encode_uleb128 value logbuffer

/-- Source `emit_event_time`. -/
def emit_event_time (logbuffer : List Nat) (event : Int) (time : Nat) : List Nat :=
  emit_time (emit_byte logbuffer event) time

/-- Source `emit_event`; `now` is the value returned by `current_time()`. -/
def emit_event (now : Nat) (logbuffer : List Nat) (event : Int) : List Nat :=
  emit_event_time logbuffer event now

/-- Source `emit_svalue`. -/
def emit_svalue (logbuffer : List Nat) (value : Int) : List Nat :=
  encode_sleb128 value logbuffer

/-! ## Event type tags (the anonymous enums at the top of the source file) -/

/-- Enumerator `TYPE_METADATA`. -/
def TYPE_METADATA : Nat := 2

/-- Enumerator `TYPE_HEAP`. -/
def TYPE_HEAP : Nat := 6

/-- Enumerator `TYPE_HEAP_START`. -/
def TYPE_HEAP_START : Nat := 0 <<< 4

/-- Enumerator `TYPE_HEAP_END`. -/
def TYPE_HEAP_END : Nat := 1 <<< 4

/-- Enumerator `TYPE_HEAP_OBJECT`. -/
def TYPE_HEAP_OBJECT : Nat := 2 <<< 4

/-- Enumerator `TYPE_HEAP_ROOT`. -/
def TYPE_HEAP_ROOT : Nat := 3 <<< 4

/-- Enumerator `TYPE_END_LOAD`. -/
def TYPE_END_LOAD : Nat := 2 <<< 4

/-- Enumerator `TYPE_CLASS`. -/
def TYPE_CLASS : Nat := 1

/-! ## Profiler state -/

/-- Source `struct _MonoProfiler` (the mutex handle is left out). A null
`std::stringbuf*` is `none`; `logClasses`, a `std::set<MonoClass*>`, is the
ascending list of its elements; `gchandles`, a `std::map`, is the list of
its key/count entries, a `std::string` being the list of its bytes. -/
structure MonoProfiler where
  gchandles : List ((List Nat × List Nat) × Nat)
  do_heap_walk : Bool
  last_hs_time : Nat
  logClasses : List Nat
  fileBuffer : Option (List Nat)
  logBuffer : Option (List Nat)
  obj_base : Nat
  ptr_base : Nat

/-- Insertion into a `std::set<MonoClass*>`: the elements stay in ascending
order and an element already present is not added again. -/
def set_insert (k : Nat) : List Nat → List Nat
  | [] => [k]
  | x :: xs =>
    if k < x then k :: x :: xs
    else if k = x then x :: xs
    else x :: set_insert k xs

/-! ## Delta encoder -/

/-- Source `emit_obj`; `g` is the global `g_profiler`. Returns the updated
profiler and the updated sink. -/
def emit_obj (g : MonoProfiler) (logbuffer : List Nat) (ptr : Nat) : MonoProfiler × List Nat :=
  let g := if g.obj_base = 0 then { g with obj_base := ptr >>> 3 } else g
  (g, emit_svalue logbuffer (toInt64 (sub64 (ptr >>> 3) g.obj_base)))

/-- Source `emit_ptr`; `g` is the global `g_profiler`. -/
def emit_ptr (g : MonoProfiler) (logbuffer : List Nat) (ptr : Nat) : MonoProfiler × List Nat :=
  let g := if g.ptr_base = 0 then { g with ptr_base := ptr } else g
  (g, emit_svalue logbuffer (toInt64 (sub64 ptr g.ptr_base)))

/-! ## Heap-object, class and root records -/

/-- The `for` loop of source `gc_reference`; the arrays `offsets` and `refs`
(both of length `num`) are given as the list of pairs
`(offsets[i], refs[i])`. -/
def emit_refs (g : MonoProfiler) (logbuffer : List Nat) (last_offset : Nat) :
    List (Nat × Nat) → MonoProfiler × List Nat
  | [] => (g, logbuffer)
  | (offset, ref) :: rest =>
    let logbuffer := emit_value logbuffer (toInt32 (sub64 offset last_offset))
    let r := emit_obj g logbuffer ref
    emit_refs r.1 r.2 offset rest

/-- Source `_MonoProfiler::gc_reference`, with `num = refs.length`. The
result is `none` when the null `logBuffer` would be dereferenced. -/
def gc_reference (now : Nat) (prof : MonoProfiler) (obj klass size : Nat)
    (refs : List (Nat × Nat)) : Option MonoProfiler :=
  match prof.logBuffer with
  | none => none
  | some logbuffer =>
    let size := (size + 7) % 2 ^ 64
    let size := size &&& (2 ^ 64 - 8)
    let prof := { prof with logClasses := set_insert klass prof.logClasses }
    let logbuffer := emit_event now logbuffer ((TYPE_HEAP_OBJECT ||| TYPE_HEAP : Nat) : Int)
    let r := emit_obj prof logbuffer obj
    let r := emit_ptr r.1 r.2 klass
    let logbuffer := emit_value r.2 (toInt32 size)
    let logbuffer := emit_value logbuffer (toInt32 refs.length)
    let r := emit_refs r.1 logbuffer 0 refs
    some { r.1 with logBuffer := some r.2 }

/-- The part of the Mono runtime the profiler queries. `type_name k` is the
memory the C string `mono_type_get_name(mono_class_get_type(k))` points to,
`class_image k` is `mono_class_get_image(k)`. -/
structure MonoRuntime where
  max_generation : Int
  type_name : Nat → List Nat
  class_image : Nat → Nat

/-- Source `dump_classes` over the elements of the set in iteration order;
`now k` is the value `current_time()` returns while the record of class `k`
is written. -/
def dump_classes (rt : MonoRuntime) (now : Nat → Nat) (g : MonoProfiler) (buf : List Nat) :
    List Nat → MonoProfiler × List Nat
  | [] => (g, buf)
  | klass :: rest =>
    -- the `nlen = strlen(name)` characters before the first NUL
    let name := (rt.type_name klass).takeWhile (fun c => c != 0)
    let image := rt.class_image klass
    let buf := emit_event (now klass) buf ((TYPE_END_LOAD ||| TYPE_METADATA : Nat) : Int)
    let buf := emit_byte buf (TYPE_CLASS : Nat)
    let r := emit_ptr g buf klass
    let r := emit_ptr r.1 r.2 image
    let buf := emit_value r.2 0
    let buf := buf ++ name
    let buf := buf ++ [0]
    dump_classes rt now r.1 buf rest

/-- The `for` loop of source `gc_roots`; the three arrays are given as the
list of triples `(objects[i], root_types[i], extra_info[i])`. -/
def emit_roots (g : MonoProfiler) (buf : List Nat) :
    List (Nat × Int × Nat) → MonoProfiler × List Nat
  | [] => (g, buf)
  | (object, root_type, extra_info) :: rest =>
    let r := emit_obj g buf object
    let buf := emit_byte r.2 root_type
    let buf := emit_value buf (toInt32 extra_info)
    emit_roots r.1 buf rest

/-- Source `gc_roots`, with `num = roots.length`; `collection_count` is the
value of `mono_gc_collection_count(mono_gc_max_generation())`. -/
def gc_roots (prof : MonoProfiler) (now : Nat) (collection_count : Int)
    (roots : List (Nat × Int × Nat)) : MonoProfiler :=
  match prof.logBuffer with
  | none => prof
  | some buf =>
    let buf := emit_event now buf ((TYPE_HEAP_ROOT ||| TYPE_HEAP : Nat) : Int)
    let buf := emit_value buf (roots.length : Int)
    let buf := emit_value buf collection_count
    let r := emit_roots prof buf roots
    { r.1 with logBuffer := some r.2 }

/-! ## Heap walker -/

/-- One invocation of the `gc_reference` callback by `mono_gc_walk_heap`,
together with the clock reading taken inside it. -/
structure ObjectReport where
  now : Nat
  obj : Nat
  klass : Nat
  size : Nat
  refs : List (Nat × Nat)

/-- What the runtime and the clock supply during one heap walk. -/
structure HeapWalk where
  now_start : Nat
  objects : List ObjectReport
  now_class : Nat → Nat
  now_end : Nat

/-- The call `mono_gc_walk_heap(0, gc_reference_static, this)`: the callback
runs once for every reported object, in order. -/
def walk_heap (prof : MonoProfiler) : List ObjectReport → Option MonoProfiler
  | [] => some prof
  | o :: rest =>
    match gc_reference o.now prof o.obj o.klass o.size o.refs with
    | none => none
    | some prof => walk_heap prof rest

/-- Source `_MonoProfiler::heap_walk`. -/
def heap_walk (rt : MonoRuntime) (prof : MonoProfiler) (walk : HeapWalk) : Option MonoProfiler :=
  match prof.logBuffer with
  | none => none
  | some logbuffer =>
    let logbuffer := emit_event walk.now_start logbuffer ((TYPE_HEAP_START ||| TYPE_HEAP : Nat) : Int)
    match walk_heap { prof with logBuffer := some logbuffer } walk.objects with
    | none => none
    | some prof =>
      match prof.logBuffer with
      | none => none
      | some logbuffer =>
        let r := dump_classes rt walk.now_class prof logbuffer prof.logClasses
        let logbuffer := emit_event walk.now_end r.2 ((TYPE_HEAP_END ||| TYPE_HEAP : Nat) : Int)
        some { r.1 with logBuffer := some logbuffer }

/-! ## File sink -/

/-- Source `dump_header`. -/
def dump_header (buf : List Nat) : List Nat :=
  let buf := put 4 buf 0x4D505A01
  let buf := put 1 buf 1
  let buf := put 1 buf 1
  let buf := put 1 buf 0
  let buf := put 1 buf 8
  let buf := put 8 buf 0
  let buf := put 4 buf 0
  let buf := put 4 buf 0
  let buf := put 4 buf 0
  put 4 buf 0

/-- Source `dump_buffer`; `logbuffer` is the content of the trace buffer and
`now` the value returned by `current_time()`. -/
def dump_buffer (buf : List Nat) (logbuffer : List Nat) (profiler : MonoProfiler) (now : Nat) :
    List Nat :=
  let logBuf := logbuffer
  let buf := put 4 buf 0x4D504C01
  let buf := put 4 buf logBuf.length
  let buf := put 8 buf now
  let buf := put 8 buf profiler.ptr_base
  let buf := put 8 buf profiler.obj_base
  let buf := put 8 buf 1
  let buf := put 8 buf 0
  buf ++ logBuf

/-! ## GC lifecycle -/

/-- The collector events `gc_event` distinguishes; every other value of
`MonoGCEvent` takes the `default` branch. -/
inductive MonoGCEvent where
  | PRE_STOP_WORLD
  | PRE_START_WORLD
  | POST_START_WORLD_UNLOCKED
  | other

/-- The profiler singleton `g_profiler` together with the content of the
trace file `test.mlpd`. -/
structure Host where
  profiler : MonoProfiler
  test_mlpd : List Nat

/-- Source `_MonoProfiler::gc_event` (the `trace` calls are left out).
`walk` is what a heap walk started by this callback observes and `now` the
clock reading taken by `dump_buffer`. The result is `none` when a null
buffer pointer would be dereferenced. -/
def gc_event (rt : MonoRuntime) (h : Host) (ev : MonoGCEvent) (generation : Int)
    (walk : HeapWalk) (now : Nat) : Option Host :=
  let prof := h.profiler
  match ev with
  | MonoGCEvent.PRE_STOP_WORLD =>
    if prof.do_heap_walk = true ∧ generation = rt.max_generation then
      some { h with profiler := { prof with
        logBuffer := some [], fileBuffer := some [], obj_base := 0, ptr_base := 0,
        logClasses := [] } }
    else some h
  | MonoGCEvent.PRE_START_WORLD =>
    if prof.fileBuffer ≠ none ∧ generation = rt.max_generation then
      match heap_walk rt prof walk with
      | none => none
      | some prof => some { h with profiler := { prof with do_heap_walk := false } }
    else some h
  | MonoGCEvent.POST_START_WORLD_UNLOCKED =>
    match prof.fileBuffer with
    | none => some h
    | some fileBuffer =>
      if generation = rt.max_generation then
        match prof.logBuffer with
        | none => none
        | some logBuffer =>
          let fileBuf := dump_buffer fileBuffer logBuffer prof now
          -- fopen("test.mlpd", "ab+"), fwrite, fclose
          some { profiler := { prof with fileBuffer := none, logBuffer := none },
                 test_mlpd := h.test_mlpd ++ fileBuf }
      else some h
  | MonoGCEvent.other => some h

/-- Source `_MonoProfiler::init`: the state of the zero-initialised static
`g_profiler` after `init()`; `now` is the clock reading. -/
def MonoProfiler.init (now : Nat) : MonoProfiler :=
  { gchandles := [], do_heap_walk := false, last_hs_time := now, logClasses := [],
    fileBuffer := none, logBuffer := none, obj_base := 0, ptr_base := 0 }

/-- Source `initFunction`, up to the end of `g_profiler.init()`: the trace
file is created (truncated) with the header and the profiler is set up. -/
def initFunction (now : Nat) : Host :=
  { profiler := MonoProfiler.init now, test_mlpd := dump_header [] }

/-- One thing that can happen to the profiler between its set-up and the
end of the process. -/
inductive Step where
  | gc_event (ev : MonoGCEvent) (generation : Int) (walk : HeapWalk) (now : Nat)
  | gc_roots (now : Nat) (collection_count : Int) (roots : List (Nat × Int × Nat))
  | request_walk

/-- Effect of one step; `request_walk` is the assignment
`g_profiler.do_heap_walk = true` of `GcDumpResource::StartTick`. -/
def step (rt : MonoRuntime) (h : Host) : Step → Option Host
  | Step.gc_event ev generation walk now => gc_event rt h ev generation walk now
  | Step.gc_roots now collection_count roots =>
    some { h with profiler := gc_roots h.profiler now collection_count roots }
  | Step.request_walk => some { h with profiler := { h.profiler with do_heap_walk := true } }

/-- Effect of a sequence of steps, in order. -/
def run (rt : MonoRuntime) (h : Host) : List Step → Option Host
  | [] => some h
  | s :: rest =>
    match step rt h s with
    | none => none
    | some h => run rt h rest

/-! ## Sequences of delta-encoder calls -/

/-- One call of the delta encoder on the current trace buffer. -/
inductive EmitCall where
  | obj (ptr : Nat)
  | ptr (ptr : Nat)

/-- Effect of one `emit_obj` or `emit_ptr` call. -/
def emit_call (g : MonoProfiler) (logbuffer : List Nat) : EmitCall → MonoProfiler × List Nat
  | EmitCall.obj a => emit_obj g logbuffer a
  | EmitCall.ptr a => emit_ptr g logbuffer a

/-- Effect of a sequence of `emit_obj` / `emit_ptr` calls, in order. -/
def emit_calls (g : MonoProfiler) (logbuffer : List Nat) :
    List EmitCall → MonoProfiler × List Nat
  | [] => (g, logbuffer)
  | c :: rest => emit_calls (emit_call g logbuffer c).1 (emit_call g logbuffer c).2 rest

/-- The address passed by the first `emit_obj` call of a sequence. -/
def first_obj : List EmitCall → Option Nat
  | [] => none
  | EmitCall.obj a :: _ => some a
  | EmitCall.ptr _ :: rest => first_obj rest

/-- The address passed by the first `emit_ptr` call of a sequence. -/
def first_ptr : List EmitCall → Option Nat
  | [] => none
  | EmitCall.ptr a :: _ => some a
  | EmitCall.obj _ :: rest => first_ptr rest

/-- The values `address >> 3` the `emit_obj` calls of a sequence encode. -/
def obj_values : List EmitCall → List Nat
  | [] => []
  | EmitCall.obj a :: rest => (a >>> 3) :: obj_values rest
  | EmitCall.ptr _ :: rest => obj_values rest

/-- The addresses the `emit_ptr` calls of a sequence encode. -/
def ptr_values : List EmitCall → List Nat
  | [] => []
  | EmitCall.ptr a :: rest => a :: ptr_values rest
  | EmitCall.obj _ :: rest => ptr_values rest

/-- The first nonzero element of a list, 0 when there is none. -/
def first_nonzero : List Nat → Nat
  | [] => 0
  | x :: rest => if x ≠ 0 then x else first_nonzero rest

/-- Reading of `n` consecutive signed varints. -/
def decode_svalues : Nat → List Nat → Option (List Int × List Nat)
  | 0, bytes => some ([], bytes)
  | n + 1, bytes =>
    match decode_sleb128 bytes with
    | none => none
    | some (v, rest) =>
      match decode_svalues n rest with
      | none => none
      | some (vs, rest) => some (v :: vs, rest)

/-- Replay of a delta against a recorded baseline, in 64-bit arithmetic. -/
def replay (base : Nat) (delta : Int) : Nat :=
  toUInt64 (delta + (base : Int))

/-- The object baseline field of a buffer record written by `dump_buffer`. -/
def record_obj_base (record : List Nat) : Nat :=
  le_value ((record.drop 24).take 8)

/-- The pointer baseline field of a buffer record written by `dump_buffer`. -/
def record_ptr_base (record : List Nat) : Nat :=
  le_value ((record.drop 16).take 8)

/-- The payload of a buffer record written by `dump_buffer`. -/
def record_payload (record : List Nat) : List Nat :=
  record.drop 48

/-- The buffer record `dump_buffer` writes for a trace buffer that was reset
and then received the given delta-encoder calls; `now` is the clock reading
of `dump_buffer`. -/
def record_of_calls (g : MonoProfiler) (now : Nat) (calls : List EmitCall) : List Nat :=
  dump_buffer []
    (emit_calls { g with obj_base := 0, ptr_base := 0 } [] calls).2
    (emit_calls { g with obj_base := 0, ptr_base := 0 } [] calls).1 now

/-! ## Reading a trace-buffer payload back -/

/-- The kinds of record a trace-buffer payload is made of. -/
inductive RecordKind where
  | HeapStart
  | HeapEnd
  | HeapObject
  | HeapRoot
  | ClassMeta
  deriving DecidableEq, Repr

/-- Skips `n` pairs (offset delta as unsigned varint, object reference as
signed varint) of a `HeapObject` record. -/
def skip_refs : Nat → List Nat → Option (List Nat)
  | 0, bytes => some bytes
  | n + 1, bytes =>
    (decode_uleb128 bytes).bind fun r1 =>
    (decode_sleb128 r1.2).bind fun r2 =>
    skip_refs n r2.2

/-- Skips `n` triples (object reference as signed varint, root kind byte,
extra info as unsigned varint) of a `HeapRoot` record. -/
def skip_roots : Nat → List Nat → Option (List Nat)
  | 0, bytes => some bytes
  | n + 1, bytes =>
    (decode_sleb128 bytes).bind fun r1 =>
    match r1.2 with
    | [] => none
    | _ :: bytes =>
      (decode_uleb128 bytes).bind fun r2 =>
      skip_roots n r2.2

/-- Skips a NUL-terminated byte string. -/
def skip_cstring : List Nat → Option (List Nat)
  | [] => none
  | c :: rest => if c = 0 then some rest else skip_cstring rest

/-- Reads one record: the tag byte, the timestamp (unsigned varint) and the
payload that belongs to the tag. Returns the kind of the record and the
unread bytes. -/
def parse_record : List Nat → Option (RecordKind × List Nat)
  | [] => none
  | tag :: bytes =>
    (decode_uleb128 bytes).bind fun time =>
    if tag = (TYPE_HEAP_START ||| TYPE_HEAP) then some (RecordKind.HeapStart, time.2)
    else if tag = (TYPE_HEAP_END ||| TYPE_HEAP) then some (RecordKind.HeapEnd, time.2)
    else if tag = (TYPE_HEAP_OBJECT ||| TYPE_HEAP) then
      (decode_sleb128 time.2).bind fun obj =>
      (decode_sleb128 obj.2).bind fun klass =>
      (decode_uleb128 klass.2).bind fun size =>
      (decode_uleb128 size.2).bind fun num =>
      (skip_refs num.1 num.2).bind fun rest =>
      some (RecordKind.HeapObject, rest)
    else if tag = (TYPE_HEAP_ROOT ||| TYPE_HEAP) then
      (decode_uleb128 time.2).bind fun num =>
      (decode_uleb128 num.2).bind fun count =>
      (skip_roots num.1 count.2).bind fun rest =>
      some (RecordKind.HeapRoot, rest)
    else if tag = (TYPE_END_LOAD ||| TYPE_METADATA) then
      match time.2 with
      | [] => none
      | mtype :: bytes =>
        if mtype = TYPE_CLASS then
          (decode_sleb128 bytes).bind fun klass =>
          (decode_sleb128 klass.2).bind fun image =>
          (decode_uleb128 image.2).bind fun flags =>
          (skip_cstring flags.2).bind fun rest =>
          some (RecordKind.ClassMeta, rest)
        else none
    else none

/-- Reads records until the input is exhausted; every record takes at least
one byte, so `fuel` equal to the input length is enough. -/
def parse_records : Nat → List Nat → Option (List RecordKind)
  | _, [] => some []
  | 0, _ :: _ => none
  | fuel + 1, b :: bytes =>
    (parse_record (b :: bytes)).bind fun r =>
    (parse_records fuel r.2).bind fun kinds =>
    some (r.1 :: kinds)

/-- Reads a whole payload as a sequence of records and returns their kinds. -/
def parse_payload (payload : List Nat) : Option (List RecordKind) :=
  parse_records payload.length payload

/-- The record sequence of a heap walk: `HeapStart`, then `HeapObject`
records, then `ClassMeta` records, then one `HeapEnd` and nothing else. -/
def well_formed_walk : List RecordKind → Bool
  | RecordKind.HeapStart :: rest =>
    decide (((rest.dropWhile (fun k => decide (k = RecordKind.HeapObject))).dropWhile
      (fun k => decide (k = RecordKind.ClassMeta))) = [RecordKind.HeapEnd])
  | _ => false

/-! ## One heap-walk cycle -/

/-- One root report: the clock reading, the collection count and the
reported roots. -/
structure RootReport where
  now : Nat
  collection_count : Int
  roots : List (Nat × Int × Nat)

/-- The step delivering a root report. -/
def RootReport.toStep (r : RootReport) : Step :=
  Step.gc_roots r.now r.collection_count r.roots

/-- The steps of one heap-walk cycle at the oldest generation: pre-pause,
root reports, post-pause-still-stopped (the heap walk), further root
reports, post-resume (the flush). -/
def cycle (rt : MonoRuntime) (before : List RootReport) (walk : HeapWalk)
    (after : List RootReport) (now : Nat) : List Step :=
  [Step.gc_event MonoGCEvent.PRE_STOP_WORLD rt.max_generation walk now]
    ++ before.map RootReport.toStep
    ++ [Step.gc_event MonoGCEvent.PRE_START_WORLD rt.max_generation walk now]
    ++ after.map RootReport.toStep
    ++ [Step.gc_event MonoGCEvent.POST_START_WORLD_UNLOCKED rt.max_generation walk now]

/-! ## A small concrete scenario -/

/-- A runtime whose oldest generation is 1 and whose classes are all named
`A` and live in the image at address 8192. -/
def demo_runtime : MonoRuntime :=
  { max_generation := 1, type_name := fun _ => [65, 0], class_image := fun _ => 8192 }

/-- The state right after start-up, with a heap walk requested. -/
def demo_host : Host :=
  { profiler := { MonoProfiler.init 0 with do_heap_walk := true }, test_mlpd := dump_header [] }

/-- A root report with one root. -/
def demo_report : RootReport :=
  { now := 1, collection_count := 3, roots := [(4096, 1, 0)] }

/-- A heap with a single object that holds one reference. -/
def demo_walk : HeapWalk :=
  { now_start := 2,
    objects := [{ now := 3, obj := 4096, klass := 65536, size := 24, refs := [(8, 4128)] }],
    now_class := fun _ => 4,
    now_end := 5 }

/-! ## Allocation trace aggregator -/

/-- The bytes of a string constant given by its characters. -/
def str (chars : List Char) : List Nat :=
  chars.map Char.toNat

/-- The string a C string pointer denotes: the bytes before the first NUL. -/
def c_str (memory : List Nat) : List Nat :=
  memory.takeWhile (fun c => c != 0)

/-- Source `join` with the default (empty) concluder. -/
def join (separator : List Nat) : List (List Nat) → List Nat
  | [] => []
  | first :: rest => rest.foldl (fun ss s => ss ++ separator ++ s) first

/-- One frame reported by `mono_stack_walk_no_il`; `full_name` is the memory
at the pointer `mono_method_full_name(method, true)` returns. -/
structure StackFrame where
  managed : Bool
  full_name : List Nat

/-- Source `walk_stack`: appends the description of one frame to the list
(the callback returns `false`, so the walk goes on to the next frame). -/
def walk_stack (list : List (List Nat)) (frame : StackFrame) : List (List Nat) :=
  if frame.managed then list ++ [c_str frame.full_name]
  else list ++ [str ['<', 'n', 'a', 't', 'i', 'v', 'e', ' ', 'c', 'o', 'd', 'e', '>']]

/-- The type name `gc_allocation` looks for,
`System.Threading.Tasks.Task<System.Threading.Tasks.Task>`. -/
def traced_type_name : List Nat :=
  str ['S', 'y', 's', 't', 'e', 'm', '.', 'T', 'h', 'r', 'e', 'a', 'd', 'i', 'n', 'g', '.',
       'T', 'a', 's', 'k', 's', '.', 'T', 'a', 's', 'k', '<',
       'S', 'y', 's', 't', 'e', 'm', '.', 'T', 'h', 'r', 'e', 'a', 'd', 'i', 'n', 'g', '.',
       'T', 'a', 's', 'k', 's', '.', 'T', 'a', 's', 'k', '>']

/-- The comparison `operator<` of `std::string`: lexicographic on bytes. -/
def bytes_lt : List Nat → List Nat → Bool
  | _, [] => false
  | [], _ :: _ => true
  | x :: xs, y :: ys => if x < y then true else if y < x then false else bytes_lt xs ys

/-- The comparison `operator<` of `std::pair<std::string, std::string>`. -/
def key_lt (a b : List Nat × List Nat) : Bool :=
  bytes_lt a.1 b.1 || (!bytes_lt b.1 a.1 && bytes_lt a.2 b.2)

/-- The member `find` of the `std::map`: the count stored under `key`. -/
def map_find : List ((List Nat × List Nat) × Nat) → List Nat × List Nat → Option Nat
  | [], _ => none
  | (k, count) :: rest, key => if key = k then some count else map_find rest key

/-- Assignment to the entry of a key present in the `std::map`. -/
def map_assign :
    List ((List Nat × List Nat) × Nat) → List Nat × List Nat → Nat →
      List ((List Nat × List Nat) × Nat)
  | [], _, _ => []
  | (k, count) :: rest, key, value =>
    if key = k then (k, value) :: rest else (k, count) :: map_assign rest key value

/-- Insertion of a key absent from the `std::map`, at its place in key
order. -/
def map_insert :
    List ((List Nat × List Nat) × Nat) → List Nat × List Nat → Nat →
      List ((List Nat × List Nat) × Nat)
  | [], key, value => [(key, value)]
  | (k, count) :: rest, key, value =>
    if key_lt key k then (key, value) :: (k, count) :: rest
    else (k, count) :: map_insert rest key value

/-- The member `insert_or_assign` of the `std::map`. -/
def insert_or_assign (m : List ((List Nat × List Nat) × Nat)) (key : List Nat × List Nat)
    (value : Nat) : List ((List Nat × List Nat) × Nat) :=
  match map_find m key with
  | some _ => map_assign m key value
  | none => map_insert m key value

/-- Source `gc_allocation` for an object of class `klass`, `frames` being
the frames `mono_stack_walk_no_il` reports; the count is a `uint64_t`. -/
def gc_allocation (rt : MonoRuntime) (prof : MonoProfiler) (klass : Nat)
    (frames : List StackFrame) : MonoProfiler :=
  let name := c_str (rt.type_name klass)
  if name = traced_type_name then
    let list := frames.foldl walk_stack []
    let traceStr := join [10] list
    let key := (name, traceStr)
    let ele := map_find prof.gchandles key
    let count :=
      match ele with
      | some second => (second + 1) % 2 ^ 64
      | none => 1
    { prof with gchandles := insert_or_assign prof.gchandles key count }
  else prof

/-- Source `_MonoProfiler::CopyTraces`. -/
def CopyTraces (prof : MonoProfiler) : List ((List Nat × List Nat) × Nat) :=
  prof.gchandles

/-- Source `_MonoProfiler::Clear`. -/
def Clear (prof : MonoProfiler) : MonoProfiler :=
  { prof with gchandles := [] }

/-! ## Dump scheduler -/

/-- The fields of source `class GcDumpResource`, two `int64_t` values:
clock readings in milliseconds once they have been assigned. -/
structure GcDumpResource where
  lastLog : Int
  lastStackLog : Int

/-- The subtraction `a - b` of two `int64_t` values as the two's complement
target computes it: the difference reduced modulo `2^64` into the range from
`-2^63` up to `2^63 - 1`. -/
def sub_int64 (a b : Int) : Int :=
  toInt64 (toUInt64 (a - b))

/-- The constructor of `GcDumpResource`: it stores the clock reading in
`lastLog` and does not initialise `lastStackLog`, whose value `uninit` is
whatever the memory held. -/
def GcDumpResource.construct (now : Int) (uninit : Int) : GcDumpResource :=
  { lastLog := now, lastStackLog := uninit }

/-- The comparator handed to `std::sort` in `StartTick`:
`std::get<2>(left) > std::get<2>(right)`. -/
def count_greater (left right : List Nat × List Nat × Nat) : Bool :=
  decide (left.2.2 > right.2.2)

/-- The order `std::sort` establishes for a comparator: `left` may stand
before `right` when the comparator does not put `right` first. -/
def not_after (left right : List Nat × List Nat × Nat) : Prop :=
  count_greater right left = false

instance not_after_decidable : DecidableRel not_after :=
  fun left right => inferInstanceAs (Decidable (count_greater right left = false))

/-- What `std::sort` guarantees for the call in `StartTick`, whatever
algorithm the library uses: the result is a rearrangement of the input in
which no entry stands before one the comparator puts first. The order of
entries of equal count is left to the library. -/
def SortsByCount (sort : List (List Nat × List Nat × Nat) → List (List Nat × List Nat × Nat)) :
    Prop :=
  ∀ list, (sort list).Perm list ∧ (sort list).Pairwise not_after

/-- One sorting function that meets `SortsByCount`, a stable insertion
sort; used for concrete runs. -/
def sort_by_count (list : List (List Nat × List Nat × Nat)) :
    List (List Nat × List Nat × Nat) :=
  list.insertionSort not_after

/-- The text `printf` writes for a `%d` argument. -/
def decimal (value : Int) : List Nat :=
  if value < 0 then 45 :: str (Nat.toDigits 10 value.natAbs)
  else str (Nat.toDigits 10 value.toNat)

/-- The string left in the buffer by `std::snprintf(buffer, size, ...)`
when the formatted text is `text`: at most `size - 1` bytes of it. -/
def snprintf (size : Nat) (text : List Nat) : List Nat :=
  text.take (size - 1)

/-- The text of the `snprintf` call of `StartTick` for one entry
`(typeName, stackText, count)`, format
`Called: %d, Caller: %s, Trace: %s`: `%d` reads the low 32 bits of the
`uint64_t` count as an `int`, `%s` reads a C string. -/
def format_entry (entry : List Nat × List Nat × Nat) : List Nat :=
  str ['C', 'a', 'l', 'l', 'e', 'd', ':', ' '] ++ decimal (toInt32 entry.2.2)
    ++ str [',', ' ', 'C', 'a', 'l', 'l', 'e', 'r', ':', ' '] ++ c_str entry.1
    ++ str [',', ' ', 'T', 'r', 'a', 'c', 'e', ':', ' '] ++ c_str entry.2.1

/-- The report `StartTick` builds from a snapshot of the map: the entries
sorted by descending count, each formatted into the 50000-byte buffer and
followed by four newline characters. `sort` is the library's `std::sort`
with the comparator `count_greater`. -/
def format_traces (sort : List (List Nat × List Nat × Nat) → List (List Nat × List Nat × Nat))
    (traces : List ((List Nat × List Nat) × Nat)) : List Nat :=
  let list := traces.map (fun it => (it.1.1, it.1.2, it.2))
  let list := sort list
  list.foldl (fun output entry => output ++ snprintf 50000 (format_entry entry)
    ++ [10, 10, 10, 10]) []

/-- What the scheduler acts on: the `GcDumpResource` itself, the profiler
with the trace file, and the content of the report file `stack.txt`. -/
structure TickWorld where
  self : GcDumpResource
  host : Host
  stack_txt : List Nat

/-- What one tick did: whether it forced a collection (the branch that
calls `mono_gc_collect`) and whether it flushed the aggregator (the branch
that writes `stack.txt`). -/
structure TickActions where
  collected : Bool
  flushed : Bool
  deriving DecidableEq

/-- Source `GcDumpResource::StartTick`; `msNow` is the clock reading,
`collection` the callbacks the collector delivers during
`mono_gc_collect` before it returns, and `sort` the library's `std::sort`
with the comparator `count_greater`. -/
def StartTick (rt : MonoRuntime)
    (sort : List (List Nat × List Nat × Nat) → List (List Nat × List Nat × Nat))
    (w : TickWorld) (msNow : Int) (collection : List Step) :
    Option (TickWorld × TickActions) :=
  let collect := decide (sub_int64 msNow w.self.lastLog > 2 * 60 * 1000)
  let afterCollect : Option TickWorld :=
    if collect then
      -- g_profiler.do_heap_walk = true; mono_gc_collect(mono_gc_max_generation())
      match run rt { w.host with profiler := { w.host.profiler with do_heap_walk := true } }
          collection with
      | none => none
      | some host => some { w with host := host, self := { w.self with lastLog := msNow } }
    else some w
  match afterCollect with
  | none => none
  | some w =>
    let flush := decide (sub_int64 msNow w.self.lastStackLog > 1 * 60 * 1000)
    if flush then
      let traces := CopyTraces w.host.profiler
      let prof := Clear w.host.profiler
      let output := format_traces sort traces
      -- fopen("stack.txt", "wb"), fwrite, fclose
      some ({ self := { w.self with lastStackLog := msNow },
              host := { w.host with profiler := prof },
              stack_txt := output }, { collected := collect, flushed := true })
    else some (w, { collected := collect, flushed := false })

/-- One tick of the host: the clock reading and the callbacks a forced
collection would deliver. -/
structure Tick where
  msNow : Int
  collection : List Step

/-- Effect of a sequence of ticks, in order, with the list of what each tick
did. -/
def run_ticks (rt : MonoRuntime)
    (sort : List (List Nat × List Nat × Nat) → List (List Nat × List Nat × Nat))
    (w : TickWorld) : List Tick → Option (TickWorld × List TickActions)
  | [] => some (w, [])
  | t :: rest =>
    match StartTick rt sort w t.msNow t.collection with
    | none => none
    | some r =>
      match run_ticks rt sort r.1 rest with
      | none => none
      | some r2 => some (r2.1, r.2 :: r2.2)

/-! ## Reading back the fields of a `HeapObject` record -/

/-- The fields of a `HeapObject` record before its reference pairs. -/
structure HeapObjectHead where
  time : Nat
  obj : Int
  klass : Int
  size : Nat
  num : Nat
  deriving DecidableEq

/-- Reads the tag byte of a `HeapObject` record, the timestamp, the object
and class deltas (signed varints) and the size and reference count
(unsigned varints). Returns the fields and the unread bytes. -/
def read_heap_object_head : List Nat → Option (HeapObjectHead × List Nat)
  | [] => none
  | tag :: bytes =>
    if tag = (TYPE_HEAP_OBJECT ||| TYPE_HEAP) then
      (decode_uleb128 bytes).bind fun time =>
      (decode_sleb128 time.2).bind fun obj =>
      (decode_sleb128 obj.2).bind fun klass =>
      (decode_uleb128 klass.2).bind fun size =>
      (decode_uleb128 size.2).bind fun num =>
      some ({ time := time.1, obj := obj.1, klass := klass.1, size := size.1, num := num.1 },
        num.2)
    else none

/-- Reads `n` pairs (offset value as unsigned varint, object reference as
signed varint). -/
def read_refs : Nat → List Nat → Option (List (Nat × Int) × List Nat)
  | 0, bytes => some ([], bytes)
  | n + 1, bytes =>
    (decode_uleb128 bytes).bind fun offset =>
    (decode_sleb128 offset.2).bind fun ref =>
    (read_refs n ref.2).bind fun rest =>
    some ((offset.1, ref.1) :: rest.1, rest.2)

/-- Reads a whole `HeapObject` record: the head and as many pairs as its
reference count says. -/
def read_heap_object (bytes : List Nat) :
    Option ((HeapObjectHead × List (Nat × Int)) × List Nat) :=
  (read_heap_object_head bytes).bind fun head =>
  (read_refs head.1.num head.2).bind fun refs =>
  some ((head.1, refs.1), refs.2)

/-- The running sums of a list of offset values: what a reader of the
record takes the field offsets to be. -/
def running_sums (start : Nat) : List Nat → List Nat
  | [] => []
  | value :: rest => (start + value) :: running_sums (start + value) rest

/-! ## Further concrete states -/

/-- The state reached from start-up by a walk request, a pre-pause at the
oldest generation and a root report without roots (clock 1, collection
count 3): the walk is requested, the staging buffer is empty and the trace
buffer holds the `HeapRoot` record. -/
def demo_capturing : Host :=
  { profiler := { MonoProfiler.init 0 with
      do_heap_walk := true, logBuffer := some [54, 1, 0, 3], fileBuffer := some [] },
    test_mlpd := dump_header [] }

/-- The scheduler right after start-up, both timestamps 0 and an empty
report file. -/
def demo_world : TickWorld :=
  { self := GcDumpResource.construct 0 0, host := initFunction 0, stack_txt := [] }

/-- Three ticks at 0, 30000 and 125000 ms; a collection forced by the third
delivers a pre-pause, a post-pause and a post-resume callback at the oldest
generation. -/
def demo_ticks : List Tick :=
  [{ msNow := 0, collection := [] },
   { msNow := 30000, collection := [] },
   { msNow := 125000, collection :=
      [Step.gc_event MonoGCEvent.PRE_STOP_WORLD 1 demo_walk 0,
       Step.gc_event MonoGCEvent.PRE_START_WORLD 1 demo_walk 0,
       Step.gc_event MonoGCEvent.POST_START_WORLD_UNLOCKED 1 demo_walk 6] }]

/-- A runtime in which every class is the traced task type. -/
def task_runtime : MonoRuntime :=
  { max_generation := 1, type_name := fun _ => traced_type_name ++ [0],
    class_image := fun _ => 8192 }

/-- Three allocations, the first and the last from the same stack. -/
def demo_allocations : List (Nat × List StackFrame) :=
  [(65536, [{ managed := true, full_name := [102, 0] }, { managed := false, full_name := [] }]),
   (65536, [{ managed := true, full_name := [103, 0] }]),
   (65536, [{ managed := true, full_name := [102, 0] }, { managed := false, full_name := [] }])]

/-- A snapshot with two keys, counted once and twice. -/
def demo_traces : List ((List Nat × List Nat) × Nat) :=
  [(([84], [102]), 1), (([84], [103]), 2)]

/-- The scheduler with the demo snapshot in the aggregator map. -/
def demo_flush_world : TickWorld :=
  { self := GcDumpResource.construct 0 0,
    host := { profiler := { MonoProfiler.init 0 with gchandles := demo_traces },
              test_mlpd := dump_header [] },
    stack_txt := [] }

/-! ## Reading back the fields of a `ClassMeta` record -/

/-- The fields of a `ClassMeta` record after its tag byte. -/
structure ClassMetaFields where
  time : Nat
  mtype : Nat
  klass : Int
  image : Int
  flags : Nat
  name : List Nat
  deriving DecidableEq

/-- Reads a NUL-terminated byte string. Returns the bytes before the NUL
and the unread bytes after it. -/
def read_cstring : List Nat → Option (List Nat × List Nat)
  | [] => none
  | c :: rest =>
    if c = 0 then some ([], rest)
    else (read_cstring rest).bind fun r => some (c :: r.1, r.2)

/-- Reads one `ClassMeta` record: the tag byte, the timestamp (unsigned
varint), the metadata kind byte, the class and image deltas (signed
varints), the flags (unsigned varint) and the NUL-terminated name. -/
def read_class_meta : List Nat → Option (ClassMetaFields × List Nat)
  | [] => none
  | tag :: bytes =>
    if tag = (TYPE_END_LOAD ||| TYPE_METADATA) then
      (decode_uleb128 bytes).bind fun time =>
      match time.2 with
      | [] => none
      | mtype :: bytes =>
        (decode_sleb128 bytes).bind fun klass =>
        (decode_sleb128 klass.2).bind fun image =>
        (decode_uleb128 image.2).bind fun flags =>
        (read_cstring flags.2).bind fun name =>
        some ({ time := time.1, mtype := mtype, klass := klass.1, image := image.1,
                flags := flags.1, name := name.1 }, name.2)
    else none

/-- Reads `n` `ClassMeta` records one after the other. -/
def read_class_metas : Nat → List Nat → Option (List ClassMetaFields × List Nat)
  | 0, bytes => some ([], bytes)
  | n + 1, bytes =>
    (read_class_meta bytes).bind fun first =>
    (read_class_metas n first.2).bind fun rest =>
    some (first.1 :: rest.1, rest.2)

/-- A heap with three objects, the first and the last of the same class. -/
def shared_class_walk : HeapWalk :=
  { now_start := 2,
    objects := [{ now := 3, obj := 4096, klass := 65536, size := 24, refs := [(8, 4128)] },
                { now := 3, obj := 4128, klass := 65600, size := 16, refs := [] },
                { now := 3, obj := 4160, klass := 65536, size := 24, refs := [] }],
    now_class := fun _ => 4,
    now_end := 5 }

/-! ## Auxiliary notions used in the proofs -/

/-- The profiler `g2` differs from `g1` at most in the two baselines. -/
structure SameButBases (g1 g2 : MonoProfiler) : Prop where
  gchandles : g2.gchandles = g1.gchandles
  do_heap_walk : g2.do_heap_walk = g1.do_heap_walk
  last_hs_time : g2.last_hs_time = g1.last_hs_time
  logClasses : g2.logClasses = g1.logClasses
  fileBuffer : g2.fileBuffer = g1.fileBuffer
  logBuffer : g2.logBuffer = g1.logBuffer

/-- The bytes `bytes` read back as records of the kinds `kinds`, whatever
records follow them. -/
def Emits (bytes : List Nat) (kinds : List RecordKind) : Prop :=
  kinds.length ≤ bytes.length
  ∧ ∀ (fuel : Nat) (rest : List Nat) (ks : List RecordKind),
      parse_records fuel rest = some ks →
      parse_records (fuel + kinds.length) (bytes ++ rest) = some (kinds ++ ks)

/-- The profiler after `emit_obj`. -/
def emit_obj_next (g : MonoProfiler) (a : Nat) : MonoProfiler :=
  (emit_obj g [] a).1

/-- The bytes `emit_obj` appends. -/
def emit_obj_bytes (g : MonoProfiler) (a : Nat) : List Nat :=
  encode_sleb128 (toInt64 (sub64 (a >>> 3) (emit_obj_next g a).obj_base)) []

/-- The profiler after `emit_ptr`. -/
def emit_ptr_next (g : MonoProfiler) (a : Nat) : MonoProfiler :=
  (emit_ptr g [] a).1

/-- The bytes `emit_ptr` appends. -/
def emit_ptr_bytes (g : MonoProfiler) (a : Nat) : List Nat :=
  encode_sleb128 (toInt64 (sub64 a (emit_ptr_next g a).ptr_base)) []

/-- The profiler after the loop of `gc_reference`. -/
def emit_refs_next (g : MonoProfiler) (last_offset : Nat) (refs : List (Nat × Nat)) :
    MonoProfiler :=
  (emit_refs g [] last_offset refs).1

/-- The bytes the loop of `gc_reference` appends. -/
def emit_refs_bytes (g : MonoProfiler) (last_offset : Nat) (refs : List (Nat × Nat)) :
    List Nat :=
  (emit_refs g [] last_offset refs).2

/-- Profilers that agree on everything but the trace buffer, the class
set and the baselines. -/
structure SameControl (g1 g2 : MonoProfiler) : Prop where
  gchandles : g2.gchandles = g1.gchandles
  do_heap_walk : g2.do_heap_walk = g1.do_heap_walk
  last_hs_time : g2.last_hs_time = g1.last_hs_time
  fileBuffer : g2.fileBuffer = g1.fileBuffer

/-- The profiler after `dump_classes`. -/
def dump_classes_next (rt : MonoRuntime) (now : Nat → Nat) (g : MonoProfiler)
    (classes : List Nat) : MonoProfiler :=
  (dump_classes rt now g [] classes).1

/-- The bytes `dump_classes` appends. -/
def dump_classes_bytes (rt : MonoRuntime) (now : Nat → Nat) (g : MonoProfiler)
    (classes : List Nat) : List Nat :=
  (dump_classes rt now g [] classes).2

/-- The profiler after the loop of `gc_roots`. -/
def emit_roots_next (g : MonoProfiler) (roots : List (Nat × Int × Nat)) : MonoProfiler :=
  (emit_roots g [] roots).1

/-- The bytes the loop of `gc_roots` appends. -/
def emit_roots_bytes (g : MonoProfiler) (roots : List (Nat × Int × Nat)) : List Nat :=
  (emit_roots g [] roots).2

/-- The trace buffer and the staging buffer are both absent or both
present. -/
def BuffersPaired (p : MonoProfiler) : Prop :=
  p.logBuffer = none ↔ p.fileBuffer = none

/-- The condition under which a step calls `heap_walk`: the guard of the
`MONO_GC_EVENT_PRE_START_WORLD` branch of `gc_event`. -/
def walker_runs (rt : MonoRuntime) (h : Host) : Step → Bool
  | Step.gc_event MonoGCEvent.PRE_START_WORLD generation _ _ =>
    decide (h.profiler.fileBuffer ≠ none ∧ generation = rt.max_generation)
  | _ => false

/-- Bookkeeping for "the heap walker has already run on the current
buffers": reset when a pre-pause allocates buffers, set when the walker
runs, otherwise kept. -/
def walked_after (rt : MonoRuntime) (h : Host) (walked : Bool) : Step → Bool
  | Step.gc_event MonoGCEvent.PRE_STOP_WORLD generation _ _ =>
    if h.profiler.do_heap_walk = true ∧ generation = rt.max_generation then false else walked
  | Step.gc_event MonoGCEvent.PRE_START_WORLD generation _ _ =>
    if h.profiler.fileBuffer ≠ none ∧ generation = rt.max_generation then true else walked
  | _ => walked

/-- Effect of a sequence of steps together with the bookkeeping of
`walked_after`. -/
def tracked_run (rt : MonoRuntime) : Host → Bool → List Step → Option (Host × Bool)
  | h, walked, [] => some (h, walked)
  | h, walked, s :: rest =>
    match step rt h s with
    | none => none
    | some h2 => tracked_run rt h2 (walked_after rt h walked s) rest

/-- What holds of every state the steps lead to: the two buffers are both
absent, or both present with the staging buffer still empty; and while
buffers exist on which the walker has not run yet, the walk is still
requested. -/
def Tracked (h : Host) (walked : Bool) : Prop :=
  ((h.profiler.logBuffer = none ∧ h.profiler.fileBuffer = none)
    ∨ (h.profiler.logBuffer ≠ none ∧ h.profiler.fileBuffer = some []))
  ∧ (h.profiler.fileBuffer ≠ none → walked = false → h.profiler.do_heap_walk = true)

/-- The state the `MONO_GC_EVENT_PRE_STOP_WORLD` branch of `gc_event`
produces when its guard holds: two new buffers, both baselines 0 and an empty
class set. -/
def start_capture (h : Host) : Host :=
  { h with profiler := { h.profiler with
      logBuffer := some [], fileBuffer := some [], obj_base := 0, ptr_base := 0,
      logClasses := [] } }

/-- The state the `MONO_GC_EVENT_POST_START_WORLD_UNLOCKED` branch of
`gc_event` produces when it writes `written` to the trace file. -/
def finish_capture (h : Host) (written : List Nat) : Host :=
  { profiler := { h.profiler with fileBuffer := none, logBuffer := none },
    test_mlpd := h.test_mlpd ++ written }

/-- Modelled from the spec: a throttled action with a cooldown of `interval`
milliseconds, last performed at time `last`, offered the tick times in
order. A tick arriving more than `interval` after the last performance
performs the action and becomes the new last performance; the result lists,
tick by tick, whether the action was performed. -/
def throttle_log (interval : Int) : Int → List Int → List Bool
  | _, [] => []
  | last, t :: rest =>
    if t - last > interval then true :: throttle_log interval t rest
    else false :: throttle_log interval last rest

/-- Modelled from the spec: the time of the last performance of the
throttled action of `throttle_log` after all the ticks. -/
def throttle_stamp (interval : Int) : Int → List Int → Int
  | last, [] => last
  | last, t :: rest =>
    if t - last > interval then throttle_stamp interval t rest
    else throttle_stamp interval last rest

/-- The flags of `StartTick` for one of its two actions, as the code
computes them: `last` is the stored timestamp, and a tick whose `int64_t`
difference to it exceeds `interval` performs the action and stores its own
time. -/
def tick_flags (interval : Int) : Int → List Int → List Bool
  | _, [] => []
  | last, t :: rest =>
    if sub_int64 t last > interval then true :: tick_flags interval t rest
    else false :: tick_flags interval last rest

/-- The stored timestamp of the action of `tick_flags` after all the
ticks. -/
def tick_stamp (interval : Int) : Int → List Int → Int
  | last, [] => last
  | last, t :: rest =>
    if sub_int64 t last > interval then tick_stamp interval t rest
    else tick_stamp interval last rest

/-- Modelled from the spec: the flags `flags` of a throttled action agree
with its cooldown. `previous` is the time of the previous performance, if
there was one; from then on a tick performs the action exactly when it comes
more than `interval` after the previous performance, and becomes the
previous performance itself. -/
def respects_cooldown (interval : Int) : Option Int → List Int → List Bool → Prop
  | _, [], [] => True
  | _, [], _ :: _ => False
  | _, _ :: _, [] => False
  | previous, t :: times, flag :: flags =>
    (∀ p, previous = some p → (flag = true ↔ t - p > interval))
      ∧ respects_cooldown interval (if flag = true then some t else previous) times flags

/-- Modelled from the spec: the time of the last tick that performed the
action, or `start` when none did. -/
def last_performed : Int → List Int → List Bool → Int
  | start, [], _ => start
  | start, _ :: _, [] => start
  | start, t :: times, flag :: flags =>
    last_performed (if flag = true then t else start) times flags

/-- The key under which `gc_allocation` counts an allocation. -/
def allocation_key (rt : MonoRuntime) (klass : Nat) (frames : List StackFrame) :
    List Nat × List Nat :=
  (c_str (rt.type_name klass), join [10] (frames.foldl walk_stack []))

/-- The calls of `gc_allocation` for the allocations `allocs`, one after the
other as the mutex serialises them. -/
def record_allocations (rt : MonoRuntime) (prof : MonoProfiler)
    (allocs : List (Nat × List StackFrame)) : MonoProfiler :=
  allocs.foldl (fun p a => gc_allocation rt p a.1 a.2) prof

/-- Modelled from the spec: the number of allocations recorded with `key`. -/
def tally (rt : MonoRuntime) (allocs : List (Nat × List StackFrame))
    (key : List Nat × List Nat) : Nat :=
  allocs.countP (fun a => decide (allocation_key rt a.1 a.2 = key))

/-- Modelled from the spec: the text
`Called: <count>, Caller: <typeName>, Trace: <stackText>` of one entry, the
count in decimal. -/
def report_line (entry : List Nat × List Nat × Nat) : List Nat :=
  str ['C', 'a', 'l', 'l', 'e', 'd', ':', ' '] ++ str (Nat.toDigits 10 entry.2.2)
    ++ str [',', ' ', 'C', 'a', 'l', 'l', 'e', 'r', ':', ' '] ++ entry.1
    ++ str [',', ' ', 'T', 'r', 'a', 'c', 'e', ':', ' '] ++ entry.2.1

instance not_after_total : IsTotal (List Nat × List Nat × Nat) not_after :=
  ⟨fun a b => by
    unfold not_after count_greater
    simp only [gt_iff_lt, decide_eq_false_iff_not, not_lt]
    exact le_total _ _⟩

instance not_after_trans : IsTrans (List Nat × List Nat × Nat) not_after :=
  ⟨fun a b c => by
    unfold not_after count_greater
    simp only [gt_iff_lt, decide_eq_false_iff_not, not_lt]
    exact fun h1 h2 => le_trans h2 h1⟩

/-- The size `gc_reference` computes from the reported size: `size += 7;
size &= ~7` on a `uintptr_t`. -/
def aligned_size (size : Nat) : Nat :=
  ((size + 7) % 2 ^ 64) &&& (2 ^ 64 - 8)

/-- The values the loop of `gc_reference` hands to `encode_uleb128` for the
offsets: `offsets[i] - last_offset` passed through the `int` parameter of
`emit_value`. -/
def offset_values (last_offset : Nat) : List (Nat × Nat) → List Nat
  | [] => []
  | (offset, _) :: rest =>
    toUInt64 (toInt32 (sub64 offset last_offset)) :: offset_values offset rest

/-- The class set after a heap enumeration that started with the set
`classes`: every reported object's class inserted, in order. -/
def visited_classes (classes : List Nat) (objects : List ObjectReport) : List Nat :=
  objects.foldl (fun set o => set_insert o.klass set) classes

/-- The bytes of the `ClassMeta` record `dump_classes` writes for the class
`klass` when the profiler is `g`: tag byte, timestamp, metadata kind byte,
class pointer and image pointer as deltas from the pointer baseline, flags,
name bytes and the terminating NUL. -/
def class_meta_record (rt : MonoRuntime) (now : Nat → Nat) (g : MonoProfiler) (klass : Nat) :
    List Nat :=
  [TYPE_END_LOAD ||| TYPE_METADATA] ++ encode_uleb128 (now klass) [] ++ [TYPE_CLASS]
    ++ encode_sleb128 (toInt64 (sub64 klass (emit_ptr_next g klass).ptr_base)) []
    ++ encode_sleb128 (toInt64 (sub64 (rt.class_image klass)
        (emit_ptr_next (emit_ptr_next g klass) (rt.class_image klass)).ptr_base)) []
    ++ [0] ++ c_str (rt.type_name klass) ++ [0]

/-- Modelled from the spec: the layout of a `ClassMeta` record with the
class pointer right after the timestamp. -/
def class_meta_layout (rt : MonoRuntime) (now : Nat → Nat) (g : MonoProfiler) (klass : Nat) :
    List Nat :=
  [TYPE_END_LOAD ||| TYPE_METADATA] ++ encode_uleb128 (now klass) []
    ++ encode_sleb128 (toInt64 (sub64 klass (emit_ptr_next g klass).ptr_base)) []
    ++ encode_sleb128 (toInt64 (sub64 (rt.class_image klass)
        (emit_ptr_next (emit_ptr_next g klass) (rt.class_image klass)).ptr_base)) []
    ++ [0] ++ c_str (rt.type_name klass) ++ [0]

/-- The profiler `heap_walk` hands to `mono_gc_walk_heap`: the trace buffer
`buf` holds the `HeapStart` record in addition. -/
def begin_walk (prof : MonoProfiler) (walk : HeapWalk) (buf : List Nat) : MonoProfiler :=
  { prof with
    logBuffer := some (emit_event walk.now_start buf ((TYPE_HEAP_START ||| TYPE_HEAP : Nat) : Int)) }

/-! # Lemmas -/

/-! ## Unsigned varint: facts -/

theorem byte_group_facts : ∀ b < 128,
    (b ||| 0x80) &&& 0x7f = b ∧ (b ||| 0x80) &&& 0x80 ≠ 0 ∧ b &&& 0x80 = 0 ∧ b &&& 0x7f = b
    ∧ b &&& 0xff = b ∧ (b ||| 0x80) &&& 0xff = b ||| 0x80 := by
  decide

/-- One unfolding of the loop of `encode_uleb128`, in arithmetic form. -/
theorem encode_uleb128_step (v : Nat) (buf : List Nat) :
    encode_uleb128 v buf =
      if v / 128 ≠ 0 then encode_uleb128 (v / 128) (buf ++ [v % 128 ||| 0x80])
      else buf ++ [v % 128] := by
  have hand : v &&& 0x7f = v % 128 := Nat.and_pow_two_sub_one_eq_mod v 7
  have hshift : v >>> 7 = v / 128 := by rw [Nat.shiftRight_eq_div_pow]
  have hlt : v % 128 < 128 := Nat.mod_lt _ (by decide)
  obtain ⟨-, -, -, -, h5, h6⟩ := byte_group_facts _ hlt
  rw [encode_uleb128]
  simp only [hand, hshift, put, le_bytes, h5, h6]

/-- The encoder only appends: its output is the sink followed by the bytes
it produces on an empty sink. -/
theorem encode_uleb128_append (v : Nat) (buf : List Nat) :
    encode_uleb128 v buf = buf ++ encode_uleb128 v [] := by
  induction v using Nat.strong_induction_on generalizing buf with
  | _ v ih =>
    rw [encode_uleb128_step v buf, encode_uleb128_step v []]
    by_cases h : v / 128 ≠ 0
    · have hlt : v / 128 < v := by omega
      rw [if_pos h, if_pos h, ih _ hlt (buf ++ _), ih _ hlt ([] ++ _)]
      simp
    · rw [if_neg h, if_neg h]
      simp

theorem decode_uleb128_cons (b : Nat) (rest : List Nat) :
    decode_uleb128 (b :: rest) =
      if b &&& 0x80 = 0 then some (b &&& 0x7f, rest)
      else
        match decode_uleb128 rest with
        | none => none
        | some (v, rest) => some ((b &&& 0x7f) + 128 * v, rest) := by
  rw [decode_uleb128]

theorem decode_encode_uleb128 (v : Nat) (rest : List Nat) :
    decode_uleb128 (encode_uleb128 v [] ++ rest) = some (v, rest) := by
  induction v using Nat.strong_induction_on with
  | _ v ih =>
    have hlt : v % 128 < 128 := Nat.mod_lt _ (by decide)
    obtain ⟨h1, h2, h3, h4, -, -⟩ := byte_group_facts _ hlt
    rw [encode_uleb128_step v []]
    by_cases h : v / 128 ≠ 0
    · have hlt2 : v / 128 < v := by omega
      have e : encode_uleb128 (v / 128) ([] ++ [v % 128 ||| 0x80]) ++ rest
          = (v % 128 ||| 0x80) :: (encode_uleb128 (v / 128) [] ++ rest) := by
        rw [encode_uleb128_append]
        simp
      rw [if_pos h, e, decode_uleb128_cons, if_neg h2, ih _ hlt2, h1]
      have hv : v % 128 + 128 * (v / 128) = v := Nat.mod_add_div v 128
      simp only [hv]
    · have e : ([] ++ [v % 128]) ++ rest = (v % 128) :: rest := by simp
      have hv : v % 128 = v := by omega
      rw [if_neg h, e, decode_uleb128_cons, if_pos h3, h4, hv]

theorem size_div_128 (v : Nat) (h : v / 128 ≠ 0) : Nat.size v = Nat.size (v / 128) + 7 := by
  have hs1 : 0 < Nat.size (v / 128) := Nat.size_pos.2 (Nat.pos_of_ne_zero h)
  have hub : v / 128 < 2 ^ Nat.size (v / 128) := Nat.lt_size_self _
  have hlb : 2 ^ (Nat.size (v / 128) - 1) ≤ v / 128 := Nat.lt_size.1 (by omega)
  apply le_antisymm
  · apply Nat.size_le.2
    rw [pow_add]
    norm_num
    omega
  · have h2 : Nat.size (v / 128) + 6 < Nat.size v := by
      apply Nat.lt_size.2
      have e : Nat.size (v / 128) + 6 = (Nat.size (v / 128) - 1) + 7 := by omega
      rw [e, pow_add]
      norm_num
      omega
    omega

theorem encode_uleb128_length (v : Nat) :
    (encode_uleb128 v []).length = max 1 ((Nat.size v + 6) / 7) := by
  induction v using Nat.strong_induction_on with
  | _ v ih =>
    rw [encode_uleb128_step v []]
    by_cases h : v / 128 ≠ 0
    · have hlt : v / 128 < v := by omega
      have hs1 : 0 < Nat.size (v / 128) := Nat.size_pos.2 (Nat.pos_of_ne_zero h)
      rw [if_pos h, encode_uleb128_append, List.length_append, ih _ hlt, size_div_128 v h]
      simp only [List.nil_append, List.length_singleton]
      omega
    · have hv : v < 2 ^ 7 := by norm_num; omega
      have hs : Nat.size v ≤ 7 := Nat.size_le.2 hv
      rw [if_neg h]
      simp only [List.nil_append, List.length_singleton]
      omega

theorem encode_uleb128_shape (v : Nat) :
    ∃ body last, encode_uleb128 v [] = body ++ [last]
      ∧ (∀ b ∈ body, b &&& 0x80 ≠ 0) ∧ last &&& 0x80 = 0 := by
  induction v using Nat.strong_induction_on with
  | _ v ih =>
    have hlt : v % 128 < 128 := Nat.mod_lt _ (by decide)
    obtain ⟨-, h2, h3, -, -, -⟩ := byte_group_facts _ hlt
    rw [encode_uleb128_step v []]
    by_cases h : v / 128 ≠ 0
    · have hlt2 : v / 128 < v := by omega
      obtain ⟨body, last, he, hb, hl⟩ := ih _ hlt2
      refine ⟨(v % 128 ||| 0x80) :: body, last, ?_, ?_, hl⟩
      · rw [if_pos h, encode_uleb128_append, he]
        simp
      · intro b hb2
        rcases List.mem_cons.1 hb2 with rfl | hm
        · exact h2
        · exact hb b hm
    · exact ⟨[], v % 128, by rw [if_neg h], by simp, h3⟩

/-! ## Signed varint: facts -/

theorem sign_bit_facts : ∀ b < 128, (b &&& 0x40 = 0 ↔ b < 64) := by
  decide

/-- One unfolding of the loop of `encode_sleb128` for a 64-bit value, in
arithmetic form: the loop stops exactly when the value fits in 7 bits. -/
theorem encode_sleb128_loop_step (v : Int) (buf : List Nat)
    (hlo : -(2 ^ 63) ≤ v) (hhi : v < 2 ^ 63) :
    encode_sleb128_loop (decide (v < 0)) v buf =
      if -64 ≤ v ∧ v < 64 then buf ++ [(v % 128).toNat]
      else encode_sleb128_loop (decide (v / 128 < 0)) (v / 128)
        (buf ++ [(v % 128).toNat ||| 0x80]) := by
  have hb : (v % 128).toNat < 128 := by omega
  have hbit := sign_bit_facts _ hb
  obtain ⟨-, -, -, -, h5, h6⟩ := byte_group_facts _ hb
  have hsign : decide (v / 128 < 0) = decide (v < 0) := by
    by_cases hv : v < 0
    · have : v / 128 < 0 := by omega
      simp [hv, this]
    · have : ¬ v / 128 < 0 := by omega
      simp [hv, this]
  have hval : (if decide (v < 0) = true then
        Int.lor (v / 128) (-((1 : Int) * 2 ^ (64 - 7))) else v / 128) = v / 128 := by
    by_cases hv : v < 0
    · rw [if_pos (by simpa using hv)]
      exact (sleb_lor_bounds (v / 128)).2.2.2 (by omega) (by omega)
    · rw [if_neg (by simpa using hv)]
  rw [encode_sleb128_loop]
  simp only [int_land_127, int_shiftRight_7, hval, hsign, put, le_bytes, h5, h6]
  by_cases hd : -64 ≤ v ∧ v < 64
  · rw [if_pos hd, if_pos]
    by_cases hv : v < 0
    · right
      refine ⟨by omega, ?_⟩
      intro hc
      have := hbit.1 hc
      omega
    · left
      refine ⟨by omega, hbit.2 (by omega)⟩
  · rw [if_neg hd, if_neg]
    rintro (⟨h1, h2⟩ | ⟨h1, h2⟩)
    · have := hbit.1 h2
      omega
    · have : ¬ (v % 128).toNat < 64 := fun hc => h2 (hbit.2 hc)
      omega

theorem encode_sleb128_loop_append (v : Int) (buf : List Nat)
    (hlo : -(2 ^ 63) ≤ v) (hhi : v < 2 ^ 63) :
    encode_sleb128_loop (decide (v < 0)) v buf
      = buf ++ encode_sleb128_loop (decide (v < 0)) v [] := by
  generalize hn : v.natAbs = n
  induction n using Nat.strong_induction_on generalizing v buf with
  | _ n ih =>
    rw [encode_sleb128_loop_step v buf hlo hhi, encode_sleb128_loop_step v [] hlo hhi]
    by_cases hd : -64 ≤ v ∧ v < 64
    · rw [if_pos hd, if_pos hd]
      simp
    · have hlt : (v / 128).natAbs < n := by omega
      rw [if_neg hd, if_neg hd, ih _ hlt (v / 128) (buf ++ _) (by omega) (by omega) rfl,
        ih _ hlt (v / 128) ([] ++ _) (by omega) (by omega) rfl]
      simp

theorem encode_sleb128_append (v : Int) (buf : List Nat)
    (hlo : -(2 ^ 63) ≤ v) (hhi : v < 2 ^ 63) :
    encode_sleb128 v buf = buf ++ encode_sleb128 v [] :=
  encode_sleb128_loop_append v buf hlo hhi

theorem decode_sleb128_cons (b : Nat) (rest : List Nat) :
    decode_sleb128 (b :: rest) =
      if b &&& 0x80 = 0 then
        some (if b &&& 0x40 = 0 then ((b &&& 0x7f : Nat) : Int)
              else ((b &&& 0x7f : Nat) : Int) - 128, rest)
      else
        match decode_sleb128 rest with
        | none => none
        | some (v, rest) => some (((b &&& 0x7f : Nat) : Int) + 128 * v, rest) := by
  rw [decode_sleb128]

theorem decode_encode_sleb128 (v : Int) (rest : List Nat)
    (hlo : -(2 ^ 63) ≤ v) (hhi : v < 2 ^ 63) :
    decode_sleb128 (encode_sleb128 v [] ++ rest) = some (v, rest) := by
  unfold encode_sleb128
  generalize hn : v.natAbs = n
  induction n using Nat.strong_induction_on generalizing v with
  | _ n ih =>
    have hb : (v % 128).toNat < 128 := by omega
    have hbit := sign_bit_facts _ hb
    obtain ⟨h1, h2, h3, h4, -, -⟩ := byte_group_facts _ hb
    rw [encode_sleb128_loop_step v [] hlo hhi]
    by_cases hd : -64 ≤ v ∧ v < 64
    · have e : ([] ++ [(v % 128).toNat]) ++ rest = (v % 128).toNat :: rest := by simp
      rw [if_pos hd, e, decode_sleb128_cons, if_pos h3, h4]
      by_cases hv : v < 0
      · have hnb : ¬ (v % 128).toNat &&& 0x40 = 0 := fun hc => by
          have := hbit.1 hc
          omega
        rw [if_neg hnb]
        simp only [Option.some.injEq, Prod.mk.injEq, and_true]
        omega
      · rw [if_pos (hbit.2 (by omega))]
        simp only [Option.some.injEq, Prod.mk.injEq, and_true]
        omega
    · have hlt : (v / 128).natAbs < n := by omega
      have e : encode_sleb128_loop (decide (v / 128 < 0)) (v / 128)
            ([] ++ [(v % 128).toNat ||| 0x80]) ++ rest
          = ((v % 128).toNat ||| 0x80)
              :: (encode_sleb128_loop (decide (v / 128 < 0)) (v / 128) [] ++ rest) := by
        rw [encode_sleb128_loop_append _ _ (by omega) (by omega)]
        simp
      rw [if_neg hd, e, decode_sleb128_cons, if_neg h2,
        ih _ hlt (v / 128) (by omega) (by omega) rfl, h1]
      simp only [Option.some.injEq, Prod.mk.injEq, and_true]
      omega

/-! ## Little-endian fields -/

theorem le_bytes_length (n var : Nat) : (le_bytes n var).length = n := by
  induction n generalizing var with
  | zero => rfl
  | succ n ih => simp [le_bytes, ih]

theorem le_bytes_lt (n var : Nat) : ∀ b ∈ le_bytes n var, b < 256 := by
  induction n generalizing var with
  | zero => simp [le_bytes]
  | succ n ih =>
    intro b hb
    simp only [le_bytes, List.mem_cons] at hb
    rcases hb with rfl | hb
    · have h := Nat.and_pow_two_sub_one_eq_mod var 8
      norm_num at h
      rw [h]
      omega
    · exact ih _ b hb

theorem le_value_le_bytes (n var : Nat) : le_value (le_bytes n var) = var % 2 ^ (8 * n) := by
  induction n generalizing var with
  | zero => simp [le_bytes, le_value, Nat.mod_one]
  | succ n ih =>
    have h := Nat.and_pow_two_sub_one_eq_mod var 8
    norm_num at h
    have hs : var >>> 8 = var / 256 := by rw [Nat.shiftRight_eq_div_pow]
    have hp : 2 ^ (8 * (n + 1)) = 256 * 2 ^ (8 * n) := by
      rw [Nat.mul_add, pow_add, Nat.mul_comm]
      norm_num
    simp only [le_bytes, le_value, ih, h, hs, hp]
    rw [Nat.mod_mul]

theorem le_value_le_bytes_of_lt (n var : Nat) (h : var < 2 ^ (8 * n)) :
    le_value (le_bytes n var) = var := by
  rw [le_value_le_bytes, Nat.mod_eq_of_lt h]

theorem take_append_len (l1 l2 : List Nat) (n : Nat) (h : l1.length = n) :
    (l1 ++ l2).take n = l1 :=
  List.take_left' h

theorem drop_append_len (l1 l2 : List Nat) (n : Nat) (h : l1.length = n) :
    (l1 ++ l2).drop n = l2 :=
  List.drop_left' h

theorem field_at (pre fld post : List Nat) (n k : Nat) (hpre : pre.length = n)
    (hf : fld.length = k) : ((pre ++ (fld ++ post)).drop n).take k = fld := by
  rw [drop_append_len _ _ _ hpre, take_append_len _ _ _ hf]

theorem dump_buffer_eq (buf p : List Nat) (g : MonoProfiler) (now : Nat) :
    dump_buffer buf p g now = buf ++ (le_bytes 4 0x4D504C01 ++ (le_bytes 4 p.length
      ++ (le_bytes 8 now ++ (le_bytes 8 g.ptr_base ++ (le_bytes 8 g.obj_base
      ++ (le_bytes 8 1 ++ (le_bytes 8 0 ++ p))))))) := by
  simp [dump_buffer, put, List.append_assoc]

theorem dump_header_eq (buf : List Nat) :
    dump_header buf = buf ++ [0x01, 0x5A, 0x50, 0x4D, 1, 1, 0, 8, 0, 0, 0, 0, 0, 0, 0, 0,
      0, 0, 0, 0, 0, 0, 0, 0, 0, 0, 0, 0, 0, 0, 0, 0] := by
  simp only [dump_header, put, le_bytes, List.append_assoc, List.cons_append, List.nil_append,
    List.append_nil]
  have e : (0x4D505A01 &&& 0xff = 0x01 ∧ (0x4D505A01 >>> 8) &&& 0xff = 0x5A
      ∧ (0x4D505A01 >>> 8 >>> 8) &&& 0xff = 0x50 ∧ (0x4D505A01 >>> 8 >>> 8 >>> 8) &&& 0xff = 0x4D)
      ∧ 1 &&& 0xff = 1 ∧ 0 &&& 0xff = 0 ∧ 8 &&& 0xff = 8 ∧ 0 >>> 8 = 0 := by decide
  obtain ⟨⟨e1, e2, e3, e4⟩, e5, e6, e7, e8⟩ := e
  simp only [e1, e2, e3, e4, e5, e6, e7, e8]

/-! ## Delta encoder: facts -/

theorem toInt64_range (w : Nat) : -(2 ^ 63) ≤ toInt64 w ∧ toInt64 w < 2 ^ 63 := by
  unfold toInt64
  split_ifs <;> omega

/-- The value `toInt64 (sub64 a b)` is the representative of `a - b` modulo
`2^64` in the signed 64-bit range. -/
theorem toInt64_sub64 (a b : Nat) :
    (toInt64 (sub64 a b) - ((a : Int) - (b : Int))) % 2 ^ 64 = 0 := by
  unfold toInt64 sub64 toUInt64
  split_ifs <;> omega

theorem sub64_self (a : Nat) : sub64 a a = 0 := by
  unfold sub64 toUInt64
  simp

theorem toInt64_zero : toInt64 0 = 0 := by
  decide

theorem encode_sleb128_zero (buf : List Nat) : encode_sleb128 0 buf = buf ++ [0x00] := by
  have h := encode_sleb128_loop_step 0 buf (by norm_num) (by norm_num)
  rw [if_pos (by norm_num)] at h
  exact h

theorem emit_svalue_append (buf : List Nat) (w : Nat) :
    emit_svalue buf (toInt64 w) = buf ++ encode_sleb128 (toInt64 w) [] :=
  encode_sleb128_append _ _ (toInt64_range w).1 (toInt64_range w).2

theorem emit_obj_fst (g : MonoProfiler) (buf : List Nat) (a : Nat) :
    (emit_obj g buf a).1 = if g.obj_base = 0 then { g with obj_base := a >>> 3 } else g :=
  rfl

theorem emit_obj_snd (g : MonoProfiler) (buf : List Nat) (a : Nat) :
    (emit_obj g buf a).2
      = buf ++ encode_sleb128 (toInt64 (sub64 (a >>> 3) (emit_obj g buf a).1.obj_base)) [] := by
  rw [emit_obj_fst]
  exact emit_svalue_append _ _

theorem emit_ptr_fst (g : MonoProfiler) (buf : List Nat) (a : Nat) :
    (emit_ptr g buf a).1 = if g.ptr_base = 0 then { g with ptr_base := a } else g :=
  rfl

theorem emit_ptr_snd (g : MonoProfiler) (buf : List Nat) (a : Nat) :
    (emit_ptr g buf a).2
      = buf ++ encode_sleb128 (toInt64 (sub64 a (emit_ptr g buf a).1.ptr_base)) [] := by
  rw [emit_ptr_fst]
  exact emit_svalue_append _ _

/-! ## Sanity checks of the encoders on concrete values -/

theorem encode_uleb128_300 : encode_uleb128 300 [] = [0xAC, 0x02] := by
  rw [encode_uleb128_step, if_pos (by decide), encode_uleb128_step, if_neg (by decide)]
  decide

theorem encode_sleb128_minus_65 : encode_sleb128 (-65) [] = [0xBF, 0x7F] := by
  unfold encode_sleb128
  rw [encode_sleb128_loop_step _ _ (by norm_num) (by norm_num), if_neg (by norm_num)]
  have e : ((-65 : Int) / 128) = -1 := by norm_num
  rw [e, encode_sleb128_loop_step _ _ (by norm_num) (by norm_num), if_pos (by norm_num)]
  decide

theorem emit_calls_append (g : MonoProfiler) (buf : List Nat) (pre post : List EmitCall) :
    emit_calls g buf (pre ++ post)
      = emit_calls (emit_calls g buf pre).1 (emit_calls g buf pre).2 post := by
  induction pre generalizing g buf with
  | nil => rfl
  | cons c pre ih =>
    show emit_calls (emit_call g buf c).1 (emit_call g buf c).2 (pre ++ post) = _
    rw [ih]
    rfl

theorem emit_calls_obj_base (g : MonoProfiler) (buf : List Nat) (calls : List EmitCall) :
    (emit_calls g buf calls).1.obj_base
      = if g.obj_base ≠ 0 then g.obj_base else first_nonzero (obj_values calls) := by
  induction calls generalizing g buf with
  | nil =>
    simp only [emit_calls, obj_values, first_nonzero]
    split_ifs <;> simp_all
  | cons c calls ih =>
    cases c with
    | obj a =>
      simp only [emit_calls, emit_call, ih, emit_obj_fst, obj_values, first_nonzero]
      by_cases hg : g.obj_base = 0
      · by_cases ha : a >>> 3 = 0
        · simp [hg, ha]
        · simp [hg, ha]
      · simp [hg]
    | ptr a =>
      simp only [emit_calls, emit_call, ih, emit_ptr_fst, obj_values]
      by_cases hg : g.ptr_base = 0 <;> simp [hg]

theorem emit_calls_ptr_base (g : MonoProfiler) (buf : List Nat) (calls : List EmitCall) :
    (emit_calls g buf calls).1.ptr_base
      = if g.ptr_base ≠ 0 then g.ptr_base else first_nonzero (ptr_values calls) := by
  induction calls generalizing g buf with
  | nil =>
    simp only [emit_calls, ptr_values, first_nonzero]
    split_ifs <;> simp_all
  | cons c calls ih =>
    cases c with
    | ptr a =>
      simp only [emit_calls, emit_call, ih, emit_ptr_fst, ptr_values, first_nonzero]
      by_cases hg : g.ptr_base = 0
      · by_cases ha : a = 0
        · simp [hg, ha]
        · simp [hg, ha]
      · simp [hg]
    | obj a =>
      simp only [emit_calls, emit_call, ih, emit_obj_fst, ptr_values]
      by_cases hg : g.obj_base = 0 <;> simp [hg]

/-! ## Replaying deltas against the recorded baselines -/

theorem decode_svalues_succ (n : Nat) (bytes : List Nat) :
    decode_svalues (n + 1) bytes =
      match decode_sleb128 bytes with
      | none => none
      | some (v, rest) =>
        match decode_svalues n rest with
        | none => none
        | some (vs, rest) => some (v :: vs, rest) := by
  rw [decode_svalues]

theorem decode_svalues_cons (n : Nat) (w : Nat) (bytes rest : List Nat) (vs : List Int)
    (h : decode_svalues n (bytes ++ rest) = some (vs, rest)) :
    decode_svalues (n + 1) ((encode_sleb128 (toInt64 w) [] ++ bytes) ++ rest)
      = some (toInt64 w :: vs, rest) := by
  rw [decode_svalues_succ, List.append_assoc,
    decode_encode_sleb128 _ _ (toInt64_range w).1 (toInt64_range w).2]
  simp only [h]

theorem record_payload_dump_buffer (p : List Nat) (g : MonoProfiler) (now : Nat) :
    record_payload (dump_buffer [] p g now) = p := by
  rw [dump_buffer_eq, List.nil_append]
  have h := drop_append_len (le_bytes 4 0x4D504C01 ++ le_bytes 4 p.length
        ++ le_bytes 8 now ++ le_bytes 8 g.ptr_base ++ le_bytes 8 g.obj_base ++ le_bytes 8 1
        ++ le_bytes 8 0) p 48 (by simp [le_bytes_length])
  simpa only [record_payload, List.append_assoc] using h

theorem record_obj_base_dump_buffer (p : List Nat) (g : MonoProfiler) (now : Nat) :
    record_obj_base (dump_buffer [] p g now) = g.obj_base % 2 ^ 64 := by
  rw [dump_buffer_eq, List.nil_append]
  have h := field_at (le_bytes 4 0x4D504C01 ++ le_bytes 4 p.length ++ le_bytes 8 now
        ++ le_bytes 8 g.ptr_base)
      (le_bytes 8 g.obj_base) (le_bytes 8 1 ++ (le_bytes 8 0 ++ p)) 24 8
      (by simp [le_bytes_length]) (le_bytes_length _ _)
  simp only [List.append_assoc] at h
  rw [record_obj_base, h, le_value_le_bytes]

theorem record_ptr_base_dump_buffer (p : List Nat) (g : MonoProfiler) (now : Nat) :
    record_ptr_base (dump_buffer [] p g now) = g.ptr_base % 2 ^ 64 := by
  rw [dump_buffer_eq, List.nil_append]
  have h := field_at (le_bytes 4 0x4D504C01 ++ le_bytes 4 p.length ++ le_bytes 8 now)
      (le_bytes 8 g.ptr_base) (le_bytes 8 g.obj_base
        ++ (le_bytes 8 1 ++ (le_bytes 8 0 ++ p))) 16 8
      (by simp [le_bytes_length]) (le_bytes_length _ _)
  simp only [List.append_assoc] at h
  rw [record_ptr_base, h, le_value_le_bytes]

theorem replay_delta (v b : Nat) (hv : v < 2 ^ 64) :
    replay (b % 2 ^ 64) (toInt64 (sub64 v b)) = v := by
  unfold replay toInt64 sub64 toUInt64
  split_ifs <;> omega

/-- Emission of object addresses once the object baseline is set. -/
theorem emit_objs_base_set (g : MonoProfiler) (hb : g.obj_base ≠ 0) (addrs : List Nat)
    (buf rest : List Nat) :
    ∃ bytes, emit_calls g buf (addrs.map EmitCall.obj) = (g, buf ++ bytes)
      ∧ decode_svalues addrs.length (bytes ++ rest)
          = some (addrs.map (fun a => toInt64 (sub64 (a >>> 3) g.obj_base)), rest) := by
  induction addrs generalizing buf with
  | nil => exact ⟨[], by simp [emit_calls], by simp [decode_svalues]⟩
  | cons a addrs ih =>
    have h1 : (emit_obj g buf a).1 = g := by rw [emit_obj_fst, if_neg hb]
    have h2 : (emit_obj g buf a).2
        = buf ++ encode_sleb128 (toInt64 (sub64 (a >>> 3) g.obj_base)) [] := by
      rw [emit_obj_snd, h1]
    obtain ⟨bytes, he, hd⟩ := ih (buf ++ encode_sleb128 (toInt64 (sub64 (a >>> 3) g.obj_base)) [])
    refine ⟨encode_sleb128 (toInt64 (sub64 (a >>> 3) g.obj_base)) [] ++ bytes, ?_, ?_⟩
    · simp only [List.map_cons, emit_calls, emit_call, h1, h2, he, List.append_assoc]
    · simp only [List.map_cons, List.length_cons]
      exact decode_svalues_cons _ _ _ _ _ hd

/-- Emission of object addresses below 8 while the object baseline is unset. -/
theorem emit_objs_zeros (g : MonoProfiler) (hb : g.obj_base = 0) (zs : List Nat)
    (hz : ∀ a ∈ zs, a >>> 3 = 0) (buf : List Nat) :
    ∃ bytes, emit_calls g buf (zs.map EmitCall.obj) = (g, buf ++ bytes)
      ∧ ∀ (n : Nat) (more rest : List Nat) (vs : List Int),
          decode_svalues n (more ++ rest) = some (vs, rest) →
          decode_svalues (zs.length + n) ((bytes ++ more) ++ rest)
            = some (List.replicate zs.length 0 ++ vs, rest) := by
  induction zs generalizing buf with
  | nil =>
    refine ⟨[], by simp [emit_calls], ?_⟩
    intro n more rest vs h
    simpa using h
  | cons a zs ih =>
    have ha : a >>> 3 = 0 := hz a (List.mem_cons_self _ _)
    have h1 : (emit_obj g buf a).1 = g := by
      rw [emit_obj_fst, if_pos hb, ha]
      cases g
      simp only at hb
      simp [hb]
    have h2 : (emit_obj g buf a).2 = buf ++ encode_sleb128 (toInt64 0) [] := by
      rw [emit_obj_snd, h1, ha, hb, sub64_self]
    obtain ⟨bytes, he, hd⟩ := ih (fun x hx => hz x (List.mem_cons_of_mem _ hx))
      (buf ++ encode_sleb128 (toInt64 0) [])
    refine ⟨encode_sleb128 (toInt64 0) [] ++ bytes, ?_, ?_⟩
    · simp only [List.map_cons, emit_calls, emit_call, h1, h2, he, List.append_assoc]
    · intro n more rest vs h
      have h3 := decode_svalues_cons (zs.length + n) 0 (bytes ++ more) rest _ (hd n more rest vs h)
      rw [toInt64_zero] at h3
      have e : (a :: zs).length + n = zs.length + n + 1 := by simp; omega
      rw [e]
      simpa [List.replicate_succ, toInt64_zero, List.append_assoc] using h3

/-- Emission of object addresses starting with one that sets the baseline. -/
theorem emit_objs_first (g : MonoProfiler) (hb : g.obj_base = 0) (a : Nat) (rs : List Nat)
    (ha : a >>> 3 ≠ 0) (buf rest : List Nat) :
    ∃ bytes, emit_calls g buf ((a :: rs).map EmitCall.obj)
        = ({ g with obj_base := a >>> 3 }, buf ++ bytes)
      ∧ decode_svalues (a :: rs).length (bytes ++ rest)
          = some ((a :: rs).map (fun x => toInt64 (sub64 (x >>> 3) (a >>> 3))), rest) := by
  have h1 : (emit_obj g buf a).1 = { g with obj_base := a >>> 3 } := by
    rw [emit_obj_fst, if_pos hb]
  have h2 : (emit_obj g buf a).2
      = buf ++ encode_sleb128 (toInt64 (sub64 (a >>> 3) (a >>> 3))) [] := by
    rw [emit_obj_snd, h1]
  obtain ⟨bytes, he, hd⟩ := emit_objs_base_set { g with obj_base := a >>> 3 } ha rs
    (buf ++ encode_sleb128 (toInt64 (sub64 (a >>> 3) (a >>> 3))) []) rest
  refine ⟨encode_sleb128 (toInt64 (sub64 (a >>> 3) (a >>> 3))) [] ++ bytes, ?_, ?_⟩
  · simp only [List.map_cons, emit_calls, emit_call, h1, h2, he, List.append_assoc]
  · simp only [List.map_cons, List.length_cons]
    exact decode_svalues_cons _ _ _ _ _ hd

/-- Replay of a buffer of object references: the deltas emitted before the
first address with a nonzero `a >> 3` are 0, and every delta from that
address on, added to the recorded object baseline, gives `a >> 3`. -/
theorem replay_objects_core (g : MonoProfiler) (now : Nat) (zs rs : List Nat)
    (hz : ∀ a ∈ zs, a >>> 3 = 0) (hr : ∀ a, rs.head? = some a → a >>> 3 ≠ 0)
    (hlt : ∀ a ∈ rs, a < 2 ^ 64) :
    ∃ ds, decode_svalues (zs ++ rs).length
          (record_payload (record_of_calls g now ((zs ++ rs).map EmitCall.obj)))
        = some (List.replicate zs.length 0 ++ ds, [])
      ∧ ds.map (replay (record_obj_base (record_of_calls g now ((zs ++ rs).map EmitCall.obj))))
        = rs.map (fun a => a >>> 3)
      ∧ record_obj_base (record_of_calls g now ((zs ++ rs).map EmitCall.obj))
        = (rs.headD 0 >>> 3) % 2 ^ 64 := by
  unfold record_of_calls
  rw [record_payload_dump_buffer, record_obj_base_dump_buffer, List.map_append,
    emit_calls_append]
  obtain ⟨bz, hez, hdz⟩ := emit_objs_zeros { g with obj_base := 0, ptr_base := 0 } rfl zs hz []
  rw [hez]
  simp only [List.nil_append, List.length_append]
  cases rs with
  | nil =>
    refine ⟨[], ?_, by simp, by simp [emit_calls]⟩
    have h := hdz 0 [] [] [] (by simp [decode_svalues])
    simpa [emit_calls] using h
  | cons a rs =>
    have ha : a >>> 3 ≠ 0 := hr a rfl
    obtain ⟨br, her, hdr⟩ := emit_objs_first { g with obj_base := 0, ptr_base := 0 } rfl a rs ha bz []
    rw [her]
    refine ⟨(a :: rs).map (fun x => toInt64 (sub64 (x >>> 3) (a >>> 3))), ?_, ?_, rfl⟩
    · have h := hdz _ br [] _ hdr
      simpa using h
    · simp only [List.map_map]
      apply List.map_congr_left
      intro x hx
      have hx64 : x >>> 3 < 2 ^ 64 := by
        have := hlt x hx
        rw [Nat.shiftRight_eq_div_pow]
        omega
      exact replay_delta (x >>> 3) (a >>> 3) hx64

/-- Emission of pointers once the pointer baseline is set. -/
theorem emit_ptrs_base_set (g : MonoProfiler) (hb : g.ptr_base ≠ 0) (addrs : List Nat)
    (buf rest : List Nat) :
    ∃ bytes, emit_calls g buf (addrs.map EmitCall.ptr) = (g, buf ++ bytes)
      ∧ decode_svalues addrs.length (bytes ++ rest)
          = some (addrs.map (fun a => toInt64 (sub64 a g.ptr_base)), rest) := by
  induction addrs generalizing buf with
  | nil => exact ⟨[], by simp [emit_calls], by simp [decode_svalues]⟩
  | cons a addrs ih =>
    have h1 : (emit_ptr g buf a).1 = g := by rw [emit_ptr_fst, if_neg hb]
    have h2 : (emit_ptr g buf a).2
        = buf ++ encode_sleb128 (toInt64 (sub64 a g.ptr_base)) [] := by
      rw [emit_ptr_snd, h1]
    obtain ⟨bytes, he, hd⟩ := ih (buf ++ encode_sleb128 (toInt64 (sub64 a g.ptr_base)) [])
    refine ⟨encode_sleb128 (toInt64 (sub64 a g.ptr_base)) [] ++ bytes, ?_, ?_⟩
    · simp only [List.map_cons, emit_calls, emit_call, h1, h2, he, List.append_assoc]
    · simp only [List.map_cons, List.length_cons]
      exact decode_svalues_cons _ _ _ _ _ hd

/-- Emission of null pointers while the pointer baseline is unset. -/
theorem emit_ptrs_zeros (g : MonoProfiler) (hb : g.ptr_base = 0) (zs : List Nat)
    (hz : ∀ a ∈ zs, a = 0) (buf : List Nat) :
    ∃ bytes, emit_calls g buf (zs.map EmitCall.ptr) = (g, buf ++ bytes)
      ∧ ∀ (n : Nat) (more rest : List Nat) (vs : List Int),
          decode_svalues n (more ++ rest) = some (vs, rest) →
          decode_svalues (zs.length + n) ((bytes ++ more) ++ rest)
            = some (List.replicate zs.length 0 ++ vs, rest) := by
  induction zs generalizing buf with
  | nil =>
    refine ⟨[], by simp [emit_calls], ?_⟩
    intro n more rest vs h
    simpa using h
  | cons a zs ih =>
    have ha : a = 0 := hz a (List.mem_cons_self _ _)
    have h1 : (emit_ptr g buf a).1 = g := by
      rw [emit_ptr_fst, if_pos hb, ha]
      cases g
      simp only at hb
      simp [hb]
    have h2 : (emit_ptr g buf a).2 = buf ++ encode_sleb128 (toInt64 0) [] := by
      rw [emit_ptr_snd, h1, ha, hb, sub64_self]
    obtain ⟨bytes, he, hd⟩ := ih (fun x hx => hz x (List.mem_cons_of_mem _ hx))
      (buf ++ encode_sleb128 (toInt64 0) [])
    refine ⟨encode_sleb128 (toInt64 0) [] ++ bytes, ?_, ?_⟩
    · simp only [List.map_cons, emit_calls, emit_call, h1, h2, he, List.append_assoc]
    · intro n more rest vs h
      have h3 := decode_svalues_cons (zs.length + n) 0 (bytes ++ more) rest _ (hd n more rest vs h)
      rw [toInt64_zero] at h3
      have e : (a :: zs).length + n = zs.length + n + 1 := by simp; omega
      rw [e]
      simpa [List.replicate_succ, toInt64_zero, List.append_assoc] using h3

/-- Emission of pointers starting with one that sets the baseline. -/
theorem emit_ptrs_first (g : MonoProfiler) (hb : g.ptr_base = 0) (a : Nat) (rs : List Nat)
    (ha : a ≠ 0) (buf rest : List Nat) :
    ∃ bytes, emit_calls g buf ((a :: rs).map EmitCall.ptr)
        = ({ g with ptr_base := a }, buf ++ bytes)
      ∧ decode_svalues (a :: rs).length (bytes ++ rest)
          = some ((a :: rs).map (fun x => toInt64 (sub64 x a)), rest) := by
  have h1 : (emit_ptr g buf a).1 = { g with ptr_base := a } := by
    rw [emit_ptr_fst, if_pos hb]
  have h2 : (emit_ptr g buf a).2
      = buf ++ encode_sleb128 (toInt64 (sub64 a a)) [] := by
    rw [emit_ptr_snd, h1]
  obtain ⟨bytes, he, hd⟩ := emit_ptrs_base_set { g with ptr_base := a } ha rs
    (buf ++ encode_sleb128 (toInt64 (sub64 a a)) []) rest
  refine ⟨encode_sleb128 (toInt64 (sub64 a a)) [] ++ bytes, ?_, ?_⟩
  · simp only [List.map_cons, emit_calls, emit_call, h1, h2, he, List.append_assoc]
  · simp only [List.map_cons, List.length_cons]
    exact decode_svalues_cons _ _ _ _ _ hd

/-- Replay of a buffer of pointers: the deltas emitted before the
first address with a nonzero `a >> 3` are 0, and every delta from that
address on, added to the recorded pointer baseline, gives `a >> 3`. -/
theorem replay_pointers_core (g : MonoProfiler) (now : Nat) (zs rs : List Nat)
    (hz : ∀ a ∈ zs, a = 0) (hr : ∀ a, rs.head? = some a → a ≠ 0)
    (hlt : ∀ a ∈ rs, a < 2 ^ 64) :
    ∃ ds, decode_svalues (zs ++ rs).length
          (record_payload (record_of_calls g now ((zs ++ rs).map EmitCall.ptr)))
        = some (List.replicate zs.length 0 ++ ds, [])
      ∧ ds.map (replay (record_ptr_base (record_of_calls g now ((zs ++ rs).map EmitCall.ptr))))
        = rs
      ∧ record_ptr_base (record_of_calls g now ((zs ++ rs).map EmitCall.ptr))
        = rs.headD 0 % 2 ^ 64 := by
  unfold record_of_calls
  rw [record_payload_dump_buffer, record_ptr_base_dump_buffer, List.map_append,
    emit_calls_append]
  obtain ⟨bz, hez, hdz⟩ := emit_ptrs_zeros { g with obj_base := 0, ptr_base := 0 } rfl zs hz []
  rw [hez]
  simp only [List.nil_append, List.length_append]
  cases rs with
  | nil =>
    refine ⟨[], ?_, by simp, by simp [emit_calls]⟩
    have h := hdz 0 [] [] [] (by simp [decode_svalues])
    simpa [emit_calls] using h
  | cons a rs =>
    have ha : a ≠ 0 := hr a rfl
    obtain ⟨br, her, hdr⟩ := emit_ptrs_first { g with obj_base := 0, ptr_base := 0 } rfl a rs ha bz []
    rw [her]
    refine ⟨(a :: rs).map (fun x => toInt64 (sub64 x a)), ?_, ?_, rfl⟩
    · have h := hdz _ br [] _ hdr
      simpa using h
    · simp only [List.map_map]
      conv_rhs => rw [← List.map_id (a :: rs)]
      apply List.map_congr_left
      intro x hx
      have hx64 : x < 2 ^ 64 := hlt x hx
      exact replay_delta x a hx64

/-! ## Emission primitives in closed form -/

theorem emit_byte_eq (buf : List Nat) (v : Int) :
    emit_byte buf v = buf ++ [toUInt64 v &&& 0xff] :=
  rfl

theorem emit_value_eq (buf : List Nat) (v : Int) :
    emit_value buf v = buf ++ encode_uleb128 (toUInt64 v) [] :=
  encode_uleb128_append _ _

theorem emit_event_eq (now : Nat) (buf : List Nat) (event : Int) :
    emit_event now buf event
      = buf ++ ([toUInt64 event &&& 0xff] ++ encode_uleb128 now []) := by
  unfold emit_event emit_event_time emit_time
  rw [encode_uleb128_append, emit_byte_eq, List.append_assoc]

theorem tag_bytes :
    toUInt64 ((TYPE_HEAP_START ||| TYPE_HEAP : Nat) : Int) &&& 0xff = 6
    ∧ toUInt64 ((TYPE_HEAP_END ||| TYPE_HEAP : Nat) : Int) &&& 0xff = 22
    ∧ toUInt64 ((TYPE_HEAP_OBJECT ||| TYPE_HEAP : Nat) : Int) &&& 0xff = 38
    ∧ toUInt64 ((TYPE_HEAP_ROOT ||| TYPE_HEAP : Nat) : Int) &&& 0xff = 54
    ∧ toUInt64 ((TYPE_END_LOAD ||| TYPE_METADATA : Nat) : Int) &&& 0xff = 34
    ∧ toUInt64 ((TYPE_CLASS : Nat) : Int) &&& 0xff = 1 := by
  decide

/-! ## Fields the delta encoder leaves alone -/

theorem sameButBases_refl (g : MonoProfiler) : SameButBases g g :=
  ⟨rfl, rfl, rfl, rfl, rfl, rfl⟩

theorem sameButBases_trans {g1 g2 g3 : MonoProfiler} (h12 : SameButBases g1 g2)
    (h23 : SameButBases g2 g3) : SameButBases g1 g3 :=
  ⟨h23.gchandles.trans h12.gchandles, h23.do_heap_walk.trans h12.do_heap_walk,
    h23.last_hs_time.trans h12.last_hs_time, h23.logClasses.trans h12.logClasses,
    h23.fileBuffer.trans h12.fileBuffer, h23.logBuffer.trans h12.logBuffer⟩

theorem emit_obj_frame (g : MonoProfiler) (buf : List Nat) (a : Nat) :
    SameButBases g (emit_obj g buf a).1 := by
  rw [emit_obj_fst]
  split_ifs
  · exact ⟨rfl, rfl, rfl, rfl, rfl, rfl⟩
  · exact sameButBases_refl g

theorem emit_ptr_frame (g : MonoProfiler) (buf : List Nat) (a : Nat) :
    SameButBases g (emit_ptr g buf a).1 := by
  rw [emit_ptr_fst]
  split_ifs
  · exact ⟨rfl, rfl, rfl, rfl, rfl, rfl⟩
  · exact sameButBases_refl g

/-! ## Parsing what was emitted -/

theorem emits_nil : Emits [] [] :=
  ⟨Nat.le_refl _, fun _ _ _ h => h⟩

theorem emits_append {b1 b2 : List Nat} {k1 k2 : List RecordKind} (h1 : Emits b1 k1)
    (h2 : Emits b2 k2) : Emits (b1 ++ b2) (k1 ++ k2) := by
  refine ⟨by simp only [List.length_append]; exact Nat.add_le_add h1.1 h2.1, ?_⟩
  intro fuel rest ks h
  have h3 := h1.2 _ _ _ (h2.2 fuel rest ks h)
  rw [List.append_assoc, List.append_assoc, List.length_append,
    Nat.add_comm k1.length, ← Nat.add_assoc]
  exact h3

theorem emits_single (r : List Nat) (k : RecordKind) (hne : r ≠ [])
    (h : ∀ rest, parse_record (r ++ rest) = some (k, rest)) : Emits r [k] := by
  cases r with
  | nil => exact absurd rfl hne
  | cons b r =>
    refine ⟨by simp, ?_⟩
    intro fuel rest ks hp
    have h2 := h rest
    rw [List.cons_append] at h2 ⊢
    simp only [List.length_singleton, parse_records, h2, hp, Option.some_bind,
      List.singleton_append]

theorem parse_records_fuel_succ (fuel : Nat) (bytes : List Nat) (ks : List RecordKind)
    (h : parse_records fuel bytes = some ks) : parse_records (fuel + 1) bytes = some ks := by
  induction fuel generalizing bytes ks with
  | zero =>
    cases bytes with
    | nil => simpa [parse_records] using h
    | cons b bytes => simp [parse_records] at h
  | succ fuel ih =>
    cases bytes with
    | nil => simpa [parse_records] using h
    | cons b bytes =>
      rw [parse_records] at h ⊢
      cases hr : parse_record (b :: bytes) with
      | none => simp [hr] at h
      | some r =>
        rw [hr, Option.some_bind] at h
        rw [Option.some_bind]
        cases hk : parse_records fuel r.2 with
        | none => simp [hk] at h
        | some kinds =>
          rw [hk, Option.some_bind] at h
          rw [ih _ _ hk, Option.some_bind]
          exact h

theorem parse_records_fuel_le (fuel fuel2 : Nat) (bytes : List Nat) (ks : List RecordKind)
    (h : parse_records fuel bytes = some ks) (hle : fuel ≤ fuel2) :
    parse_records fuel2 bytes = some ks := by
  induction hle with
  | refl => exact h
  | step _ ih => exact parse_records_fuel_succ _ _ _ ih

/-- Bytes that read back as the record kinds `kinds` form a payload that
parses to exactly `kinds`. -/
theorem emits_parse_payload {bytes : List Nat} {kinds : List RecordKind}
    (h : Emits bytes kinds) : parse_payload bytes = some kinds := by
  have h2 := h.2 0 [] [] (by simp [parse_records])
  simp only [List.append_nil, Nat.zero_add] at h2
  exact parse_records_fuel_le _ _ _ _ h2 h.1

theorem emits_replicate_cons {b1 bs : List Nat} {k : RecordKind} {n : Nat} (h1 : Emits b1 [k])
    (h2 : Emits bs (List.replicate n k)) : Emits (b1 ++ bs) (List.replicate (n + 1) k) := by
  have h := emits_append h1 h2
  simpa [List.replicate_succ] using h

/-! ## Emitters as "next profiler" and "appended bytes" -/

theorem emit_obj_eq (g : MonoProfiler) (buf : List Nat) (a : Nat) :
    emit_obj g buf a = (emit_obj_next g a, buf ++ emit_obj_bytes g a) := by
  apply Prod.ext
  · rfl
  · exact emit_obj_snd g buf a

theorem emit_ptr_eq (g : MonoProfiler) (buf : List Nat) (a : Nat) :
    emit_ptr g buf a = (emit_ptr_next g a, buf ++ emit_ptr_bytes g a) := by
  apply Prod.ext
  · rfl
  · exact emit_ptr_snd g buf a

theorem emit_obj_next_frame (g : MonoProfiler) (a : Nat) : SameButBases g (emit_obj_next g a) :=
  emit_obj_frame g [] a

theorem emit_ptr_next_frame (g : MonoProfiler) (a : Nat) : SameButBases g (emit_ptr_next g a) :=
  emit_ptr_frame g [] a

theorem decode_emit_obj_bytes (g : MonoProfiler) (a : Nat) (rest : List Nat) :
    decode_sleb128 (emit_obj_bytes g a ++ rest)
      = some (toInt64 (sub64 (a >>> 3) (emit_obj_next g a).obj_base), rest) :=
  decode_encode_sleb128 _ _ (toInt64_range _).1 (toInt64_range _).2

theorem decode_emit_ptr_bytes (g : MonoProfiler) (a : Nat) (rest : List Nat) :
    decode_sleb128 (emit_ptr_bytes g a ++ rest)
      = some (toInt64 (sub64 a (emit_ptr_next g a).ptr_base), rest) :=
  decode_encode_sleb128 _ _ (toInt64_range _).1 (toInt64_range _).2

theorem emit_refs_buf (g : MonoProfiler) (buf : List Nat) (last_offset : Nat)
    (refs : List (Nat × Nat)) :
    (emit_refs g buf last_offset refs).1 = (emit_refs g [] last_offset refs).1
    ∧ (emit_refs g buf last_offset refs).2 = buf ++ (emit_refs g [] last_offset refs).2 := by
  induction refs generalizing g buf last_offset with
  | nil => simp [emit_refs]
  | cons r refs ih =>
    obtain ⟨offset, ref⟩ := r
    simp only [emit_refs, emit_obj_eq, emit_value_eq]
    obtain ⟨h1, h2⟩ := ih (emit_obj_next g ref)
      (buf ++ encode_uleb128 (toUInt64 (toInt32 (sub64 offset last_offset))) []
        ++ emit_obj_bytes g ref) offset
    obtain ⟨h3, h4⟩ := ih (emit_obj_next g ref)
      ([] ++ encode_uleb128 (toUInt64 (toInt32 (sub64 offset last_offset))) []
        ++ emit_obj_bytes g ref) offset
    rw [h1, h2, h3, h4]
    simp

theorem emit_refs_eq (g : MonoProfiler) (buf : List Nat) (last_offset : Nat)
    (refs : List (Nat × Nat)) :
    emit_refs g buf last_offset refs
      = (emit_refs_next g last_offset refs, buf ++ emit_refs_bytes g last_offset refs) :=
  Prod.ext (emit_refs_buf g buf last_offset refs).1 (emit_refs_buf g buf last_offset refs).2

theorem emit_refs_next_frame (g : MonoProfiler) (last_offset : Nat) (refs : List (Nat × Nat)) :
    SameButBases g (emit_refs_next g last_offset refs) := by
  unfold emit_refs_next
  generalize ([] : List Nat) = buf
  induction refs generalizing g buf last_offset with
  | nil => exact sameButBases_refl g
  | cons r refs ih =>
    obtain ⟨offset, ref⟩ := r
    rw [emit_refs]
    exact sameButBases_trans (emit_obj_frame _ _ _) (ih _ _ _)

theorem skip_refs_succ (n : Nat) (bytes : List Nat) :
    skip_refs (n + 1) bytes =
      (decode_uleb128 bytes).bind fun r1 =>
      (decode_sleb128 r1.2).bind fun r2 =>
      skip_refs n r2.2 := by
  rw [skip_refs]

theorem skip_emit_refs_bytes (g : MonoProfiler) (last_offset : Nat) (refs : List (Nat × Nat))
    (rest : List Nat) :
    skip_refs refs.length (emit_refs_bytes g last_offset refs ++ rest) = some rest := by
  unfold emit_refs_bytes
  induction refs generalizing g last_offset with
  | nil => rfl
  | cons r refs ih =>
    obtain ⟨offset, ref⟩ := r
    simp only [emit_refs, emit_obj_eq, emit_value_eq]
    rw [(emit_refs_buf _ _ _ _).2, List.length_cons, skip_refs_succ]
    simp only [List.nil_append, List.append_assoc, decode_encode_uleb128, Option.some_bind,
      decode_emit_obj_bytes]
    exact ih _ _

theorem toUInt64_toInt32_of_lt (n : Nat) (h : n < 2 ^ 31) : toUInt64 (toInt32 n) = n := by
  unfold toUInt64 toInt32
  split_ifs <;> omega

theorem toUInt64_natCast_of_lt (n : Nat) (h : n < 2 ^ 64) : toUInt64 (n : Int) = n := by
  unfold toUInt64
  omega

theorem sameControl_refl (g : MonoProfiler) : SameControl g g :=
  ⟨rfl, rfl, rfl, rfl⟩

theorem sameControl_trans {g1 g2 g3 : MonoProfiler} (h12 : SameControl g1 g2)
    (h23 : SameControl g2 g3) : SameControl g1 g3 :=
  ⟨h23.gchandles.trans h12.gchandles, h23.do_heap_walk.trans h12.do_heap_walk,
    h23.last_hs_time.trans h12.last_hs_time, h23.fileBuffer.trans h12.fileBuffer⟩

theorem sameButBases_control {g1 g2 : MonoProfiler} (h : SameButBases g1 g2) :
    SameControl g1 g2 :=
  ⟨h.gchandles, h.do_heap_walk, h.last_hs_time, h.fileBuffer⟩

/-! ## The records of a heap walk, read back -/

theorem emits_heap_start (now : Nat) :
    Emits ([6] ++ encode_uleb128 now []) [RecordKind.HeapStart] := by
  apply emits_single _ _ (by simp)
  intro rest
  simp only [List.singleton_append, List.cons_append, List.nil_append, parse_record,
    decode_encode_uleb128, Option.some_bind]
  rw [if_pos (by decide)]

theorem emits_heap_end (now : Nat) :
    Emits ([22] ++ encode_uleb128 now []) [RecordKind.HeapEnd] := by
  apply emits_single _ _ (by simp)
  intro rest
  simp only [List.singleton_append, List.cons_append, List.nil_append, parse_record,
    decode_encode_uleb128, Option.some_bind]
  rw [if_neg (by decide), if_pos (by decide)]

/-- One `gc_reference` callback on an existing trace buffer succeeds, adds
the class to the class set and appends bytes that read back as one
`HeapObject` record when the object has fewer than `2^31` references. -/
theorem gc_reference_spec (now : Nat) (prof : MonoProfiler) (obj klass size : Nat)
    (refs : List (Nat × Nat)) (buf : List Nat) (hbuf : prof.logBuffer = some buf) :
    ∃ prof2 bytes, gc_reference now prof obj klass size refs = some prof2
      ∧ prof2.logBuffer = some (buf ++ bytes)
      ∧ prof2.logClasses = set_insert klass prof.logClasses
      ∧ SameControl prof prof2
      ∧ (refs.length < 2 ^ 31 → Emits bytes [RecordKind.HeapObject]) := by
  obtain ⟨h1, h2, h3, h4, h5, h6⟩ := tag_bytes
  obtain ⟨gch, dhw, lht, lc, fb, lb, ob, pb⟩ := prof
  simp only at hbuf
  subst hbuf
  unfold gc_reference
  simp only [emit_event_eq, emit_obj_eq, emit_ptr_eq, emit_value_eq, emit_refs_eq,
    List.append_assoc, h3]
  have hf := sameButBases_trans (emit_obj_next_frame
      { gchandles := gch, do_heap_walk := dhw, last_hs_time := lht,
        logClasses := set_insert klass lc, fileBuffer := fb, logBuffer := some buf,
        obj_base := ob, ptr_base := pb } obj)
    (sameButBases_trans (emit_ptr_next_frame _ klass) (emit_refs_next_frame _ 0 refs))
  refine ⟨_, _, rfl, rfl, hf.logClasses, ⟨hf.gchandles, hf.do_heap_walk, hf.last_hs_time,
    hf.fileBuffer⟩, ?_⟩
  intro hnum
  apply emits_single _ _ (by simp)
  intro rest
  simp only [List.singleton_append, List.cons_append, List.nil_append, List.append_assoc,
    parse_record, decode_encode_uleb128, Option.some_bind]
  rw [if_neg (by decide), if_neg (by decide), if_pos (by decide)]
  simp only [decode_emit_obj_bytes, decode_emit_ptr_bytes, decode_encode_uleb128,
    Option.some_bind, toUInt64_toInt32_of_lt _ hnum, skip_emit_refs_bytes]

/-- The heap enumeration on an existing trace buffer succeeds and appends
bytes that read back as one `HeapObject` record per reported object when no
object has `2^31` or more references. -/
theorem walk_heap_spec (objects : List ObjectReport) (prof : MonoProfiler) (buf : List Nat)
    (hbuf : prof.logBuffer = some buf) :
    ∃ prof2 bytes, walk_heap prof objects = some prof2
      ∧ prof2.logBuffer = some (buf ++ bytes)
      ∧ SameControl prof prof2
      ∧ ((∀ o ∈ objects, o.refs.length < 2 ^ 31) →
          Emits bytes (List.replicate objects.length RecordKind.HeapObject)) := by
  induction objects generalizing prof buf with
  | nil =>
    exact ⟨prof, [], rfl, by simpa using hbuf, sameControl_refl prof, fun _ => emits_nil⟩
  | cons o objects ih =>
    obtain ⟨p1, b1, he1, hb1, -, hc1, hm1⟩ := gc_reference_spec o.now prof o.obj o.klass o.size
      o.refs buf hbuf
    obtain ⟨p2, b2, he2, hb2, hc2, hm2⟩ := ih p1 (buf ++ b1) hb1
    refine ⟨p2, b1 ++ b2, ?_, ?_, sameControl_trans hc1 hc2, ?_⟩
    · rw [walk_heap, he1]
      exact he2
    · rw [hb2, List.append_assoc]
    · intro hnum
      exact emits_replicate_cons (hm1 (hnum o (List.mem_cons_self _ _)))
        (hm2 (fun x hx => hnum x (List.mem_cons_of_mem _ hx)))

theorem dump_classes_buf (rt : MonoRuntime) (now : Nat → Nat) (g : MonoProfiler)
    (buf : List Nat) (classes : List Nat) :
    (dump_classes rt now g buf classes).1 = (dump_classes rt now g [] classes).1
    ∧ (dump_classes rt now g buf classes).2 = buf ++ (dump_classes rt now g [] classes).2 := by
  induction classes generalizing g buf with
  | nil => simp [dump_classes]
  | cons k classes ih =>
    simp only [dump_classes, emit_event_eq, emit_byte_eq, emit_ptr_eq, emit_value_eq]
    obtain ⟨h1, h2⟩ := ih (emit_ptr_next (emit_ptr_next g k) (rt.class_image k))
      (buf ++ ([toUInt64 ((TYPE_END_LOAD ||| TYPE_METADATA : Nat) : Int) &&& 0xff]
          ++ encode_uleb128 (now k) [])
        ++ [toUInt64 ((TYPE_CLASS : Nat) : Int) &&& 0xff] ++ emit_ptr_bytes g k
        ++ emit_ptr_bytes (emit_ptr_next g k) (rt.class_image k)
        ++ encode_uleb128 (toUInt64 0) []
        ++ List.takeWhile (fun c => c != 0) (rt.type_name k) ++ [0])
    obtain ⟨h3, h4⟩ := ih (emit_ptr_next (emit_ptr_next g k) (rt.class_image k))
      ([] ++ ([toUInt64 ((TYPE_END_LOAD ||| TYPE_METADATA : Nat) : Int) &&& 0xff]
          ++ encode_uleb128 (now k) [])
        ++ [toUInt64 ((TYPE_CLASS : Nat) : Int) &&& 0xff] ++ emit_ptr_bytes g k
        ++ emit_ptr_bytes (emit_ptr_next g k) (rt.class_image k)
        ++ encode_uleb128 (toUInt64 0) []
        ++ List.takeWhile (fun c => c != 0) (rt.type_name k) ++ [0])
    rw [h1, h2, h3, h4]
    simp

theorem dump_classes_eq (rt : MonoRuntime) (now : Nat → Nat) (g : MonoProfiler)
    (buf : List Nat) (classes : List Nat) :
    dump_classes rt now g buf classes
      = (dump_classes_next rt now g classes, buf ++ dump_classes_bytes rt now g classes) :=
  Prod.ext (dump_classes_buf rt now g buf classes).1 (dump_classes_buf rt now g buf classes).2

theorem dump_classes_next_frame (rt : MonoRuntime) (now : Nat → Nat) (g : MonoProfiler)
    (classes : List Nat) : SameButBases g (dump_classes_next rt now g classes) := by
  unfold dump_classes_next
  generalize ([] : List Nat) = buf
  induction classes generalizing g buf with
  | nil => exact sameButBases_refl g
  | cons k classes ih =>
    rw [dump_classes]
    exact sameButBases_trans (emit_ptr_frame _ _ _) (sameButBases_trans (emit_ptr_frame _ _ _) (ih _ _))

theorem skip_cstring_takeWhile (name rest : List Nat) :
    skip_cstring (List.takeWhile (fun c => c != 0) name ++ ([0] ++ rest)) = some rest := by
  induction name with
  | nil => simp [skip_cstring]
  | cons c name ih =>
    by_cases hc : c = 0
    · subst hc
      simp [skip_cstring]
    · have hb : (c != 0) = true := by simpa using hc
      rw [List.takeWhile_cons, if_pos hb, List.cons_append, skip_cstring, if_neg hc]
      exact ih

/-- The bytes `dump_classes` appends read back as one `ClassMeta` record
per class. -/
theorem emits_dump_classes (rt : MonoRuntime) (now : Nat → Nat) (g : MonoProfiler)
    (classes : List Nat) :
    Emits (dump_classes_bytes rt now g classes)
      (List.replicate classes.length RecordKind.ClassMeta) := by
  obtain ⟨h1, h2, h3, h4, h5, h6⟩ := tag_bytes
  unfold dump_classes_bytes
  induction classes generalizing g with
  | nil => exact emits_nil
  | cons k classes ih =>
    simp only [dump_classes, emit_event_eq, emit_byte_eq, emit_ptr_eq, emit_value_eq, h5, h6]
    rw [(dump_classes_buf _ _ _ _ _).2]
    have hrec : Emits ([34] ++ encode_uleb128 (now k) [] ++ [1] ++ emit_ptr_bytes g k
        ++ emit_ptr_bytes (emit_ptr_next g k) (rt.class_image k)
        ++ encode_uleb128 (toUInt64 0) []
        ++ List.takeWhile (fun c => c != 0) (rt.type_name k) ++ [0]) [RecordKind.ClassMeta] := by
      apply emits_single _ _ (by simp)
      intro rest
      simp only [List.singleton_append, List.cons_append, List.nil_append, List.append_assoc,
        parse_record, decode_encode_uleb128, Option.some_bind]
      rw [if_neg (by decide), if_neg (by decide), if_neg (by decide), if_neg (by decide),
        if_pos (by decide)]
      rw [if_pos (by decide)]
      simp only [decode_emit_ptr_bytes, decode_encode_uleb128, Option.some_bind]
      have hs := skip_cstring_takeWhile (rt.type_name k) rest
      simp only [List.singleton_append] at hs
      rw [hs, Option.some_bind]
    have h := emits_replicate_cons hrec (ih (emit_ptr_next (emit_ptr_next g k) (rt.class_image k)))
    simpa only [List.nil_append, List.append_assoc, List.length_cons] using h

/-- A heap walk on an existing trace buffer succeeds and appends bytes that
read back as `HeapStart`, one `HeapObject` per reported object, `ClassMeta`
records and `HeapEnd` when no object has `2^31` or more references. -/
theorem heap_walk_spec (rt : MonoRuntime) (prof : MonoProfiler) (walk : HeapWalk)
    (buf : List Nat) (hbuf : prof.logBuffer = some buf) :
    ∃ prof2 bytes m, heap_walk rt prof walk = some prof2
      ∧ prof2.logBuffer = some (buf ++ bytes)
      ∧ SameControl prof prof2
      ∧ ((∀ o ∈ walk.objects, o.refs.length < 2 ^ 31) →
          Emits bytes ([RecordKind.HeapStart]
            ++ List.replicate walk.objects.length RecordKind.HeapObject
            ++ List.replicate m RecordKind.ClassMeta ++ [RecordKind.HeapEnd])) := by
  obtain ⟨h1, h2, h3, h4, h5, h6⟩ := tag_bytes
  obtain ⟨p1, b1, he1, hb1, hc1, hm1⟩ := walk_heap_spec walk.objects
    { prof with logBuffer := some (buf ++ ([6] ++ encode_uleb128 walk.now_start [])) }
    (buf ++ ([6] ++ encode_uleb128 walk.now_start [])) rfl
  have hf := dump_classes_next_frame rt walk.now_class p1 p1.logClasses
  refine ⟨{ dump_classes_next rt walk.now_class p1 p1.logClasses with
      logBuffer := some (buf ++ ([6] ++ encode_uleb128 walk.now_start []) ++ b1
        ++ dump_classes_bytes rt walk.now_class p1 p1.logClasses
        ++ ([22] ++ encode_uleb128 walk.now_end [])) },
    ([6] ++ encode_uleb128 walk.now_start []) ++ b1
        ++ dump_classes_bytes rt walk.now_class p1 p1.logClasses
        ++ ([22] ++ encode_uleb128 walk.now_end []), p1.logClasses.length, ?_, ?_, ?_, ?_⟩
  · unfold heap_walk
    rw [hbuf]
    simp only [emit_event_eq, h1, he1, hb1, dump_classes_eq, h2]
  · simp only [List.append_assoc]
  · exact ⟨hf.gchandles.trans hc1.gchandles, hf.do_heap_walk.trans hc1.do_heap_walk,
      hf.last_hs_time.trans hc1.last_hs_time, hf.fileBuffer.trans hc1.fileBuffer⟩
  · intro hnum
    exact emits_append (emits_append (emits_append (emits_heap_start walk.now_start) (hm1 hnum))
      (emits_dump_classes rt walk.now_class p1 p1.logClasses)) (emits_heap_end walk.now_end)

theorem emit_roots_buf (g : MonoProfiler) (buf : List Nat) (roots : List (Nat × Int × Nat)) :
    (emit_roots g buf roots).1 = (emit_roots g [] roots).1
    ∧ (emit_roots g buf roots).2 = buf ++ (emit_roots g [] roots).2 := by
  induction roots generalizing g buf with
  | nil => simp [emit_roots]
  | cons r roots ih =>
    obtain ⟨object, root_type, extra_info⟩ := r
    simp only [emit_roots, emit_obj_eq, emit_value_eq, emit_byte_eq]
    obtain ⟨h1, h2⟩ := ih (emit_obj_next g object)
      (buf ++ emit_obj_bytes g object ++ [toUInt64 root_type &&& 0xff]
        ++ encode_uleb128 (toUInt64 (toInt32 extra_info)) [])
    obtain ⟨h3, h4⟩ := ih (emit_obj_next g object)
      ([] ++ emit_obj_bytes g object ++ [toUInt64 root_type &&& 0xff]
        ++ encode_uleb128 (toUInt64 (toInt32 extra_info)) [])
    rw [h1, h2, h3, h4]
    simp

theorem emit_roots_eq (g : MonoProfiler) (buf : List Nat) (roots : List (Nat × Int × Nat)) :
    emit_roots g buf roots = (emit_roots_next g roots, buf ++ emit_roots_bytes g roots) :=
  Prod.ext (emit_roots_buf g buf roots).1 (emit_roots_buf g buf roots).2

theorem emit_roots_next_frame (g : MonoProfiler) (roots : List (Nat × Int × Nat)) :
    SameButBases g (emit_roots_next g roots) := by
  unfold emit_roots_next
  generalize ([] : List Nat) = buf
  induction roots generalizing g buf with
  | nil => exact sameButBases_refl g
  | cons r roots ih =>
    obtain ⟨object, root_type, extra_info⟩ := r
    rw [emit_roots]
    exact sameButBases_trans (emit_obj_frame _ _ _) (ih _ _)

theorem skip_roots_succ (n : Nat) (bytes : List Nat) :
    skip_roots (n + 1) bytes =
      (decode_sleb128 bytes).bind fun r1 =>
      match r1.2 with
      | [] => none
      | _ :: bytes =>
        (decode_uleb128 bytes).bind fun r2 =>
        skip_roots n r2.2 := by
  rw [skip_roots]

theorem skip_emit_roots_bytes (g : MonoProfiler) (roots : List (Nat × Int × Nat))
    (rest : List Nat) :
    skip_roots roots.length (emit_roots_bytes g roots ++ rest) = some rest := by
  unfold emit_roots_bytes
  induction roots generalizing g with
  | nil => rfl
  | cons r roots ih =>
    obtain ⟨object, root_type, extra_info⟩ := r
    simp only [emit_roots, emit_obj_eq, emit_value_eq, emit_byte_eq]
    rw [(emit_roots_buf _ _ _).2, List.length_cons, skip_roots_succ]
    simp only [List.nil_append, List.append_assoc, List.singleton_append, List.cons_append,
      decode_emit_obj_bytes, decode_encode_uleb128, Option.some_bind]
    exact ih _

/-- A root report on an existing trace buffer appends bytes that read back
as one `HeapRoot` record when it carries fewer than `2^31` roots. -/
theorem gc_roots_spec (prof : MonoProfiler) (now : Nat) (collection_count : Int)
    (roots : List (Nat × Int × Nat)) (buf : List Nat) (hbuf : prof.logBuffer = some buf) :
    ∃ bytes, (gc_roots prof now collection_count roots).logBuffer = some (buf ++ bytes)
      ∧ SameControl prof (gc_roots prof now collection_count roots)
      ∧ (roots.length < 2 ^ 31 → Emits bytes [RecordKind.HeapRoot]) := by
  obtain ⟨h1, h2, h3, h4, h5, h6⟩ := tag_bytes
  have hf := emit_roots_next_frame prof roots
  unfold gc_roots
  rw [hbuf]
  simp only [emit_event_eq, emit_value_eq, emit_roots_eq, List.append_assoc, h4]
  refine ⟨_, rfl, ⟨hf.gchandles, hf.do_heap_walk, hf.last_hs_time, hf.fileBuffer⟩, ?_⟩
  intro hnum
  apply emits_single _ _ (by simp)
  intro rest
  simp only [List.singleton_append, List.cons_append, List.nil_append, List.append_assoc,
    parse_record, decode_encode_uleb128, Option.some_bind]
  rw [if_neg (by decide), if_neg (by decide), if_neg (by decide), if_pos (by decide)]
  simp only [decode_encode_uleb128, Option.some_bind,
    toUInt64_natCast_of_lt _ (by omega : roots.length < 2 ^ 64), skip_emit_roots_bytes]

theorem gc_roots_none (prof : MonoProfiler) (now : Nat) (collection_count : Int)
    (roots : List (Nat × Int × Nat)) (hbuf : prof.logBuffer = none) :
    gc_roots prof now collection_count roots = prof := by
  unfold gc_roots
  rw [hbuf]

theorem run_append (rt : MonoRuntime) (h : Host) (s1 s2 : List Step) :
    run rt h (s1 ++ s2) = (run rt h s1).bind fun h2 => run rt h2 s2 := by
  induction s1 generalizing h with
  | nil => rfl
  | cons s s1 ih =>
    rw [List.cons_append, run, run]
    cases step rt h s with
    | none => rfl
    | some h2 => exact ih h2

/-- Root reports delivered while the trace buffer exists only append to it:
one `HeapRoot` record each when every report carries fewer than `2^31`
roots. -/
theorem run_reports_spec (rt : MonoRuntime) (reports : List RootReport) (h : Host)
    (buf : List Nat) (hbuf : h.profiler.logBuffer = some buf) :
    ∃ prof2 bytes, run rt h (reports.map RootReport.toStep)
        = some { profiler := prof2, test_mlpd := h.test_mlpd }
      ∧ prof2.logBuffer = some (buf ++ bytes)
      ∧ SameControl h.profiler prof2
      ∧ ((∀ r ∈ reports, r.roots.length < 2 ^ 31) →
          Emits bytes (List.replicate reports.length RecordKind.HeapRoot)) := by
  induction reports generalizing h buf with
  | nil =>
    exact ⟨h.profiler, [], rfl, by simpa using hbuf, sameControl_refl _, fun _ => emits_nil⟩
  | cons r reports ih =>
    obtain ⟨b1, hb1, hc1, hm1⟩ := gc_roots_spec h.profiler r.now r.collection_count r.roots buf
      hbuf
    obtain ⟨p2, b2, he2, hb2, hc2, hm2⟩ := ih
      { h with profiler := gc_roots h.profiler r.now r.collection_count r.roots } (buf ++ b1) hb1
    refine ⟨p2, b1 ++ b2, ?_, ?_, sameControl_trans hc1 hc2, ?_⟩
    · rw [List.map_cons, run]
      exact he2
    · rw [hb2, List.append_assoc]
    · intro hnum
      exact emits_replicate_cons (hm1 (hnum r (List.mem_cons_self _ _)))
        (hm2 (fun x hx => hnum x (List.mem_cons_of_mem _ hx)))

/-! ## One heap-walk cycle -/

theorem run_singleton (rt : MonoRuntime) (h : Host) (s : Step) :
    run rt h [s] = step rt h s := by
  rw [run.eq_def]
  simp only []
  cases step rt h s with
  | none => rfl
  | some h2 => rfl

theorem step_pre_stop (rt : MonoRuntime) (h : Host) (walk : HeapWalk) (now : Nat)
    (hreq : h.profiler.do_heap_walk = true) :
    step rt h (Step.gc_event MonoGCEvent.PRE_STOP_WORLD rt.max_generation walk now)
      = some { h with profiler := { h.profiler with
          logBuffer := some [], fileBuffer := some [], obj_base := 0, ptr_base := 0,
          logClasses := [] } } := by
  simp only [step, gc_event, hreq, and_self, if_true]

theorem step_pre_start (rt : MonoRuntime) (h : Host) (walk : HeapWalk) (now : Nat)
    (fb : List Nat) (p2 : MonoProfiler) (hfb : h.profiler.fileBuffer = some fb)
    (hw : heap_walk rt h.profiler walk = some p2) :
    step rt h (Step.gc_event MonoGCEvent.PRE_START_WORLD rt.max_generation walk now)
      = some { h with profiler := { p2 with do_heap_walk := false } } := by
  simp only [step, gc_event, hfb, hw, ne_eq, reduceCtorEq, not_false_eq_true, and_self, if_true]

theorem step_post_start (rt : MonoRuntime) (h : Host) (walk : HeapWalk) (now : Nat)
    (fb lb : List Nat) (hfb : h.profiler.fileBuffer = some fb)
    (hlb : h.profiler.logBuffer = some lb) :
    step rt h (Step.gc_event MonoGCEvent.POST_START_WORLD_UNLOCKED rt.max_generation walk now)
      = some { profiler := { h.profiler with fileBuffer := none, logBuffer := none },
               test_mlpd := h.test_mlpd ++ dump_buffer fb lb h.profiler now } := by
  simp only [step, gc_event, hfb, hlb, if_true]

/-- What a heap-walk cycle started with a walk requested does: it succeeds,
releases both buffers and appends one buffer record to the trace file; the
payload of that record reads back as one `HeapRoot` record per root report
delivered before the walk, the records of the walk (`HeapStart`,
`HeapObject` records, `ClassMeta` records, `HeapEnd`), and one `HeapRoot`
record per root report delivered after the walk. -/
theorem cycle_core (rt : MonoRuntime) (h : Host) (before : List RootReport) (walk : HeapWalk)
    (after : List RootReport) (now : Nat)
    (hreq : h.profiler.do_heap_walk = true)
    (hroots : ∀ r ∈ before ++ after, r.roots.length < 2 ^ 31)
    (hrefs : ∀ o ∈ walk.objects, o.refs.length < 2 ^ 31) :
    ∃ h2 record m, run rt h (cycle rt before walk after now) = some h2
      ∧ h2.test_mlpd = h.test_mlpd ++ record
      ∧ h2.profiler.logBuffer = none ∧ h2.profiler.fileBuffer = none
      ∧ parse_payload (record_payload record)
        = some (List.replicate before.length RecordKind.HeapRoot
          ++ ([RecordKind.HeapStart]
            ++ List.replicate walk.objects.length RecordKind.HeapObject
            ++ List.replicate m RecordKind.ClassMeta ++ [RecordKind.HeapEnd])
          ++ List.replicate after.length RecordKind.HeapRoot) := by
  -- pre-pause
  obtain ⟨p1, b1, he1, hb1, hc1, hm1⟩ := run_reports_spec rt before
    { h with profiler := { h.profiler with
        logBuffer := some [], fileBuffer := some [], obj_base := 0, ptr_base := 0,
        logClasses := [] } } [] rfl
  -- the heap walk
  obtain ⟨p2, b2, m, he2, hb2, hc2, hm2⟩ := heap_walk_spec rt p1 walk ([] ++ b1) hb1
  -- root reports after the walk
  obtain ⟨p3, b3, he3, hb3, hc3, hm3⟩ := run_reports_spec rt after
    { profiler := { p2 with do_heap_walk := false }, test_mlpd := h.test_mlpd }
    ([] ++ b1 ++ b2) hb2
  have hfb1 : p1.fileBuffer = some [] := hc1.fileBuffer
  have hfb2 : p2.fileBuffer = some [] := hc2.fileBuffer.trans hfb1
  have hfb3 : p3.fileBuffer = some [] := hc3.fileBuffer.trans hfb2
  refine ⟨{ profiler := { p3 with fileBuffer := none, logBuffer := none },
            test_mlpd := h.test_mlpd ++ dump_buffer [] ([] ++ b1 ++ b2 ++ b3) p3 now },
    dump_buffer [] ([] ++ b1 ++ b2 ++ b3) p3 now, m, ?_, rfl, rfl, rfl, ?_⟩
  · have hcyc : cycle rt before walk after now
        = [Step.gc_event MonoGCEvent.PRE_STOP_WORLD rt.max_generation walk now]
          ++ (before.map RootReport.toStep
          ++ ([Step.gc_event MonoGCEvent.PRE_START_WORLD rt.max_generation walk now]
          ++ (after.map RootReport.toStep
          ++ [Step.gc_event MonoGCEvent.POST_START_WORLD_UNLOCKED rt.max_generation walk
                now]))) := by
      unfold cycle
      simp only [List.append_assoc]
    rw [hcyc, run_append, run_singleton, step_pre_stop rt h walk now hreq, Option.some_bind,
      run_append, he1, Option.some_bind, run_append, run_singleton,
      step_pre_start rt _ walk now [] p2 hfb1 he2, Option.some_bind,
      run_append, he3, Option.some_bind, run_singleton,
      step_post_start rt _ walk now [] _ hfb3 hb3]
  · rw [record_payload_dump_buffer]
    have hm := emits_parse_payload (emits_append
      (emits_append (hm1 (fun r hr => hroots r (List.mem_append_left _ hr))) (hm2 hrefs))
      (hm3 (fun r hr => hroots r (List.mem_append_right _ hr))))
    simpa only [List.nil_append, List.append_assoc] using hm

/-! ## The buffers come and go together; the trace file only grows -/

theorem step_total (rt : MonoRuntime) (h : Host) (s : Step) (hinv : BuffersPaired h.profiler) :
    ∃ h2 appended, step rt h s = some h2 ∧ BuffersPaired h2.profiler
      ∧ h2.test_mlpd = h.test_mlpd ++ appended := by
  cases s with
  | gc_roots now collection_count roots =>
    refine ⟨_, [], rfl, ?_, by simp⟩
    cases hlb : h.profiler.logBuffer with
    | none =>
      show BuffersPaired (gc_roots h.profiler now collection_count roots)
      rw [gc_roots_none _ _ _ _ hlb]
      exact hinv
    | some buf =>
      obtain ⟨bytes, hb, hc, -⟩ := gc_roots_spec h.profiler now collection_count roots buf hlb
      show BuffersPaired (gc_roots h.profiler now collection_count roots)
      unfold BuffersPaired at hinv ⊢
      rw [hb, hc.fileBuffer]
      rw [hlb] at hinv
      simpa using hinv
  | request_walk => exact ⟨_, [], rfl, hinv, by simp⟩
  | gc_event ev generation walk now =>
    cases ev with
    | other => exact ⟨h, [], rfl, hinv, by simp⟩
    | PRE_STOP_WORLD =>
      by_cases hc : h.profiler.do_heap_walk = true ∧ generation = rt.max_generation
      · refine ⟨{ h with profiler := { h.profiler with
            logBuffer := some [], fileBuffer := some [], obj_base := 0, ptr_base := 0,
            logClasses := [] } }, [], by simp only [step, gc_event, if_pos hc], ?_, by simp⟩
        simp [BuffersPaired]
      · exact ⟨h, [], by simp only [step, gc_event, hc, if_false], hinv, by simp⟩
    | PRE_START_WORLD =>
      by_cases hc : h.profiler.fileBuffer ≠ none ∧ generation = rt.max_generation
      · have hlb : h.profiler.logBuffer ≠ none := fun hn => hc.1 (hinv.1 hn)
        obtain ⟨buf, hbuf⟩ := Option.ne_none_iff_exists'.1 hlb
        obtain ⟨p2, bytes, m, he, hb, hctl, -⟩ := heap_walk_spec rt h.profiler walk buf hbuf
        refine ⟨{ h with profiler := { p2 with do_heap_walk := false } }, [], ?_, ?_, by simp⟩
        · simp only [step, gc_event, hc, he, ne_eq, not_false_eq_true, and_self, if_true]
        · have hfb : p2.fileBuffer ≠ none := by
            rw [hctl.fileBuffer]
            exact hc.1
          simp [BuffersPaired, hb, hfb]
      · exact ⟨h, [], by simp only [step, gc_event, hc, if_false], hinv, by simp⟩
    | POST_START_WORLD_UNLOCKED =>
      cases hfb : h.profiler.fileBuffer with
      | none => exact ⟨h, [], by simp only [step, gc_event, hfb], hinv, by simp⟩
      | some fb =>
        by_cases hg : generation = rt.max_generation
        · have hlb : h.profiler.logBuffer ≠ none := fun hn => by
            have := hinv.1 hn
            rw [hfb] at this
            exact absurd this (by simp)
          obtain ⟨buf, hbuf⟩ := Option.ne_none_iff_exists'.1 hlb
          refine ⟨Host.mk { h.profiler with fileBuffer := none, logBuffer := none }
              (h.test_mlpd ++ dump_buffer fb buf h.profiler now),
            dump_buffer fb buf h.profiler now, ?_, ?_, rfl⟩
          · simp only [step, gc_event, hfb, hbuf, hg, if_true]
          · simp [BuffersPaired]
        · exact ⟨h, [], by simp only [step, gc_event, hfb, hg, if_false], hinv, by simp⟩

/-- From a state in which the buffers are paired every sequence of steps
succeeds, keeps them paired and only appends to the trace file. -/
theorem run_total (rt : MonoRuntime) (steps : List Step) (h : Host)
    (hinv : BuffersPaired h.profiler) :
    ∃ h2 appended, run rt h steps = some h2 ∧ BuffersPaired h2.profiler
      ∧ h2.test_mlpd = h.test_mlpd ++ appended := by
  induction steps generalizing h with
  | nil => exact ⟨h, [], rfl, hinv, by simp⟩
  | cons s steps ih =>
    obtain ⟨h1, a1, he1, hi1, hf1⟩ := step_total rt h s hinv
    obtain ⟨h2, a2, he2, hi2, hf2⟩ := ih h1 hi1
    refine ⟨h2, a1 ++ a2, ?_, hi2, ?_⟩
    · rw [run, he1]
      exact he2
    · rw [hf2, hf1, List.append_assoc]

theorem initFunction_paired (now : Nat) : BuffersPaired (initFunction now).profiler := by
  simp [BuffersPaired, initFunction, MonoProfiler.init]

/-! ## The lifecycle along arbitrary step sequences -/

theorem tracked_step (rt : MonoRuntime) (h : Host) (walked : Bool) (s : Step)
    (hinv : Tracked h walked) :
    ∃ h2, step rt h s = some h2 ∧ Tracked h2 (walked_after rt h walked s)
      ∧ (walker_runs rt h s = true → h2.profiler.do_heap_walk = false) := by
  obtain ⟨hbuf, hreq⟩ := hinv
  cases s with
  | gc_roots now collection_count roots =>
    refine ⟨_, rfl, ?_, by simp [walker_runs]⟩
    cases hlb : h.profiler.logBuffer with
    | none =>
      show Tracked (Host.mk (gc_roots h.profiler now collection_count roots) h.test_mlpd) walked
      rw [gc_roots_none _ _ _ _ hlb]
      exact ⟨hbuf, hreq⟩
    | some buf =>
      obtain ⟨bytes, hb, hc, -⟩ := gc_roots_spec h.profiler now collection_count roots buf hlb
      show Tracked (Host.mk (gc_roots h.profiler now collection_count roots) h.test_mlpd) walked
      unfold Tracked
      simp only [hb, hc.fileBuffer, hc.do_heap_walk]
      refine ⟨?_, hreq⟩
      rcases hbuf with ⟨h1, -⟩ | ⟨-, h2⟩
      · rw [hlb] at h1
        exact absurd h1 (by simp)
      · exact Or.inr ⟨by simp, h2⟩
  | request_walk =>
    refine ⟨_, rfl, ⟨hbuf, fun _ _ => rfl⟩, by simp [walker_runs]⟩
  | gc_event ev generation walk now =>
    cases ev with
    | other => exact ⟨h, rfl, ⟨hbuf, hreq⟩, by simp [walker_runs]⟩
    | PRE_STOP_WORLD =>
      by_cases hc : h.profiler.do_heap_walk = true ∧ generation = rt.max_generation
      · refine ⟨{ h with profiler := { h.profiler with
            logBuffer := some [], fileBuffer := some [], obj_base := 0, ptr_base := 0,
            logClasses := [] } }, by simp only [step, gc_event, if_pos hc], ?_,
            by simp [walker_runs]⟩
        refine ⟨Or.inr ⟨by simp, rfl⟩, fun _ _ => hc.1⟩
      · refine ⟨h, by simp only [step, gc_event, hc, if_false], ?_, by simp [walker_runs]⟩
        simp only [walked_after, if_neg hc]
        exact ⟨hbuf, hreq⟩
    | PRE_START_WORLD =>
      by_cases hc : h.profiler.fileBuffer ≠ none ∧ generation = rt.max_generation
      · have hfb : h.profiler.fileBuffer = some [] := by
          rcases hbuf with ⟨-, h1⟩ | ⟨-, h2⟩
          · exact absurd h1 hc.1
          · exact h2
        have hlb : h.profiler.logBuffer ≠ none := by
          rcases hbuf with ⟨-, h1⟩ | ⟨h2, -⟩
          · exact absurd h1 hc.1
          · exact h2
        obtain ⟨buf, hbuf2⟩ := Option.ne_none_iff_exists'.1 hlb
        obtain ⟨p2, bytes, m, he, hb, hctl, -⟩ := heap_walk_spec rt h.profiler walk buf hbuf2
        refine ⟨{ h with profiler := { p2 with do_heap_walk := false } }, ?_, ?_, fun _ => rfl⟩
        · simp only [step, gc_event, hc, he, ne_eq, not_false_eq_true, and_self, if_true]
        · simp only [walked_after, if_pos hc]
          refine ⟨Or.inr ⟨by simp [hb], hctl.fileBuffer.trans hfb⟩, fun _ hw => ?_⟩
          exact absurd hw (by simp)
      · refine ⟨h, by simp only [step, gc_event, hc, if_false], ?_, ?_⟩
        · simp only [walked_after, if_neg hc]
          exact ⟨hbuf, hreq⟩
        · simp [walker_runs, hc]
    | POST_START_WORLD_UNLOCKED =>
      cases hfb : h.profiler.fileBuffer with
      | none =>
        exact ⟨h, by simp only [step, gc_event, hfb], ⟨hbuf, hreq⟩, by simp [walker_runs]⟩
      | some fb =>
        by_cases hg : generation = rt.max_generation
        · have hlb : h.profiler.logBuffer ≠ none := by
            rcases hbuf with ⟨-, h1⟩ | ⟨h2, -⟩
            · rw [hfb] at h1
              exact absurd h1 (by simp)
            · exact h2
          obtain ⟨buf, hbuf2⟩ := Option.ne_none_iff_exists'.1 hlb
          refine ⟨Host.mk { h.profiler with fileBuffer := none, logBuffer := none }
              (h.test_mlpd ++ dump_buffer fb buf h.profiler now), ?_, ?_,
              by simp [walker_runs]⟩
          · simp only [step, gc_event, hfb, hbuf2, hg, if_true]
          · exact ⟨Or.inl ⟨rfl, rfl⟩, fun hne => absurd rfl hne⟩
        · exact ⟨h, by simp only [step, gc_event, hfb, hg, if_false], ⟨hbuf, hreq⟩,
            by simp [walker_runs]⟩

/-- Every sequence of steps from a tracked state succeeds and leads to a
tracked state. -/
theorem tracked_run_total (rt : MonoRuntime) (steps : List Step) (h : Host) (walked : Bool)
    (hinv : Tracked h walked) :
    ∃ h2 walked2, tracked_run rt h walked steps = some (h2, walked2) ∧ Tracked h2 walked2
      ∧ run rt h steps = some h2 := by
  induction steps generalizing h walked with
  | nil => exact ⟨h, walked, rfl, hinv, rfl⟩
  | cons s steps ih =>
    obtain ⟨h1, he1, hi1, -⟩ := tracked_step rt h walked s hinv
    obtain ⟨h2, w2, he2, hi2, hr2⟩ := ih h1 _ hi1
    refine ⟨h2, w2, ?_, hi2, ?_⟩
    · rw [tracked_run, he1]
      exact he2
    · rw [run, he1]
      exact hr2

theorem initFunction_tracked (now : Nat) : Tracked (initFunction now) false := by
  refine ⟨Or.inl ⟨rfl, rfl⟩, fun hne => absurd rfl hne⟩

theorem encode_uleb128_small (v : Nat) (hv : v < 128) (buf : List Nat) :
    encode_uleb128 v buf = buf ++ [v] := by
  rw [encode_uleb128_step, Nat.div_eq_of_lt hv, Nat.mod_eq_of_lt hv]
  simp

theorem demo_capturing_reachable :
    run demo_runtime (initFunction 0)
      [Step.request_walk,
       Step.gc_event MonoGCEvent.PRE_STOP_WORLD 1 demo_walk 0,
       Step.gc_roots 1 3 []] = some demo_capturing := by
  have e1 : encode_uleb128 1 [54] = [54, 1] := encode_uleb128_small 1 (by decide) _
  have e2 : encode_uleb128 0 [54, 1] = [54, 1, 0] := encode_uleb128_small 0 (by decide) _
  have e3 : encode_uleb128 3 [54, 1, 0] = [54, 1, 0, 3] := encode_uleb128_small 3 (by decide) _
  have t4 : toUInt64 ((TYPE_HEAP_ROOT ||| TYPE_HEAP : Nat) : Int) &&& 0xff = 54 := tag_bytes.2.2.2.1
  have v0 : toUInt64 ((([] : List (Nat × Int × Nat)).length : Nat) : Int) = 0 := by decide
  have v3 : toUInt64 3 = 3 := by decide
  simp only [run, step, gc_event, initFunction, MonoProfiler.init, demo_runtime, gc_roots,
    emit_event, emit_event_time, emit_time, emit_byte, emit_value, emit_roots, put, le_bytes,
    t4, v0, v3, e1, e2, e3, and_self, if_true, List.nil_append]
  rfl

theorem pre_stop_eq (rt : MonoRuntime) (h : Host) (walk : HeapWalk) (now : Nat) :
    gc_event rt h MonoGCEvent.PRE_STOP_WORLD rt.max_generation walk now
      = some (if h.profiler.do_heap_walk = true then start_capture h else h) := by
  by_cases hreq : h.profiler.do_heap_walk = true
  · simp only [gc_event, hreq, and_self, if_true, start_capture]
  · simp [gc_event, hreq]

/-- In a state with paired buffers every step succeeds, keeps the buffers
paired and leaves the aggregator map alone. -/
theorem step_gchandles (rt : MonoRuntime) (h : Host) (s : Step)
    (hinv : BuffersPaired h.profiler) :
    ∃ h2, step rt h s = some h2 ∧ BuffersPaired h2.profiler
      ∧ h2.profiler.gchandles = h.profiler.gchandles := by
  obtain ⟨h2, appended, he, hp, -⟩ := step_total rt h s hinv
  refine ⟨h2, he, hp, ?_⟩
  cases s with
  | request_walk =>
    simp only [step, Option.some.injEq] at he
    subst he
    rfl
  | gc_roots now collection_count roots =>
    simp only [step, Option.some.injEq] at he
    subst he
    cases hlb : h.profiler.logBuffer with
    | none =>
      show (gc_roots h.profiler now collection_count roots).gchandles = _
      rw [gc_roots_none _ _ _ _ hlb]
    | some buf =>
      obtain ⟨bytes, -, hc, -⟩ := gc_roots_spec h.profiler now collection_count roots buf hlb
      exact hc.gchandles
  | gc_event ev generation walk now =>
    cases ev with
    | other =>
      simp only [step, gc_event, Option.some.injEq] at he
      subst he
      rfl
    | PRE_STOP_WORLD =>
      simp only [step, gc_event] at he
      split at he
      · simp only [Option.some.injEq] at he
        subst he
        rfl
      · simp only [Option.some.injEq] at he
        subst he
        rfl
    | PRE_START_WORLD =>
      simp only [step, gc_event] at he
      split at he
      · rename_i hc
        have hlb : h.profiler.logBuffer ≠ none := fun hn => hc.1 (hinv.1 hn)
        obtain ⟨buf, hbuf⟩ := Option.ne_none_iff_exists'.1 hlb
        obtain ⟨p2, bytes, m, hw, -, hctl, -⟩ := heap_walk_spec rt h.profiler walk buf hbuf
        rw [hw] at he
        simp only [Option.some.injEq] at he
        subst he
        exact hctl.gchandles
      · simp only [Option.some.injEq] at he
        subst he
        rfl
    | POST_START_WORLD_UNLOCKED =>
      simp only [step, gc_event] at he
      split at he
      · simp only [Option.some.injEq] at he
        subst he
        rfl
      · split at he
        · split at he
          · exact absurd he (by simp)
          · simp only [Option.some.injEq] at he
            subst he
            rfl
        · simp only [Option.some.injEq] at he
          subst he
          rfl

theorem run_gchandles (rt : MonoRuntime) (steps : List Step) (h : Host)
    (hinv : BuffersPaired h.profiler) :
    ∃ h2, run rt h steps = some h2 ∧ BuffersPaired h2.profiler
      ∧ h2.profiler.gchandles = h.profiler.gchandles := by
  induction steps generalizing h with
  | nil => exact ⟨h, rfl, hinv, rfl⟩
  | cons s steps ih =>
    obtain ⟨h1, he1, hp1, hg1⟩ := step_gchandles rt h s hinv
    obtain ⟨h2, he2, hp2, hg2⟩ := ih h1 hp1
    refine ⟨h2, ?_, hp2, hg2.trans hg1⟩
    rw [run, he1]
    exact he2

/-- What one tick does in a state with paired buffers: it succeeds; it
forces a collection exactly when the `int64_t` difference between its time
and `lastLog` is more than 120000, and then stores its time there; it
flushes exactly when the difference to `lastStackLog` is more than 60000,
and then stores its time there, writes the report of the aggregator map and
empties the map. -/
theorem StartTick_spec (rt : MonoRuntime)
    (sort : List (List Nat × List Nat × Nat) → List (List Nat × List Nat × Nat))
    (w : TickWorld) (msNow : Int)
    (collection : List Step) (hinv : BuffersPaired w.host.profiler) :
    ∃ w2, StartTick rt sort w msNow collection
        = some (w2, TickActions.mk (decide (sub_int64 msNow w.self.lastLog > 120000))
            (decide (sub_int64 msNow w.self.lastStackLog > 60000)))
      ∧ BuffersPaired w2.host.profiler
      ∧ w2.self.lastLog
          = (if sub_int64 msNow w.self.lastLog > 120000 then msNow else w.self.lastLog)
      ∧ w2.self.lastStackLog
          = (if sub_int64 msNow w.self.lastStackLog > 60000 then msNow
              else w.self.lastStackLog)
      ∧ (if sub_int64 msNow w.self.lastStackLog > 60000
          then w2.stack_txt = format_traces sort w.host.profiler.gchandles
            ∧ w2.host.profiler.gchandles = []
          else w2.stack_txt = w.stack_txt
            ∧ w2.host.profiler.gchandles = w.host.profiler.gchandles) := by
  have e1 : (2 * 60 * 1000 : Int) = 120000 := by norm_num
  have e2 : (1 * 60 * 1000 : Int) = 60000 := by norm_num
  have hinv2 : BuffersPaired
      (Host.mk { w.host.profiler with do_heap_walk := true } w.host.test_mlpd).profiler := hinv
  obtain ⟨host2, hrun, hp2, hg2⟩ := run_gchandles rt collection _ hinv2
  by_cases hc : sub_int64 msNow w.self.lastLog > 120000
  · by_cases hf : sub_int64 msNow w.self.lastStackLog > 60000
    · refine ⟨TickWorld.mk (GcDumpResource.mk msNow msNow)
        (Host.mk (Clear host2.profiler) host2.test_mlpd)
        (format_traces sort (CopyTraces host2.profiler)), ?_, hp2, ?_, ?_, ?_⟩
      · simp [StartTick, e1, e2, hc, hf, hrun]
      · simp [hc]
      · simp [hf]
      · rw [if_pos hf]
        exact ⟨congrArg (format_traces sort) hg2, rfl⟩
    · refine ⟨TickWorld.mk (GcDumpResource.mk msNow w.self.lastStackLog) host2 w.stack_txt,
        ?_, hp2, ?_, ?_, ?_⟩
      · simp [StartTick, e1, e2, hc, hf, hrun]
      · simp [hc]
      · simp [hf]
      · rw [if_neg hf]
        exact ⟨rfl, hg2⟩
  · by_cases hf : sub_int64 msNow w.self.lastStackLog > 60000
    · refine ⟨TickWorld.mk (GcDumpResource.mk w.self.lastLog msNow)
        (Host.mk (Clear w.host.profiler) w.host.test_mlpd)
        (format_traces sort (CopyTraces w.host.profiler)), ?_, hinv, ?_, ?_, ?_⟩
      · simp [StartTick, e1, e2, hc, hf]
      · simp [hc]
      · simp [hf]
      · rw [if_pos hf]
        exact ⟨rfl, rfl⟩
    · refine ⟨w, ?_, hinv, ?_, ?_, ?_⟩
      · simp [StartTick, e1, e2, hc, hf]
      · simp [hc]
      · simp [hf]
      · rw [if_neg hf]
        exact ⟨rfl, rfl⟩

theorem run_ticks_spec (rt : MonoRuntime)
    (sort : List (List Nat × List Nat × Nat) → List (List Nat × List Nat × Nat))
    (ticks : List Tick) (w : TickWorld)
    (hinv : BuffersPaired w.host.profiler) :
    ∃ w2, run_ticks rt sort w ticks
        = some (w2, List.zipWith TickActions.mk
            (tick_flags 120000 w.self.lastLog (ticks.map Tick.msNow))
            (tick_flags 60000 w.self.lastStackLog (ticks.map Tick.msNow)))
      ∧ BuffersPaired w2.host.profiler
      ∧ w2.self.lastLog = tick_stamp 120000 w.self.lastLog (ticks.map Tick.msNow)
      ∧ w2.self.lastStackLog
          = tick_stamp 60000 w.self.lastStackLog (ticks.map Tick.msNow) := by
  induction ticks generalizing w with
  | nil => exact ⟨w, rfl, hinv, rfl, rfl⟩
  | cons t ticks ih =>
    obtain ⟨w1, he1, hp1, hl1, hs1, -⟩ := StartTick_spec rt sort w t.msNow t.collection hinv
    obtain ⟨w2, he2, hp2, hl2, hs2⟩ := ih w1 hp1
    refine ⟨w2, ?_, hp2, ?_, ?_⟩
    · rw [run_ticks, he1]
      simp only [he2, List.map_cons, tick_flags, hl1, hs1]
      by_cases hc : sub_int64 t.msNow w.self.lastLog > 120000
      · by_cases hf : sub_int64 t.msNow w.self.lastStackLog > 60000
        · simp [hc, hf]
        · simp [hc, hf]
      · by_cases hf : sub_int64 t.msNow w.self.lastStackLog > 60000
        · simp [hc, hf]
        · simp [hc, hf]
    · rw [hl2, hl1, List.map_cons, tick_stamp]
      split <;> rfl
    · rw [hs2, hs1, List.map_cons, tick_stamp]
      split <;> rfl

/-- The `int64_t` subtraction is the exact difference when that fits the
type. -/
theorem sub_int64_exact (a b : Int) (hlow : -(2 ^ 63) ≤ a - b) (hhigh : a - b < 2 ^ 63) :
    sub_int64 a b = a - b := by
  unfold sub_int64 toInt64 toUInt64
  split_ifs <;> omega

theorem tick_flags_length (interval : Int) (times : List Int) (last : Int) :
    (tick_flags interval last times).length = times.length := by
  induction times generalizing last with
  | nil => rfl
  | cons t times ih =>
    rw [tick_flags]
    split <;> simp [ih]

/-- Among clock readings that are non-negative `int64_t` values the flags
of the code are those of the exact throttle. -/
theorem tick_flags_eq_throttle (interval : Int) (times : List Int) (last : Int)
    (hlast : 0 ≤ last ∧ last < 2 ^ 63) (htimes : ∀ t ∈ times, 0 ≤ t ∧ t < 2 ^ 63) :
    tick_flags interval last times = throttle_log interval last times
    ∧ tick_stamp interval last times = throttle_stamp interval last times := by
  induction times generalizing last with
  | nil => exact ⟨rfl, rfl⟩
  | cons t times ih =>
    have ht := htimes t (List.mem_cons_self _ _)
    have hrest : ∀ u ∈ times, 0 ≤ u ∧ u < 2 ^ 63 :=
      fun u hu => htimes u (List.mem_cons_of_mem _ hu)
    have e : sub_int64 t last = t - last := sub_int64_exact t last (by omega) (by omega)
    rw [tick_flags, tick_stamp, throttle_log, throttle_stamp, e]
    split
    · exact ⟨congrArg _ (ih t ht hrest).1, (ih t ht hrest).2⟩
    · exact ⟨congrArg _ (ih last hlast hrest).1, (ih last hlast hrest).2⟩

theorem tick_stamp_last_performed (interval : Int) (times : List Int) (last : Int) :
    tick_stamp interval last times
      = last_performed last times (tick_flags interval last times) := by
  induction times generalizing last with
  | nil => rfl
  | cons t times ih =>
    rw [tick_flags, tick_stamp]
    split
    · rw [last_performed, if_pos rfl]
      exact ih t
    · rw [last_performed, if_neg (by decide)]
      exact ih last

/-- Once the stored timestamp is the time of a previous performance, the
code performs the action exactly at the ticks that come more than the
cooldown after the previous performance. -/
theorem tick_flags_respects (interval : Int) (times : List Int) (last : Int)
    (previous : Option Int)
    (hprev : ∀ p, previous = some p → last = p ∧ 0 ≤ p ∧ p < 2 ^ 63)
    (htimes : ∀ t ∈ times, 0 ≤ t ∧ t < 2 ^ 63) :
    respects_cooldown interval previous times (tick_flags interval last times) := by
  induction times generalizing last previous with
  | nil => exact True.intro
  | cons t times ih =>
    have ht := htimes t (List.mem_cons_self _ _)
    have hrest : ∀ u ∈ times, 0 ≤ u ∧ u < 2 ^ 63 :=
      fun u hu => htimes u (List.mem_cons_of_mem _ hu)
    rw [tick_flags]
    split
    · rename_i hfire
      refine ⟨fun p hp => ?_, ?_⟩
      · obtain ⟨h1, h2, h3⟩ := hprev p hp
        subst h1
        rw [sub_int64_exact t last (by omega) (by omega)] at hfire
        exact ⟨fun _ => hfire, fun _ => rfl⟩
      · rw [if_pos rfl]
        refine ih t (some t) (fun p hp => ?_) hrest
        have : t = p := Option.some.inj hp
        subst this
        exact ⟨rfl, ht.1, ht.2⟩
    · rename_i hquiet
      refine ⟨fun p hp => ?_, ?_⟩
      · obtain ⟨h1, h2, h3⟩ := hprev p hp
        subst h1
        rw [sub_int64_exact t last (by omega) (by omega)] at hquiet
        exact ⟨fun h => absurd h (by decide), fun h => absurd h hquiet⟩
      · rw [if_neg (by decide)]
        exact ih last previous hprev hrest

theorem tick_flags_quiet (interval : Int) (times : List Int) (last : Int)
    (h : ∀ t ∈ times, -(2 ^ 63) ≤ t - last ∧ t - last ≤ interval)
    (hinterval : interval < 2 ^ 63) :
    (tick_flags interval last times).count true = 0 := by
  induction times with
  | nil => rfl
  | cons t times ih =>
    have ht := h t (List.mem_cons_self _ _)
    have e : sub_int64 t last = t - last := sub_int64_exact t last ht.1 (by omega)
    have h1 : ¬ sub_int64 t last > interval := by
      rw [e]
      exact not_lt.2 ht.2
    rw [tick_flags, if_neg h1, List.count_cons_of_ne (by decide)]
    exact ih fun u hu => h u (List.mem_cons_of_mem _ hu)

/-- Ticks whose times differ pairwise by less than the cooldown perform the
action at most once, whatever the stored timestamp is at the start. -/
theorem tick_flags_count (interval : Int) (times : List Int) (last : Int)
    (hspan : ∀ t ∈ times, ∀ u ∈ times, u - t < interval) (hinterval : interval < 2 ^ 63) :
    (tick_flags interval last times).count true ≤ 1 := by
  induction times generalizing last with
  | nil => simp [tick_flags]
  | cons t times ih =>
    rw [tick_flags]
    split
    · rw [List.count_cons_self, tick_flags_quiet _ _ _ _ hinterval]
      intro u hu
      have h1 := hspan t (List.mem_cons_self _ _) u (List.mem_cons_of_mem _ hu)
      have h2 := hspan u (List.mem_cons_of_mem _ hu) t (List.mem_cons_self _ _)
      constructor <;> omega
    · rw [List.count_cons_of_ne (by decide)]
      exact ih last fun a ha b hb =>
        hspan a (List.mem_cons_of_mem _ ha) b (List.mem_cons_of_mem _ hb)

/-- The `int64_t` subtraction wraps: a tick at 70000 ms is not more than
60000 ms after an uninitialised timestamp of `-2^63 + 1000`. -/
theorem sub_int64_wraps : sub_int64 70000 (-9223372036854774808) = -9223372036854706808 := by
  decide

/-- With the uninitialised timestamp `-2^63 + 1000` a tick at 70000 ms does
not flush. -/
theorem uninitialised_stamp_no_flush (rt : MonoRuntime)
    (sort : List (List Nat × List Nat × Nat) → List (List Nat × List Nat × Nat))
    (w : TickWorld) (collection : List Step) (hinv : BuffersPaired w.host.profiler)
    (hstack : w.self.lastStackLog = -9223372036854774808) :
    ∃ w2 actions, StartTick rt sort w 70000 collection = some (w2, actions)
      ∧ actions.flushed = false ∧ w2.self.lastStackLog = -9223372036854774808 := by
  obtain ⟨w2, he, -, -, hs, -⟩ := StartTick_spec rt sort w 70000 collection hinv
  rw [hstack, sub_int64_wraps] at he hs
  have hq : decide ((-9223372036854706808 : Int) > 60000) = false := by decide
  exact ⟨w2, _, he, hq, by simpa using hs⟩

theorem throttle_log_length (interval : Int) (times : List Int) (last : Int) :
    (throttle_log interval last times).length = times.length := by
  induction times generalizing last with
  | nil => rfl
  | cons t times ih =>
    rw [throttle_log]
    split <;> simp [ih]

theorem throttle_log_quiet (interval : Int) (times : List Int) (last : Int)
    (h : ∀ t ∈ times, t - last ≤ interval) :
    (throttle_log interval last times).count true = 0 := by
  induction times with
  | nil => rfl
  | cons t times ih =>
    have h1 : ¬ t - last > interval := not_lt.2 (h t (List.mem_cons_self _ _))
    rw [throttle_log, if_neg h1, List.count_cons_of_ne (by decide)]
    exact ih fun u hu => h u (List.mem_cons_of_mem _ hu)

theorem throttle_log_count (interval : Int) (times : List Int) (last : Int)
    (hspan : ∀ t ∈ times, ∀ u ∈ times, u - t < interval) :
    (throttle_log interval last times).count true ≤ 1 := by
  induction times generalizing last with
  | nil => simp [throttle_log]
  | cons t times ih =>
    rw [throttle_log]
    split
    · rw [List.count_cons_self, throttle_log_quiet]
      intro u hu
      exact le_of_lt (hspan t (List.mem_cons_self _ _) u (List.mem_cons_of_mem _ hu))
    · rw [List.count_cons_of_ne (by decide)]
      exact ih last fun a ha b hb =>
        hspan a (List.mem_cons_of_mem _ ha) b (List.mem_cons_of_mem _ hb)

theorem zipWith_collected (a b : List Bool) (h : a.length = b.length) :
    (List.zipWith TickActions.mk a b).map TickActions.collected = a := by
  induction a generalizing b with
  | nil => rfl
  | cons x a ih =>
    cases b with
    | nil => simp at h
    | cons y b =>
      simp only [List.zipWith_cons_cons, List.map_cons]
      rw [ih b (by simpa using h)]

theorem zipWith_flushed (a b : List Bool) (h : a.length = b.length) :
    (List.zipWith TickActions.mk a b).map TickActions.flushed = b := by
  induction a generalizing b with
  | nil =>
    cases b with
    | nil => rfl
    | cons y b => simp at h
  | cons x a ih =>
    cases b with
    | nil => rfl
    | cons y b =>
      simp only [List.zipWith_cons_cons, List.map_cons]
      rw [ih b (by simpa using h)]

/-! ## Aggregator map: facts -/

theorem map_find_none (m : List ((List Nat × List Nat) × Nat)) (key : List Nat × List Nat) :
    map_find m key = none ↔ key ∉ m.map Prod.fst := by
  induction m with
  | nil => simp [map_find]
  | cons e m ih =>
    obtain ⟨k, count⟩ := e
    by_cases hk : key = k
    · simp [map_find, hk]
    · simp [map_find, hk, ih]

theorem map_find_assign (m : List ((List Nat × List Nat) × Nat)) (key : List Nat × List Nat)
    (value old : Nat) (hfind : map_find m key = some old) (key2 : List Nat × List Nat) :
    map_find (map_assign m key value) key2
      = if key2 = key then some value else map_find m key2 := by
  induction m with
  | nil => simp [map_find] at hfind
  | cons e m ih =>
    obtain ⟨k, count⟩ := e
    by_cases hk : key = k
    · subst hk
      by_cases h2 : key2 = key
      · simp [map_assign, map_find, h2]
      · simp [map_assign, map_find, h2]
    · have hfind2 : map_find m key = some old := by simpa [map_find, hk] using hfind
      by_cases h2 : key2 = k
      · have h3 : ¬ key2 = key := fun h => hk (h.symm.trans h2)
        simp [map_assign, map_find, hk, h2, h3]
        rw [if_neg (fun h => hk h.symm)]
      · simp [map_assign, map_find, hk, h2, ih hfind2]

theorem map_find_insert (m : List ((List Nat × List Nat) × Nat)) (key : List Nat × List Nat)
    (value : Nat) (hfind : map_find m key = none) (key2 : List Nat × List Nat) :
    map_find (map_insert m key value) key2
      = if key2 = key then some value else map_find m key2 := by
  induction m with
  | nil => simp [map_insert, map_find]
  | cons e m ih =>
    obtain ⟨k, count⟩ := e
    have hk : ¬ key = k := by
      intro h
      simp [map_find, h] at hfind
    have hfind2 : map_find m key = none := by simpa [map_find, hk] using hfind
    rw [map_insert]
    split
    · by_cases h2 : key2 = key
      · simp [map_find, h2]
      · simp [map_find, h2]
    · by_cases h2 : key2 = k
      · have h3 : ¬ key2 = key := fun h => hk (h.symm.trans h2)
        simp [map_find, h2, h3]
        rw [if_neg (fun h => hk h.symm)]
      · simp [map_find, h2, ih hfind2]

theorem map_find_insert_or_assign (m : List ((List Nat × List Nat) × Nat))
    (key : List Nat × List Nat) (value : Nat) (key2 : List Nat × List Nat) :
    map_find (insert_or_assign m key value) key2
      = if key2 = key then some value else map_find m key2 := by
  unfold insert_or_assign
  cases hfind : map_find m key with
  | none => exact map_find_insert m key value hfind key2
  | some old => exact map_find_assign m key value old hfind key2

theorem map_assign_keys (m : List ((List Nat × List Nat) × Nat)) (key : List Nat × List Nat)
    (value : Nat) : (map_assign m key value).map Prod.fst = m.map Prod.fst := by
  induction m with
  | nil => rfl
  | cons e m ih =>
    obtain ⟨k, count⟩ := e
    rw [map_assign]
    split
    · rfl
    · simp [ih]

theorem map_insert_keys (m : List ((List Nat × List Nat) × Nat)) (key : List Nat × List Nat)
    (value : Nat) : ((map_insert m key value).map Prod.fst).Perm (key :: m.map Prod.fst) := by
  induction m with
  | nil => exact List.Perm.refl _
  | cons e m ih =>
    obtain ⟨k, count⟩ := e
    rw [map_insert]
    split
    · exact List.Perm.refl _
    · simp only [List.map_cons]
      exact (List.Perm.cons k ih).trans (List.Perm.swap key k _)

theorem insert_or_assign_nodup (m : List ((List Nat × List Nat) × Nat))
    (key : List Nat × List Nat) (value : Nat) (hm : (m.map Prod.fst).Nodup) :
    ((insert_or_assign m key value).map Prod.fst).Nodup := by
  unfold insert_or_assign
  cases hfind : map_find m key with
  | none =>
    refine (map_insert_keys m key value).nodup_iff.2 (List.nodup_cons.2 ⟨?_, hm⟩)
    exact (map_find_none m key).1 hfind
  | some old =>
    show ((map_assign m key value).map Prod.fst).Nodup
    rw [map_assign_keys]
    exact hm

theorem map_assign_sum (m : List ((List Nat × List Nat) × Nat)) (key : List Nat × List Nat)
    (value old : Nat) (hfind : map_find m key = some old) :
    ((map_assign m key value).map Prod.snd).sum + old = (m.map Prod.snd).sum + value := by
  induction m with
  | nil => simp [map_find] at hfind
  | cons e m ih =>
    obtain ⟨k, count⟩ := e
    by_cases hk : key = k
    · have ho : count = old := by simpa [map_find, hk] using hfind
      simp only [map_assign, hk, if_true, List.map_cons, List.sum_cons, ho]
      omega
    · have hfind2 : map_find m key = some old := by simpa [map_find, hk] using hfind
      have := ih hfind2
      simp only [map_assign, hk, if_false, List.map_cons, List.sum_cons]
      omega

theorem map_insert_sum (m : List ((List Nat × List Nat) × Nat)) (key : List Nat × List Nat)
    (value : Nat) :
    ((map_insert m key value).map Prod.snd).sum = (m.map Prod.snd).sum + value := by
  induction m with
  | nil => simp [map_insert]
  | cons e m ih =>
    obtain ⟨k, count⟩ := e
    rw [map_insert]
    split
    · simp only [List.map_cons, List.sum_cons]
      omega
    · simp only [List.map_cons, List.sum_cons, ih]
      omega

theorem gc_allocation_eq (rt : MonoRuntime) (prof : MonoProfiler) (klass : Nat)
    (frames : List StackFrame) (htype : c_str (rt.type_name klass) = traced_type_name) :
    (gc_allocation rt prof klass frames).gchandles
      = insert_or_assign prof.gchandles (allocation_key rt klass frames)
          (match map_find prof.gchandles (allocation_key rt klass frames) with
            | some second => (second + 1) % 2 ^ 64
            | none => 1) := by
  simp only [gc_allocation, htype, if_true, allocation_key]

theorem record_allocations_append (rt : MonoRuntime) (prof : MonoProfiler)
    (l : List (Nat × List StackFrame)) (a : Nat × List StackFrame) :
    record_allocations rt prof (l ++ [a])
      = gc_allocation rt (record_allocations rt prof l) a.1 a.2 := by
  simp [record_allocations, List.foldl_append]

theorem tally_le (rt : MonoRuntime) (allocs : List (Nat × List StackFrame))
    (key : List Nat × List Nat) : tally rt allocs key ≤ allocs.length :=
  List.countP_le_length _

theorem tally_append (rt : MonoRuntime) (l : List (Nat × List StackFrame))
    (a : Nat × List StackFrame) (key : List Nat × List Nat) :
    tally rt (l ++ [a]) key
      = tally rt l key + (if allocation_key rt a.1 a.2 = key then 1 else 0) := by
  unfold tally
  rw [List.countP_append]
  by_cases h : allocation_key rt a.1 a.2 = key
  · simp [h]
  · simp [h]

/-- What the map holds after the allocations `allocs` were recorded into an
empty map: one entry per key, each key counted as often as it was recorded,
the counts adding up to the number of allocations. -/
theorem record_allocations_spec (rt : MonoRuntime) (prof : MonoProfiler)
    (allocs : List (Nat × List StackFrame)) (hempty : prof.gchandles = [])
    (htype : ∀ a ∈ allocs, c_str (rt.type_name a.1) = traced_type_name)
    (hn : allocs.length < 2 ^ 64) :
    (((record_allocations rt prof allocs).gchandles).map Prod.snd).sum = allocs.length
    ∧ (((record_allocations rt prof allocs).gchandles).map Prod.fst).Nodup
    ∧ ∀ key, map_find (record_allocations rt prof allocs).gchandles key
        = if tally rt allocs key = 0 then none else some (tally rt allocs key) := by
  induction allocs using List.reverseRecOn with
  | nil =>
    simp [record_allocations, hempty, tally, map_find]
  | append_singleton l a ih =>
    have hl : l.length + 1 < 2 ^ 64 := by simpa using hn
    obtain ⟨hsum, hnodup, hfind⟩ := ih
      (fun b hb => htype b (List.mem_append_left _ hb)) (by omega)
    have ha := htype a (List.mem_append_right _ (List.mem_singleton_self a))
    have hle := tally_le rt l (allocation_key rt a.1 a.2)
    rw [record_allocations_append, List.length_append, List.length_singleton]
    rw [gc_allocation_eq rt _ a.1 a.2 ha]
    refine ⟨?_, insert_or_assign_nodup _ _ _ hnodup, fun key => ?_⟩
    · have hk := hfind (allocation_key rt a.1 a.2)
      unfold insert_or_assign
      by_cases h0 : tally rt l (allocation_key rt a.1 a.2) = 0
      · rw [if_pos h0] at hk
        simp only [hk]
        rw [map_insert_sum, hsum]
      · rw [if_neg h0] at hk
        simp only [hk]
        have hmod : (tally rt l (allocation_key rt a.1 a.2) + 1) % 2 ^ 64
            = tally rt l (allocation_key rt a.1 a.2) + 1 := Nat.mod_eq_of_lt (by omega)
        rw [hmod]
        have h1 := map_assign_sum _ _ (tally rt l (allocation_key rt a.1 a.2) + 1) _ hk
        rw [hsum] at h1
        omega
    · rw [map_find_insert_or_assign, tally_append, hfind key]
      have hk := hfind (allocation_key rt a.1 a.2)
      by_cases h2 : key = allocation_key rt a.1 a.2
      · subst h2
        by_cases h0 : tally rt l (allocation_key rt a.1 a.2) = 0
        · rw [if_pos h0] at hk
          simp [hk, h0]
        · rw [if_neg h0] at hk
          simp only [hk, if_true]
          rw [Nat.mod_eq_of_lt (by omega)]
          simp
      · have h3 : ¬ allocation_key rt a.1 a.2 = key := fun h => h2 h.symm
        simp [h2, h3]

/-! ## Report of the aggregator: facts -/

theorem c_str_of_no_nul (text : List Nat) (h : 0 ∉ text) : c_str text = text := by
  unfold c_str
  rw [List.takeWhile_eq_self_iff]
  intro c hc
  have : c ≠ 0 := fun h0 => h (h0 ▸ hc)
  simpa using this

theorem decimal_of_small (count : Nat) (h : count < 2 ^ 31) :
    decimal (toInt32 count) = str (Nat.toDigits 10 count) := by
  have e : toInt32 count = (count : Int) := by
    unfold toInt32
    rw [Nat.mod_eq_of_lt (by omega), if_pos h]
  rw [e, decimal, if_neg (by omega), Int.toNat_ofNat]

theorem format_entry_eq (entry : List Nat × List Nat × Nat) (hcount : entry.2.2 < 2 ^ 31)
    (hname : 0 ∉ entry.1) (htrace : 0 ∉ entry.2.1) : format_entry entry = report_line entry := by
  unfold format_entry report_line
  rw [decimal_of_small _ hcount, c_str_of_no_nul _ hname, c_str_of_no_nul _ htrace]

theorem foldl_output (f : List Nat × List Nat × Nat → List Nat)
    (list : List (List Nat × List Nat × Nat)) (output : List Nat) :
    list.foldl (fun output entry => output ++ f entry ++ [10, 10, 10, 10]) output
      = output ++ (list.map (fun entry => f entry ++ [10, 10, 10, 10])).flatten := by
  induction list generalizing output with
  | nil => simp
  | cons e list ih =>
    rw [List.foldl_cons, ih]
    simp [List.append_assoc]

theorem format_traces_eq
    (sort : List (List Nat × List Nat × Nat) → List (List Nat × List Nat × Nat))
    (traces : List ((List Nat × List Nat) × Nat)) :
    format_traces sort traces
      = ((sort (traces.map (fun it => (it.1.1, it.1.2, it.2)))).map
          (fun entry => (format_entry entry).take 49999 ++ [10, 10, 10, 10])).flatten := by
  unfold format_traces
  simp only [snprintf]
  rw [foldl_output (fun entry => (format_entry entry).take (50000 - 1))]
  rfl

theorem not_after_iff (left right : List Nat × List Nat × Nat) :
    not_after left right ↔ right.2.2 ≤ left.2.2 := by
  unfold not_after count_greater
  simp only [gt_iff_lt, decide_eq_false_iff_not, not_lt]

theorem sort_by_count_sorted (list : List (List Nat × List Nat × Nat)) :
    (sort_by_count list).Pairwise (fun left right => right.2.2 ≤ left.2.2) := by
  have h := List.sorted_insertionSort not_after list
  refine List.Pairwise.imp ?_ h
  intro a b
  exact (not_after_iff a b).1

theorem sort_by_count_perm (list : List (List Nat × List Nat × Nat)) :
    (sort_by_count list).Perm list :=
  List.perm_insertionSort not_after list

/-- The stable insertion sort is one of the sorting functions `std::sort`
may be. -/
theorem sort_by_count_contract : SortsByCount sort_by_count :=
  fun list => ⟨sort_by_count_perm list, List.sorted_insertionSort not_after list⟩

theorem format_traces_single_length
    (sort : List (List Nat × List Nat × Nat) → List (List Nat × List Nat × Nat))
    (hsort : SortsByCount sort) (it : (List Nat × List Nat) × Nat) :
    (format_traces sort [it]).length ≤ 50003 := by
  have hone : sort [(it.1.1, it.1.2, it.2)] = [(it.1.1, it.1.2, it.2)] :=
    List.perm_singleton.1 (hsort _).1
  rw [format_traces_eq]
  simp only [List.map_cons, List.map_nil, hone, List.flatten, List.append_nil,
    List.length_append, List.length_take, List.length_cons, List.length_nil]
  omega

theorem report_line_length (entry : List Nat × List Nat × Nat) :
    entry.2.1.length + 27 ≤ (report_line entry).length := by
  unfold report_line
  simp only [List.length_append, str, List.length_map, List.length_cons, List.length_nil]
  omega

/-! ## Fields of the `HeapObject` record -/

theorem read_emit_refs_bytes (g : MonoProfiler) (last_offset : Nat) (refs : List (Nat × Nat))
    (rest : List Nat) :
    ∃ pairs, read_refs refs.length (emit_refs_bytes g last_offset refs ++ rest)
        = some (pairs, rest)
      ∧ pairs.map Prod.fst = offset_values last_offset refs := by
  unfold emit_refs_bytes
  induction refs generalizing g last_offset with
  | nil => exact ⟨[], rfl, rfl⟩
  | cons r refs ih =>
    obtain ⟨offset, ref⟩ := r
    obtain ⟨pairs, hp, hm⟩ := ih (emit_obj_next g ref) offset
    refine ⟨(toUInt64 (toInt32 (sub64 offset last_offset)),
      toInt64 (sub64 (ref >>> 3) (emit_obj_next g ref).obj_base)) :: pairs, ?_, ?_⟩
    · simp only [emit_refs, emit_obj_eq, emit_value_eq, List.length_cons, read_refs]
      rw [emit_refs_eq]
      simp only [List.nil_append, List.append_assoc, decode_encode_uleb128, Option.some_bind,
        decode_emit_obj_bytes]
      unfold emit_refs_bytes
      rw [hp]
      rfl
    · simp only [List.map_cons, offset_values, hm]

/-- The bytes `gc_reference` appends to an existing trace buffer read back
as a record whose size field is the aligned size passed through `int`, whose
count field is the number of references passed through `int`, and, when the
count fits, whose offset values are those of `offset_values`. -/
theorem gc_reference_fields (now : Nat) (prof : MonoProfiler) (obj klass size : Nat)
    (refs : List (Nat × Nat)) (buf : List Nat) (hbuf : prof.logBuffer = some buf) :
    ∃ prof2 bytes, gc_reference now prof obj klass size refs = some prof2
      ∧ prof2.logBuffer = some (buf ++ bytes)
      ∧ (∃ head unread, read_heap_object_head bytes = some (head, unread)
          ∧ head.time = now
          ∧ head.size = toUInt64 (toInt32 (aligned_size size))
          ∧ head.num = toUInt64 (toInt32 refs.length))
      ∧ (refs.length < 2 ^ 31 →
          ∃ head pairs, read_heap_object bytes = some ((head, pairs), [])
            ∧ head.size = toUInt64 (toInt32 (aligned_size size))
            ∧ head.num = refs.length
            ∧ pairs.map Prod.fst = offset_values 0 refs) := by
  obtain ⟨h1, h2, h3, h4, h5, h6⟩ := tag_bytes
  obtain ⟨gch, dhw, lht, lc, fb, lb, ob, pb⟩ := prof
  simp only at hbuf
  subst hbuf
  unfold gc_reference
  simp only [emit_event_eq, emit_obj_eq, emit_ptr_eq, emit_value_eq, emit_refs_eq,
    List.append_assoc, h3]
  have hP : ∃ P : MonoProfiler,
      P = MonoProfiler.mk gch dhw lht (set_insert klass lc) fb (some buf) ob pb := ⟨_, rfl⟩
  obtain ⟨P, hP⟩ := hP
  rw [← hP]
  have hH : ∃ H : HeapObjectHead, H = HeapObjectHead.mk now
      (toInt64 (sub64 (obj >>> 3) (emit_obj_next P obj).obj_base))
      (toInt64 (sub64 klass (emit_ptr_next (emit_obj_next P obj) klass).ptr_base))
      (toUInt64 (toInt32 (aligned_size size))) (toUInt64 (toInt32 refs.length)) := ⟨_, rfl⟩
  obtain ⟨H, hH⟩ := hH
  have hhead : ∀ rest, read_heap_object_head
      (38 :: (encode_uleb128 now [] ++ (emit_obj_bytes P obj
        ++ (emit_ptr_bytes (emit_obj_next P obj) klass
        ++ (encode_uleb128 (toUInt64 (toInt32 ((size + 7) % 2 ^ 64 &&& (2 ^ 64 - 8)))) []
        ++ (encode_uleb128 (toUInt64 (toInt32 refs.length)) [] ++ rest))))))
      = some (H, rest) := by
    intro rest
    rw [read_heap_object_head, if_pos (by decide)]
    simp only [decode_encode_uleb128, decode_emit_obj_bytes, decode_emit_ptr_bytes,
      Option.some_bind]
    rw [hH]
    rfl
  have hsize : H.size = toUInt64 (toInt32 (aligned_size size)) := by rw [hH]
  have hnum : H.num = toUInt64 (toInt32 refs.length) := by rw [hH]
  have htime : H.time = now := by rw [hH]
  refine ⟨_, _, rfl, rfl,
    ⟨H, emit_refs_bytes (emit_ptr_next (emit_obj_next P obj) klass) 0 refs, ?_, htime, hsize,
      hnum⟩, ?_⟩
  · simp only [List.singleton_append, List.cons_append, List.nil_append, List.append_assoc]
    exact hhead _
  · intro hlen
    obtain ⟨pairs, hp, hm⟩ := read_emit_refs_bytes
      (emit_ptr_next (emit_obj_next P obj) klass) 0 refs []
    rw [List.append_nil] at hp
    refine ⟨H, pairs, ?_, hsize, hnum.trans (toUInt64_toInt32_of_lt _ hlen), hm⟩
    simp only [List.singleton_append, List.cons_append, List.nil_append, List.append_assoc,
      read_heap_object]
    rw [hhead]
    simp only [Option.some_bind, hnum, toUInt64_toInt32_of_lt _ hlen, hp]

theorem and_align_mask (x : Nat) (hx : x < 2 ^ 64) : x &&& (2 ^ 64 - 8) = x / 8 * 8 := by
  have hm : (2 ^ 64 - 8 : Nat) = (2 ^ 61 - 1) <<< 3 := by decide
  have hd : x / 8 * 8 = (x >>> 3) <<< 3 := by
    rw [Nat.shiftLeft_eq, Nat.shiftRight_eq_div_pow]
  rw [hm, hd]
  apply Nat.eq_of_testBit_eq
  intro i
  rw [Nat.testBit_and, Nat.testBit_shiftLeft, Nat.testBit_shiftLeft,
    Nat.testBit_two_pow_sub_one, Nat.testBit_shiftRight]
  by_cases h3 : 3 ≤ i
  · have e : 3 + (i - 3) = i := by omega
    rw [e]
    by_cases h64 : i < 64
    · have : i - 3 < 61 := by omega
      simp [h3, this]
    · have hfalse : x.testBit i = false :=
        Nat.testBit_lt_two_pow (lt_of_lt_of_le hx (Nat.pow_le_pow_right (by decide) (by omega)))
      simp [hfalse]
  · simp [h3]

/-- The aligned size is the least multiple of 8 that is at least the
reported size, as long as adding 7 does not wrap. -/
theorem aligned_size_spec (size : Nat) (h : size + 7 < 2 ^ 64) :
    aligned_size size = (size + 7) / 8 * 8 ∧ aligned_size size % 8 = 0
      ∧ size ≤ aligned_size size ∧ aligned_size size < size + 8 := by
  have e : aligned_size size = (size + 7) / 8 * 8 := by
    unfold aligned_size
    rw [Nat.mod_eq_of_lt h, and_align_mask _ h]
  rw [e]
  omega

/-- For an object whose size plus 7 is below `2^31` the size field of the
record reads back as the size rounded up to a multiple of 8. -/
theorem size_field_small (now : Nat) (prof : MonoProfiler) (obj klass size : Nat)
    (refs : List (Nat × Nat)) (buf : List Nat) (hbuf : prof.logBuffer = some buf)
    (hsize : size + 7 < 2 ^ 31) :
    ∃ prof2 bytes head unread, gc_reference now prof obj klass size refs = some prof2
      ∧ prof2.logBuffer = some (buf ++ bytes)
      ∧ read_heap_object_head bytes = some (head, unread)
      ∧ head.size = (size + 7) / 8 * 8
      ∧ head.size % 8 = 0 ∧ size ≤ head.size ∧ head.size < size + 8 := by
  obtain ⟨prof2, bytes, he, hb, ⟨head, unread, hr, -, hs, -⟩, -⟩ :=
    gc_reference_fields now prof obj klass size refs buf hbuf
  obtain ⟨h1, h2, h3, h4⟩ := aligned_size_spec size (by omega)
  have h5 : head.size = aligned_size size := by
    rw [hs]
    exact toUInt64_toInt32_of_lt _ (by omega)
  refine ⟨prof2, bytes, head, unread, he, hb, hr, ?_, ?_, ?_, ?_⟩
  · rw [h5, h1]
  · rw [h5, h2]
  · rw [h5]
    exact h3
  · rw [h5]
    exact h4

/-- For non-decreasing offsets whose successive differences are below
`2^31` the offset values are the differences, and their running sums are the
offsets. -/
theorem offset_values_small (refs : List (Nat × Nat)) (last_offset : Nat)
    (h : List.Chain (fun a b => a ≤ b ∧ b - a < 2 ^ 31) last_offset (refs.map Prod.fst)) :
    running_sums last_offset (offset_values last_offset refs) = refs.map Prod.fst := by
  induction refs generalizing last_offset with
  | nil => rfl
  | cons r refs ih =>
    obtain ⟨offset, ref⟩ := r
    simp only [List.map_cons, List.chain_cons] at h
    obtain ⟨⟨hle, hlt⟩, hrest⟩ := h
    have e1 : sub64 offset last_offset = offset - last_offset := by
      unfold sub64 toUInt64
      omega
    have e2 : toUInt64 (toInt32 (sub64 offset last_offset)) = offset - last_offset := by
      rw [e1]
      exact toUInt64_toInt32_of_lt _ hlt
    have e3 : last_offset + (offset - last_offset) = offset := by omega
    simp only [offset_values, running_sums, e2, e3, List.map_cons, ih offset hrest]

/-! ## The class set and the `ClassMeta` records -/

theorem mem_set_insert (k x : Nat) (s : List Nat) : x ∈ set_insert k s ↔ x = k ∨ x ∈ s := by
  induction s with
  | nil => simp [set_insert]
  | cons y s ih =>
    rw [set_insert]
    split
    · simp
    · split
      · rename_i hky
        subst hky
        simp
      · simp only [List.mem_cons, ih]
        tauto

theorem set_insert_sorted (k : Nat) (s : List Nat) (hs : s.Pairwise (fun a b => a < b)) :
    (set_insert k s).Pairwise (fun a b => a < b) := by
  induction s with
  | nil => simp [set_insert]
  | cons y s ih =>
    rw [List.pairwise_cons] at hs
    rw [set_insert]
    split
    · rename_i hlt
      refine List.pairwise_cons.2 ⟨?_, List.pairwise_cons.2 hs⟩
      intro a ha
      rcases List.mem_cons.1 ha with h | h
      · rw [h]
        exact hlt
      · exact lt_trans hlt (hs.1 a h)
    · split
      · exact List.pairwise_cons.2 hs
      · rename_i h1 h2
        refine List.pairwise_cons.2 ⟨?_, ih hs.2⟩
        intro a ha
        rcases (mem_set_insert k a s).1 ha with h | h
        · rw [h]
          omega
        · exact hs.1 a h

theorem visited_classes_sorted (objects : List ObjectReport) (classes : List Nat)
    (hs : classes.Pairwise (fun a b => a < b)) :
    (visited_classes classes objects).Pairwise (fun a b => a < b) := by
  induction objects generalizing classes with
  | nil => exact hs
  | cons o objects ih => exact ih _ (set_insert_sorted _ _ hs)

theorem mem_visited_classes (objects : List ObjectReport) (classes : List Nat) (k : Nat) :
    k ∈ visited_classes classes objects ↔ k ∈ classes ∨ ∃ o ∈ objects, o.klass = k := by
  induction objects generalizing classes with
  | nil => simp [visited_classes]
  | cons o objects ih =>
    have h := ih (set_insert o.klass classes)
    unfold visited_classes at h ⊢
    rw [List.foldl_cons, h, mem_set_insert]
    simp only [List.mem_cons, exists_eq_or_imp]
    constructor
    · rintro ((h1 | h1) | h1)
      · exact Or.inr (Or.inl h1.symm)
      · exact Or.inl h1
      · exact Or.inr (Or.inr h1)
    · rintro (h1 | h1 | h1)
      · exact Or.inl (Or.inr h1)
      · exact Or.inl (Or.inl h1.symm)
      · exact Or.inr h1

theorem sorted_nodup (s : List Nat) (hs : s.Pairwise (fun a b => a < b)) : s.Nodup :=
  List.Pairwise.imp (fun h => Nat.ne_of_lt h) hs

theorem emit_obj_next_ptr_base (g : MonoProfiler) (a : Nat) :
    (emit_obj_next g a).ptr_base = g.ptr_base := by
  unfold emit_obj_next
  rw [emit_obj_fst]
  split <;> rfl

theorem emit_ptr_next_ptr_base (g : MonoProfiler) (a : Nat) :
    (emit_ptr_next g a).ptr_base = if g.ptr_base = 0 then a else g.ptr_base := by
  unfold emit_ptr_next
  rw [emit_ptr_fst]
  split <;> rfl

theorem emit_ptr_next_of_base (g : MonoProfiler) (a : Nat) (hb : g.ptr_base ≠ 0) :
    emit_ptr_next g a = g := by
  unfold emit_ptr_next
  rw [emit_ptr_fst, if_neg hb]

theorem emit_refs_next_ptr_base (g : MonoProfiler) (last_offset : Nat) (refs : List (Nat × Nat)) :
    (emit_refs_next g last_offset refs).ptr_base = g.ptr_base := by
  unfold emit_refs_next
  generalize ([] : List Nat) = buf
  induction refs generalizing g last_offset buf with
  | nil => rfl
  | cons r refs ih =>
    obtain ⟨offset, ref⟩ := r
    rw [emit_refs, ih]
    exact emit_obj_next_ptr_base g ref

/-- One `gc_reference` callback on an existing trace buffer: the class set
gains the class, and the pointer baseline, if unset, becomes the class
pointer. -/
theorem gc_reference_bases (now : Nat) (prof : MonoProfiler) (obj klass size : Nat)
    (refs : List (Nat × Nat)) (buf : List Nat) (hbuf : prof.logBuffer = some buf) :
    ∃ prof2 bytes, gc_reference now prof obj klass size refs = some prof2
      ∧ prof2.logBuffer = some (buf ++ bytes)
      ∧ prof2.logClasses = set_insert klass prof.logClasses
      ∧ prof2.ptr_base = (if prof.ptr_base = 0 then klass else prof.ptr_base) := by
  obtain ⟨prof2, bytes, he, hb, hc, -, -⟩ :=
    gc_reference_spec now prof obj klass size refs buf hbuf
  refine ⟨prof2, bytes, he, hb, hc, ?_⟩
  unfold gc_reference at he
  rw [hbuf] at he
  simp only [emit_obj_eq, emit_ptr_eq, emit_refs_eq, Option.some.injEq] at he
  rw [← he]
  show (emit_refs_next _ 0 refs).ptr_base = _
  rw [emit_refs_next_ptr_base, emit_ptr_next_ptr_base, emit_obj_next_ptr_base]

/-- The heap enumeration on an existing trace buffer: it succeeds, leaves a
trace buffer, the class set becomes the set of visited classes, a set
pointer baseline is kept, and after at least one object with a non-null
class pointer the baseline is set. -/
theorem walk_heap_classes (objects : List ObjectReport) (prof : MonoProfiler) (buf : List Nat)
    (hbuf : prof.logBuffer = some buf) :
    ∃ prof2 bytes, walk_heap prof objects = some prof2
      ∧ prof2.logBuffer = some (buf ++ bytes)
      ∧ prof2.logClasses = visited_classes prof.logClasses objects
      ∧ (prof.ptr_base ≠ 0 → prof2.ptr_base = prof.ptr_base)
      ∧ ((∀ o ∈ objects, o.klass ≠ 0) → objects ≠ [] → prof2.ptr_base ≠ 0) := by
  induction objects generalizing prof buf with
  | nil =>
    exact ⟨prof, [], rfl, by simpa using hbuf, rfl, fun _ => rfl, fun _ h => absurd rfl h⟩
  | cons o objects ih =>
    obtain ⟨p1, b1, he1, hb1, hc1, hp1⟩ :=
      gc_reference_bases o.now prof o.obj o.klass o.size o.refs buf hbuf
    obtain ⟨p2, b2, he2, hb2, hc2, hk2, hn2⟩ := ih p1 (buf ++ b1) hb1
    refine ⟨p2, b1 ++ b2, ?_, ?_, ?_, ?_, ?_⟩
    · rw [walk_heap, he1]
      exact he2
    · rw [hb2, List.append_assoc]
    · rw [hc2, hc1]
      rfl
    · intro hb
      have h1 : p1.ptr_base = prof.ptr_base := by rw [hp1, if_neg hb]
      rw [hk2 (by rw [h1]; exact hb), h1]
    · intro hk _
      have h1 : p1.ptr_base ≠ 0 := by
        rw [hp1]
        split
        · exact hk o (List.mem_cons_self _ _)
        · assumption
      rw [hk2 h1]
      exact h1

theorem read_cstring_c_str (name rest : List Nat) :
    read_cstring (c_str name ++ ([0] ++ rest)) = some (c_str name, rest) := by
  unfold c_str
  induction name with
  | nil => simp [read_cstring]
  | cons c name ih =>
    by_cases hc : c = 0
    · subst hc
      simp [read_cstring]
    · have hb : (c != 0) = true := by simpa using hc
      rw [List.takeWhile_cons, if_pos hb, List.cons_append, read_cstring, if_neg hc, ih]
      rfl

/-- The bytes `dump_classes` appends for the first class of its list, and
the state in which it goes on. -/
theorem dump_classes_cons (rt : MonoRuntime) (now : Nat → Nat) (g : MonoProfiler)
    (buf : List Nat) (klass : Nat) (classes : List Nat) :
    dump_classes rt now g buf (klass :: classes)
      = dump_classes rt now (emit_ptr_next (emit_ptr_next g klass) (rt.class_image klass))
          (buf ++ class_meta_record rt now g klass) classes := by
  obtain ⟨h1, h2, h3, h4, h5, h6⟩ := tag_bytes
  have e0 : encode_uleb128 (toUInt64 0) [] = [0] := by
    rw [show toUInt64 0 = 0 from by decide]
    exact encode_uleb128_small 0 (by decide) []
  have e1 : (TYPE_END_LOAD ||| TYPE_METADATA : Nat) = 34 := by decide
  have e2 : (TYPE_CLASS : Nat) = 1 := by decide
  rw [dump_classes]
  simp only [emit_event_eq, emit_byte_eq, emit_ptr_eq, emit_value_eq, h5, h6, e0,
    class_meta_record, emit_ptr_bytes, c_str, List.append_assoc]
  rw [e1, e2]

theorem dump_classes_bytes_cons (rt : MonoRuntime) (now : Nat → Nat) (g : MonoProfiler)
    (klass : Nat) (classes : List Nat) :
    dump_classes_bytes rt now g (klass :: classes)
      = class_meta_record rt now g klass
        ++ dump_classes_bytes rt now
            (emit_ptr_next (emit_ptr_next g klass) (rt.class_image klass)) classes := by
  unfold dump_classes_bytes
  rw [dump_classes_cons, dump_classes_eq]
  simp [dump_classes_bytes]

theorem dump_classes_next_cons (rt : MonoRuntime) (now : Nat → Nat) (g : MonoProfiler)
    (klass : Nat) (classes : List Nat) :
    dump_classes_next rt now g (klass :: classes)
      = dump_classes_next rt now
          (emit_ptr_next (emit_ptr_next g klass) (rt.class_image klass)) classes := by
  unfold dump_classes_next
  rw [dump_classes_cons, dump_classes_eq]
  rfl

/-- A `ClassMeta` record reads back as its fields: the timestamp, the
metadata kind `TYPE_CLASS`, the two pointer deltas, flags 0 and the name. -/
theorem read_class_meta_record (rt : MonoRuntime) (now : Nat → Nat) (g : MonoProfiler)
    (klass : Nat) (rest : List Nat) :
    read_class_meta (class_meta_record rt now g klass ++ rest)
      = some (ClassMetaFields.mk (now klass) TYPE_CLASS
          (toInt64 (sub64 klass (emit_ptr_next g klass).ptr_base))
          (toInt64 (sub64 (rt.class_image klass)
            (emit_ptr_next (emit_ptr_next g klass) (rt.class_image klass)).ptr_base))
          0 (c_str (rt.type_name klass)), rest) := by
  have e0 : encode_uleb128 0 [] = [0] := encode_uleb128_small 0 (by decide) []
  unfold class_meta_record
  simp only [List.singleton_append, List.cons_append, List.nil_append, List.append_assoc]
  rw [read_class_meta, if_pos rfl]
  simp only [decode_encode_uleb128, Option.some_bind]
  have hk := fun v r => decode_encode_sleb128 (toInt64 v) r (toInt64_range v).1 (toInt64_range v).2
  simp only [hk, Option.some_bind]
  have hf : ∀ r, decode_uleb128 (0 :: r) = some (0, r) := by
    intro r
    have := decode_encode_uleb128 0 r
    rwa [e0] at this
  simp only [hf, Option.some_bind]
  have hn := read_cstring_c_str (rt.type_name klass) rest
  simp only [List.singleton_append] at hn
  rw [hn]
  rfl

/-- With the pointer baseline set, the bytes `dump_classes` appends read
back as one record per class of the list, in order, each carrying the delta
of its class pointer from the baseline and its name; the baseline stays. -/
theorem read_dump_classes (rt : MonoRuntime) (now : Nat → Nat) (g : MonoProfiler)
    (classes : List Nat) (rest : List Nat) (hb : g.ptr_base ≠ 0) :
    ∃ fields, read_class_metas classes.length (dump_classes_bytes rt now g classes ++ rest)
        = some (fields, rest)
      ∧ fields.map ClassMetaFields.klass = classes.map (fun k => toInt64 (sub64 k g.ptr_base))
      ∧ fields.map ClassMetaFields.name = classes.map (fun k => c_str (rt.type_name k))
      ∧ (dump_classes_next rt now g classes).ptr_base = g.ptr_base := by
  induction classes with
  | nil => exact ⟨[], rfl, rfl, rfl, rfl⟩
  | cons k classes ih =>
    obtain ⟨fields, hr, hk, hn, hp⟩ := ih
    have e1 : emit_ptr_next g k = g := emit_ptr_next_of_base g k hb
    have e2 : emit_ptr_next (emit_ptr_next g k) (rt.class_image k) = g := by
      rw [e1]
      exact emit_ptr_next_of_base g _ hb
    refine ⟨ClassMetaFields.mk (now k) TYPE_CLASS (toInt64 (sub64 k g.ptr_base))
      (toInt64 (sub64 (rt.class_image k) g.ptr_base)) 0 (c_str (rt.type_name k)) :: fields,
      ?_, ?_, ?_, ?_⟩
    · rw [dump_classes_bytes_cons, List.length_cons, read_class_metas, List.append_assoc,
        read_class_meta_record, e2, e1]
      simp only [Option.some_bind, hr]
    · simp only [List.map_cons, hk]
    · simp only [List.map_cons, hn]
    · rw [dump_classes_next_cons, e2]
      exact hp

theorem replay_deltas (base : Nat) (classes : List Nat) (hc : ∀ k ∈ classes, k < 2 ^ 64) :
    (classes.map (fun k => toInt64 (sub64 k base))).map (replay (base % 2 ^ 64)) = classes := by
  induction classes with
  | nil => rfl
  | cons k classes ih =>
    simp only [List.map_cons, replay_delta k base (hc k (List.mem_cons_self _ _))]
    rw [ih fun x hx => hc x (List.mem_cons_of_mem _ hx)]

/-- A heap walk on an existing trace buffer, section by section: the
enumeration leaves the buffer with the `HeapStart` record and what the
`gc_reference` callbacks wrote; then come the bytes `dump_classes` writes for
the set of visited classes, then the `HeapEnd` record. -/
theorem heap_walk_sections (rt : MonoRuntime) (prof : MonoProfiler) (walk : HeapWalk)
    (buf : List Nat) (hbuf : prof.logBuffer = some buf) :
    ∃ p1 objs prof2,
      walk_heap { prof with logBuffer := some (buf ++ ([6] ++ encode_uleb128 walk.now_start [])) }
          walk.objects = some p1
      ∧ p1.logBuffer = some (buf ++ ([6] ++ encode_uleb128 walk.now_start []) ++ objs)
      ∧ p1.logClasses = visited_classes prof.logClasses walk.objects
      ∧ (prof.ptr_base ≠ 0 → p1.ptr_base = prof.ptr_base)
      ∧ ((∀ o ∈ walk.objects, o.klass ≠ 0) → walk.objects ≠ [] → p1.ptr_base ≠ 0)
      ∧ ((∀ o ∈ walk.objects, o.refs.length < 2 ^ 31) →
          Emits objs (List.replicate walk.objects.length RecordKind.HeapObject))
      ∧ heap_walk rt prof walk = some prof2
      ∧ prof2.logBuffer = some (buf ++ ([6] ++ encode_uleb128 walk.now_start []) ++ objs
          ++ dump_classes_bytes rt walk.now_class p1 p1.logClasses
          ++ ([22] ++ encode_uleb128 walk.now_end []))
      ∧ prof2.ptr_base = (dump_classes_next rt walk.now_class p1 p1.logClasses).ptr_base := by
  obtain ⟨h1, h2, h3, h4, h5, h6⟩ := tag_bytes
  obtain ⟨p1, b1, he1, hb1, hc1, hk1, hn1⟩ := walk_heap_classes walk.objects
    { prof with logBuffer := some (buf ++ ([6] ++ encode_uleb128 walk.now_start [])) }
    (buf ++ ([6] ++ encode_uleb128 walk.now_start [])) rfl
  obtain ⟨p1', b1', he1', hb1', -, hm1⟩ := walk_heap_spec walk.objects
    { prof with logBuffer := some (buf ++ ([6] ++ encode_uleb128 walk.now_start [])) }
    (buf ++ ([6] ++ encode_uleb128 walk.now_start [])) rfl
  rw [he1, Option.some.injEq] at he1'
  subst he1'
  have hbb : b1' = b1 := by
    rw [hb1, Option.some.injEq] at hb1'
    exact (List.append_cancel_left hb1').symm
  subst hbb
  refine ⟨p1, b1', { dump_classes_next rt walk.now_class p1 p1.logClasses with
      logBuffer := some (buf ++ ([6] ++ encode_uleb128 walk.now_start []) ++ b1'
        ++ dump_classes_bytes rt walk.now_class p1 p1.logClasses
        ++ ([22] ++ encode_uleb128 walk.now_end [])) },
    he1, hb1, hc1, hk1, hn1, hm1, ?_, rfl, rfl⟩
  unfold heap_walk
  rw [hbuf]
  simp only [emit_event_eq, h1, he1, hb1, dump_classes_eq, h2]

theorem c_str_no_nul (memory : List Nat) : 0 ∉ c_str memory := by
  unfold c_str
  intro h
  have := List.mem_takeWhile_imp h
  simp at this

theorem class_meta_record_length (rt : MonoRuntime) (now : Nat → Nat) (g : MonoProfiler)
    (klass : Nat) :
    (class_meta_record rt now g klass).length = (class_meta_layout rt now g klass).length + 1 := by
  unfold class_meta_record class_meta_layout
  simp only [List.length_append, List.length_singleton]
  omega

/-! # The claims -/

/-! ## Claim C1 -/

/-- Claim C1: for every value `v` (in particular every unsigned 64-bit
value) the bytes `encode_uleb128` appends to the sink decode, by standard
base-128 unsigned varint decoding, to `v`, and the decoder stops exactly at
the end of the appended bytes, whatever follows them. -/
theorem C1_uleb128_roundtrip (v : Nat) (buffer rest : List Nat) :
    ∃ bytes, encode_uleb128 v buffer = buffer ++ bytes
      ∧ decode_uleb128 (bytes ++ rest) = some (v, rest) :=
  ⟨encode_uleb128 v [], encode_uleb128_append v buffer, decode_encode_uleb128 v rest⟩

/-! ## Claim C2 -/

/-- Claim C2: for every signed 64-bit value `v` the (total, hence
terminating) function `encode_sleb128` appends bytes that decode, by
standard signed LEB128 decoding, to `v`, and the decoder stops exactly at
the end of the appended bytes, whatever follows them. -/
theorem C2_sleb128_roundtrip (v : Int) (hlo : -(2 ^ 63) ≤ v) (hhi : v < 2 ^ 63)
    (buffer rest : List Nat) :
    ∃ bytes, encode_sleb128 v buffer = buffer ++ bytes
      ∧ decode_sleb128 (bytes ++ rest) = some (v, rest) :=
  ⟨encode_sleb128 v [], encode_sleb128_append v buffer hlo hhi,
    decode_encode_sleb128 v rest hlo hhi⟩

/-- Witness of C2 at `INT64_MIN`, `-1` and `0`. -/
theorem C2_sleb128_roundtrip_witness :
    (-(2 ^ 63) ≤ (-(2 ^ 63) : Int) ∧ (-(2 ^ 63) : Int) < 2 ^ 63
      ∧ ∃ bytes, encode_sleb128 (-(2 ^ 63)) [] = [] ++ bytes
        ∧ decode_sleb128 (bytes ++ [7]) = some (-(2 ^ 63), [7]))
    ∧ (∃ bytes, encode_sleb128 (-1) [] = [] ++ bytes
        ∧ decode_sleb128 (bytes ++ [7]) = some (-1, [7]))
    ∧ (∃ bytes, encode_sleb128 0 [] = [] ++ bytes
        ∧ decode_sleb128 (bytes ++ [7]) = some (0, [7])) :=
  ⟨⟨by norm_num, by norm_num,
      C2_sleb128_roundtrip (-(2 ^ 63)) (by norm_num) (by norm_num) [] [7]⟩,
    C2_sleb128_roundtrip (-1) (by norm_num) (by norm_num) [] [7],
    C2_sleb128_roundtrip 0 (by norm_num) (by norm_num) [] [7]⟩

/-! ## Claim C3 -/

/-- Claim C3: for every unsigned 64-bit value `v` the appended bytes are
`body ++ [last]` with `ceil(bitLength v / 7)` bytes in all, at least 1
(1 byte for `v = 0`, 10 bytes for `v ≥ 2^63`); every byte of `body` has the
`0x80` bit set and `last` has it clear. -/
theorem C3_uleb128_length (v : Nat) (hv : v < 2 ^ 64) (buffer : List Nat) :
    ∃ body last, encode_uleb128 v buffer = buffer ++ (body ++ [last])
      ∧ (body ++ [last]).length = max 1 ((Nat.size v + 6) / 7)
      ∧ (v = 0 → (body ++ [last]).length = 1)
      ∧ (2 ^ 63 ≤ v → (body ++ [last]).length = 10)
      ∧ (∀ b ∈ body, b &&& 0x80 ≠ 0)
      ∧ last &&& 0x80 = 0 := by
  obtain ⟨body, last, he, hb, hl⟩ := encode_uleb128_shape v
  have hlen := encode_uleb128_length v
  rw [he] at hlen
  refine ⟨body, last, ?_, hlen, ?_, ?_, hb, hl⟩
  · rw [encode_uleb128_append, he]
  · intro h0
    rw [hlen, h0]
    simp
  · intro h63
    have h1 : Nat.size v ≤ 64 := Nat.size_le.2 hv
    have h2 : 63 < Nat.size v := Nat.lt_size.2 h63
    rw [hlen]
    omega

/-- Witness of C3 at the largest unsigned 64-bit value. -/
theorem C3_uleb128_length_witness :
    2 ^ 64 - 1 < 2 ^ 64 ∧
    ∃ body last, encode_uleb128 (2 ^ 64 - 1) [] = [] ++ (body ++ [last])
      ∧ (body ++ [last]).length = max 1 ((Nat.size (2 ^ 64 - 1) + 6) / 7)
      ∧ (2 ^ 64 - 1 = 0 → (body ++ [last]).length = 1)
      ∧ (2 ^ 63 ≤ 2 ^ 64 - 1 → (body ++ [last]).length = 10)
      ∧ (∀ b ∈ body, b &&& 0x80 ≠ 0)
      ∧ last &&& 0x80 = 0 :=
  ⟨by norm_num, C3_uleb128_length (2 ^ 64 - 1) (by norm_num) []⟩

/-! ## Claim C4 -/

/-- Counterexample to claim C4 as stated: the demo cycle, in which one root
report is delivered between the pre-pause and the heap walk, flushes a
payload whose records are `HeapRoot`, `HeapStart`, `HeapObject`,
`ClassMeta` records, `HeapEnd`: its first record is not `HeapStart`. -/
theorem C4_counterexample :
    ¬ (∀ (rt : MonoRuntime) (h : Host) (before : List RootReport) (walk : HeapWalk)
        (after : List RootReport) (now : Nat),
        h.profiler.do_heap_walk = true →
        ∃ h2 kinds, run rt h (cycle rt before walk after now) = some h2
          ∧ parse_payload (record_payload (h2.test_mlpd.drop h.test_mlpd.length)) = some kinds
          ∧ well_formed_walk kinds = true) := by
  intro hclaim
  obtain ⟨h2, kinds, hrun, hparse, hwf⟩ := hclaim
    demo_runtime demo_host [demo_report] demo_walk [] 6 rfl
  obtain ⟨h3, record, m, hrun3, hfile, -, -, hparse3⟩ := cycle_core
    demo_runtime demo_host [demo_report] demo_walk [] 6 rfl
    (by decide) (by decide)
  rw [hrun3] at hrun
  simp only [Option.some.injEq] at hrun
  subst hrun
  rw [hfile, drop_append_len _ _ _ rfl, hparse3] at hparse
  simp only [Option.some.injEq] at hparse
  subst hparse
  revert hwf
  simp [well_formed_walk, demo_report]

/-- Claim C4, amended: a heap-walk cycle started with a walk requested, in
which every root report carries fewer than `2^31` roots and every walked
object fewer than `2^31` references, succeeds and appends one buffer record
to the trace file; the payload of that record parses as one `HeapRoot` record
per root report delivered before the walk, then `HeapStart`, one `HeapObject`
record per walked object, `ClassMeta` records, exactly one `HeapEnd`, and
then one `HeapRoot` record per root report delivered after the walk. -/
theorem C4_cycle_payload (rt : MonoRuntime) (h : Host) (before : List RootReport)
    (walk : HeapWalk) (after : List RootReport) (now : Nat)
    (hreq : h.profiler.do_heap_walk = true)
    (hroots : ∀ r ∈ before ++ after, r.roots.length < 2 ^ 31)
    (hrefs : ∀ o ∈ walk.objects, o.refs.length < 2 ^ 31) :
    ∃ h2 record m, run rt h (cycle rt before walk after now) = some h2
      ∧ h2.test_mlpd = h.test_mlpd ++ record
      ∧ parse_payload (record_payload record)
        = some (List.replicate before.length RecordKind.HeapRoot
          ++ ([RecordKind.HeapStart]
            ++ List.replicate walk.objects.length RecordKind.HeapObject
            ++ List.replicate m RecordKind.ClassMeta ++ [RecordKind.HeapEnd])
          ++ List.replicate after.length RecordKind.HeapRoot)
      ∧ well_formed_walk ([RecordKind.HeapStart]
            ++ List.replicate walk.objects.length RecordKind.HeapObject
            ++ List.replicate m RecordKind.ClassMeta ++ [RecordKind.HeapEnd]) = true := by
  obtain ⟨h2, record, m, hrun, hfile, -, -, hparse⟩ :=
    cycle_core rt h before walk after now hreq hroots hrefs
  refine ⟨h2, record, m, hrun, hfile, hparse, ?_⟩
  have hdrop : ∀ (n k : Nat) (l : List RecordKind),
      (List.replicate n RecordKind.HeapObject
        ++ (List.replicate k RecordKind.ClassMeta ++ l)).dropWhile
          (fun x => decide (x = RecordKind.HeapObject))
        = (List.replicate k RecordKind.ClassMeta ++ l).dropWhile
          (fun x => decide (x = RecordKind.HeapObject)) := by
    intro n k l
    induction n with
    | zero => rfl
    | succ n ih => simp [List.replicate_succ, ih]
  have hdrop2 : ∀ (k : Nat),
      (List.replicate k RecordKind.ClassMeta ++ [RecordKind.HeapEnd]).dropWhile
          (fun x => decide (x = RecordKind.HeapObject))
        = List.replicate k RecordKind.ClassMeta ++ [RecordKind.HeapEnd] := by
    intro k
    cases k with
    | zero => rfl
    | succ k => simp [List.replicate_succ]
  have hdrop3 : ∀ (k : Nat),
      (List.replicate k RecordKind.ClassMeta ++ [RecordKind.HeapEnd]).dropWhile
          (fun x => decide (x = RecordKind.ClassMeta)) = [RecordKind.HeapEnd] := by
    intro k
    induction k with
    | zero => rfl
    | succ k ih => simp [List.replicate_succ, ih]
  simp only [List.singleton_append, List.cons_append, List.nil_append, List.append_assoc,
    well_formed_walk, hdrop, hdrop2, hdrop3, decide_True]

/-- Witness of the amended C4: the demo cycle with one root report before
the walk. -/
theorem C4_cycle_payload_witness :
    demo_host.profiler.do_heap_walk = true
    ∧ (∀ r ∈ [demo_report] ++ [], r.roots.length < 2 ^ 31)
    ∧ (∀ o ∈ demo_walk.objects, o.refs.length < 2 ^ 31)
    ∧ ∃ h2 record m, run demo_runtime demo_host (cycle demo_runtime [demo_report] demo_walk [] 6)
          = some h2
        ∧ h2.test_mlpd = demo_host.test_mlpd ++ record
        ∧ parse_payload (record_payload record)
          = some (List.replicate [demo_report].length RecordKind.HeapRoot
            ++ ([RecordKind.HeapStart]
              ++ List.replicate demo_walk.objects.length RecordKind.HeapObject
              ++ List.replicate m RecordKind.ClassMeta ++ [RecordKind.HeapEnd])
            ++ List.replicate ([] : List RootReport).length RecordKind.HeapRoot)
        ∧ well_formed_walk ([RecordKind.HeapStart]
              ++ List.replicate demo_walk.objects.length RecordKind.HeapObject
              ++ List.replicate m RecordKind.ClassMeta ++ [RecordKind.HeapEnd]) = true :=
  ⟨rfl, by decide, by decide,
    C4_cycle_payload demo_runtime demo_host [demo_report] demo_walk [] 6 rfl (by decide)
      (by decide)⟩

/-! ## Claim C5 -/

/-- Claim C5: `dump_header` on an empty sink produces exactly 32 bytes: the
little-endian magic `0x4D505A01`, the format-major byte 1, the format-minor
byte 1, two further bytes (0 and 8), an 8-byte timestamp field holding 0 and
four 4-byte fields holding 0. In the trace file `initFunction` creates from
it, whatever sequence of collector callbacks, root reports and walk requests
follows, it succeeds and every buffer record is appended behind these 32
bytes, which stay the first 32 bytes of the file. -/
theorem C5_header_layout (rt : MonoRuntime) (now : Nat) (steps : List Step) :
    dump_header [] = le_bytes 4 0x4D505A01 ++ [1] ++ [1] ++ [0, 8] ++ le_bytes 8 0
        ++ le_bytes 4 0 ++ le_bytes 4 0 ++ le_bytes 4 0 ++ le_bytes 4 0
    ∧ (dump_header []).length = 32
    ∧ le_value ((dump_header []).take 4) = 0x4D505A01
    ∧ (∀ b ∈ dump_header [], b < 256)
    ∧ (initFunction now).test_mlpd = dump_header []
    ∧ ∃ h2 appended, run rt (initFunction now) steps = some h2
        ∧ h2.test_mlpd = dump_header [] ++ appended
        ∧ h2.test_mlpd.take 32 = dump_header [] := by
  have hlen : (dump_header []).length = 32 := by
    rw [dump_header_eq]
    rfl
  refine ⟨?_, hlen, ?_, ?_, rfl, ?_⟩
  · rw [dump_header_eq]
    decide
  · rw [dump_header_eq]
    decide
  · rw [dump_header_eq]
    decide
  · obtain ⟨h2, appended, he, -, hf⟩ := run_total rt steps (initFunction now)
      (initFunction_paired now)
    refine ⟨h2, appended, he, hf, ?_⟩
    rw [hf]
    exact take_append_len _ _ _ hlen

/-! ## Claim C6 -/

/-- Claim C6: for a payload shorter than `2^31` bytes and 64-bit clock and
baseline values, `dump_buffer` appends `48 + |p|` bytes: the little-endian
fields magic `0x4D504C01`, payload length, timestamp, pointer baseline,
object baseline and two further 8-byte fields (holding 1 and 0), each byte
below 256, followed by the payload unchanged. -/
theorem C6_dump_buffer_layout (buf p : List Nat) (g : MonoProfiler) (now : Nat)
    (hp : p.length < 2 ^ 31) (hnow : now < 2 ^ 64)
    (hptr : g.ptr_base < 2 ^ 64) (hobj : g.obj_base < 2 ^ 64) :
    ∃ record, dump_buffer buf p g now = buf ++ record
      ∧ record.length = 48 + p.length
      ∧ le_value (record.take 4) = 0x4D504C01
      ∧ le_value ((record.drop 4).take 4) = p.length
      ∧ le_value ((record.drop 8).take 8) = now
      ∧ le_value ((record.drop 16).take 8) = g.ptr_base
      ∧ le_value ((record.drop 24).take 8) = g.obj_base
      ∧ le_value ((record.drop 32).take 8) = 1
      ∧ le_value ((record.drop 40).take 8) = 0
      ∧ (∀ b ∈ record.take 48, b < 256)
      ∧ record.drop 48 = p := by
  refine ⟨_, dump_buffer_eq buf p g now, ?_, ?_, ?_, ?_, ?_, ?_, ?_, ?_, ?_, ?_⟩
  · simp only [List.length_append, le_bytes_length]
    omega
  · rw [List.take_left' (le_bytes_length _ _)]
    exact le_value_le_bytes_of_lt _ _ (by norm_num)
  · have h := field_at (le_bytes 4 0x4D504C01) (le_bytes 4 p.length)
      (le_bytes 8 now ++ (le_bytes 8 g.ptr_base ++ (le_bytes 8 g.obj_base
        ++ (le_bytes 8 1 ++ (le_bytes 8 0 ++ p))))) 4 4
      (le_bytes_length _ _) (le_bytes_length _ _)
    rw [h]
    exact le_value_le_bytes_of_lt _ _ (by norm_num; omega)
  · have h := field_at (le_bytes 4 0x4D504C01 ++ le_bytes 4 p.length) (le_bytes 8 now)
      (le_bytes 8 g.ptr_base ++ (le_bytes 8 g.obj_base
        ++ (le_bytes 8 1 ++ (le_bytes 8 0 ++ p)))) 8 8
      (by simp [le_bytes_length]) (le_bytes_length _ _)
    simp only [List.append_assoc] at h
    rw [h]
    exact le_value_le_bytes_of_lt _ _ (by norm_num; omega)
  · have h := field_at (le_bytes 4 0x4D504C01 ++ le_bytes 4 p.length ++ le_bytes 8 now)
      (le_bytes 8 g.ptr_base) (le_bytes 8 g.obj_base
        ++ (le_bytes 8 1 ++ (le_bytes 8 0 ++ p))) 16 8
      (by simp [le_bytes_length]) (le_bytes_length _ _)
    simp only [List.append_assoc] at h
    rw [h]
    exact le_value_le_bytes_of_lt _ _ (by norm_num; omega)
  · have h := field_at (le_bytes 4 0x4D504C01 ++ le_bytes 4 p.length ++ le_bytes 8 now
        ++ le_bytes 8 g.ptr_base)
      (le_bytes 8 g.obj_base) (le_bytes 8 1 ++ (le_bytes 8 0 ++ p)) 24 8
      (by simp [le_bytes_length]) (le_bytes_length _ _)
    simp only [List.append_assoc] at h
    rw [h]
    exact le_value_le_bytes_of_lt _ _ (by norm_num; omega)
  · have h := field_at (le_bytes 4 0x4D504C01 ++ le_bytes 4 p.length ++ le_bytes 8 now
        ++ le_bytes 8 g.ptr_base ++ le_bytes 8 g.obj_base)
      (le_bytes 8 1) (le_bytes 8 0 ++ p) 32 8
      (by simp [le_bytes_length]) (le_bytes_length _ _)
    simp only [List.append_assoc] at h
    rw [h]
    exact le_value_le_bytes_of_lt _ _ (by norm_num)
  · have h := field_at (le_bytes 4 0x4D504C01 ++ le_bytes 4 p.length ++ le_bytes 8 now
        ++ le_bytes 8 g.ptr_base ++ le_bytes 8 g.obj_base ++ le_bytes 8 1)
      (le_bytes 8 0) (p ++ []) 40 8
      (by simp [le_bytes_length]) (le_bytes_length _ _)
    simp only [List.append_assoc, List.append_nil] at h
    rw [h]
    exact le_value_le_bytes_of_lt _ _ (by norm_num)
  · have h : (le_bytes 4 0x4D504C01 ++ (le_bytes 4 p.length
      ++ (le_bytes 8 now ++ (le_bytes 8 g.ptr_base ++ (le_bytes 8 g.obj_base
      ++ (le_bytes 8 1 ++ (le_bytes 8 0 ++ p))))))).take 48
        = le_bytes 4 0x4D504C01 ++ le_bytes 4 p.length ++ le_bytes 8 now
        ++ le_bytes 8 g.ptr_base ++ le_bytes 8 g.obj_base ++ le_bytes 8 1 ++ le_bytes 8 0 := by
      have := take_append_len (le_bytes 4 0x4D504C01 ++ le_bytes 4 p.length
        ++ le_bytes 8 now ++ le_bytes 8 g.ptr_base ++ le_bytes 8 g.obj_base ++ le_bytes 8 1
        ++ le_bytes 8 0) p 48 (by simp [le_bytes_length])
      simpa only [List.append_assoc] using this
    rw [h]
    intro b hb
    simp only [List.mem_append] at hb
    rcases hb with (((((hb | hb) | hb) | hb) | hb) | hb) | hb <;> exact le_bytes_lt _ _ b hb
  · have := drop_append_len (le_bytes 4 0x4D504C01 ++ le_bytes 4 p.length
        ++ le_bytes 8 now ++ le_bytes 8 g.ptr_base ++ le_bytes 8 g.obj_base ++ le_bytes 8 1
        ++ le_bytes 8 0) p 48 (by simp [le_bytes_length])
    simpa only [List.append_assoc] using this

/-- Witness of C6: a four-byte payload, clock 1000, baselines 4096 and 512. -/
theorem C6_dump_buffer_layout_witness :
    ([6, 0, 22, 0] : List Nat).length < 2 ^ 31 ∧ 1000 < 2 ^ 64
    ∧ ({ MonoProfiler.init 0 with ptr_base := 4096, obj_base := 512 } : MonoProfiler).ptr_base
        < 2 ^ 64
    ∧ ({ MonoProfiler.init 0 with ptr_base := 4096, obj_base := 512 } : MonoProfiler).obj_base
        < 2 ^ 64
    ∧ ∃ record, dump_buffer [] [6, 0, 22, 0]
          { MonoProfiler.init 0 with ptr_base := 4096, obj_base := 512 } 1000 = [] ++ record
      ∧ record.length = 48 + ([6, 0, 22, 0] : List Nat).length
      ∧ le_value (record.take 4) = 0x4D504C01
      ∧ le_value ((record.drop 4).take 4) = ([6, 0, 22, 0] : List Nat).length
      ∧ le_value ((record.drop 8).take 8) = 1000
      ∧ le_value ((record.drop 16).take 8)
          = ({ MonoProfiler.init 0 with ptr_base := 4096, obj_base := 512 } : MonoProfiler).ptr_base
      ∧ le_value ((record.drop 24).take 8)
          = ({ MonoProfiler.init 0 with ptr_base := 4096, obj_base := 512 } : MonoProfiler).obj_base
      ∧ le_value ((record.drop 32).take 8) = 1
      ∧ le_value ((record.drop 40).take 8) = 0
      ∧ (∀ b ∈ record.take 48, b < 256)
      ∧ record.drop 48 = [6, 0, 22, 0] :=
  ⟨by decide, by decide, by decide, by decide,
    C6_dump_buffer_layout [] [6, 0, 22, 0]
      { MonoProfiler.init 0 with ptr_base := 4096, obj_base := 512 } 1000
      (by decide) (by decide) (by decide) (by decide)⟩

/-! ## Claim C7 -/

/-- Claim C7: `emit_obj` called with the object baseline unset leaves it at
`a >> 3`, and every `emit_obj` call appends the signed varint of the value
`d` that represents `(a >> 3) - obj_base` modulo `2^64` in the signed
64-bit range, `obj_base` being the baseline after the call; `emit_ptr` does
the same with `a` and `ptr_base`. -/
theorem C7_delta_encoder (g : MonoProfiler) (logbuffer rest : List Nat) (a : Nat) :
    (emit_obj { g with obj_base := 0 } logbuffer a).1.obj_base = a >>> 3
    ∧ (∃ (d : Int) (bytes : List Nat),
        (emit_obj g logbuffer a).2 = logbuffer ++ bytes
        ∧ bytes = encode_sleb128 d []
        ∧ decode_sleb128 (bytes ++ rest) = some (d, rest)
        ∧ -(2 ^ 63) ≤ d ∧ d < 2 ^ 63
        ∧ (d - (((a >>> 3 : Nat) : Int) - ((emit_obj g logbuffer a).1.obj_base : Int)))
            % 2 ^ 64 = 0)
    ∧ (emit_ptr { g with ptr_base := 0 } logbuffer a).1.ptr_base = a
    ∧ (∃ (d : Int) (bytes : List Nat),
        (emit_ptr g logbuffer a).2 = logbuffer ++ bytes
        ∧ bytes = encode_sleb128 d []
        ∧ decode_sleb128 (bytes ++ rest) = some (d, rest)
        ∧ -(2 ^ 63) ≤ d ∧ d < 2 ^ 63
        ∧ (d - ((a : Int) - ((emit_ptr g logbuffer a).1.ptr_base : Int))) % 2 ^ 64 = 0) := by
  refine ⟨by simp [emit_obj_fst], ?_, by simp [emit_ptr_fst], ?_⟩
  · refine ⟨toInt64 (sub64 (a >>> 3) (emit_obj g logbuffer a).1.obj_base), _,
      emit_obj_snd g logbuffer a, rfl, ?_, (toInt64_range _).1, (toInt64_range _).2,
      toInt64_sub64 _ _⟩
    exact decode_encode_sleb128 _ rest (toInt64_range _).1 (toInt64_range _).2
  · refine ⟨toInt64 (sub64 a (emit_ptr g logbuffer a).1.ptr_base), _,
      emit_ptr_snd g logbuffer a, rfl, ?_, (toInt64_range _).1, (toInt64_range _).2,
      toInt64_sub64 _ _⟩
    exact decode_encode_sleb128 _ rest (toInt64_range _).1 (toInt64_range _).2

/-! ## Claim C8 -/

/-- Claim C8: on a buffer whose baselines are freshly reset, emitting an
address with `emit_obj` (resp. `emit_ptr`) and then the same address again
appends, the second time, the single byte `0x00`, the encoding of delta 0. -/
theorem C8_same_address_delta_zero (g : MonoProfiler) (logbuffer rest : List Nat) (a : Nat) :
    (emit_obj (emit_obj { g with obj_base := 0, ptr_base := 0 } logbuffer a).1
        (emit_obj { g with obj_base := 0, ptr_base := 0 } logbuffer a).2 a).2
      = (emit_obj { g with obj_base := 0, ptr_base := 0 } logbuffer a).2 ++ [0x00]
    ∧ (emit_ptr (emit_ptr { g with obj_base := 0, ptr_base := 0 } logbuffer a).1
        (emit_ptr { g with obj_base := 0, ptr_base := 0 } logbuffer a).2 a).2
      = (emit_ptr { g with obj_base := 0, ptr_base := 0 } logbuffer a).2 ++ [0x00]
    ∧ decode_sleb128 ([0x00] ++ rest) = some (0, rest) := by
  refine ⟨?_, ?_, ?_⟩
  · rw [emit_obj_snd (emit_obj _ logbuffer a).1]
    have hb : (emit_obj (emit_obj { g with obj_base := 0, ptr_base := 0 } logbuffer a).1
        (emit_obj { g with obj_base := 0, ptr_base := 0 } logbuffer a).2 a).1.obj_base
        = a >>> 3 := by
      simp only [emit_obj_fst]
      split_ifs <;> simp_all
    rw [hb, sub64_self, toInt64_zero, encode_sleb128_zero]
    rfl
  · rw [emit_ptr_snd (emit_ptr _ logbuffer a).1]
    have hb : (emit_ptr (emit_ptr { g with obj_base := 0, ptr_base := 0 } logbuffer a).1
        (emit_ptr { g with obj_base := 0, ptr_base := 0 } logbuffer a).2 a).1.ptr_base
        = a := by
      simp only [emit_ptr_fst]
      split_ifs <;> simp_all
    rw [hb, sub64_self, toInt64_zero, encode_sleb128_zero]
    rfl
  · have h := decode_encode_sleb128 0 rest (by norm_num) (by norm_num)
    rw [encode_sleb128_zero] at h
    exact h

/-! ## Claim C9 -/

/-- Counterexample to claim C9 as stated: on a freshly reset buffer the calls
`emit_obj(0)`, `emit_obj(16)` leave `obj_base = 2`, which is not the first
object address shifted (`0 >> 3 = 0`): the second call assigned the
baseline. The same happens to `ptr_base` with `emit_ptr(0)`, `emit_ptr(16)`. -/
theorem C9_counterexample :
    ¬ (∀ (g : MonoProfiler) (buf : List Nat) (calls : List EmitCall) (a : Nat),
        first_obj calls = some a →
        (emit_calls { g with obj_base := 0, ptr_base := 0 } buf calls).1.obj_base = a >>> 3)
    ∧ ¬ (∀ (g : MonoProfiler) (buf : List Nat) (calls : List EmitCall) (a : Nat),
        first_ptr calls = some a →
        (emit_calls { g with obj_base := 0, ptr_base := 0 } buf calls).1.ptr_base = a) := by
  constructor
  · intro h
    have h2 := h (MonoProfiler.init 0) [] [EmitCall.obj 0, EmitCall.obj 16] 0 rfl
    rw [emit_calls_obj_base] at h2
    revert h2
    decide
  · intro h
    have h2 := h (MonoProfiler.init 0) [] [EmitCall.ptr 0, EmitCall.ptr 16] 0 rfl
    rw [emit_calls_ptr_base] at h2
    revert h2
    decide

/-- Claim C9, amended: after any sequence of `emit_obj` / `emit_ptr` calls on
a freshly reset buffer, `obj_base` is the first nonzero `address >> 3` among
the `emit_obj` calls and `ptr_base` the first nonzero address among the
`emit_ptr` calls (0, unset, when there is none); and once a baseline is
nonzero no later call of the buffer changes it. -/
theorem C9_baseline_set_once (g : MonoProfiler) (buf : List Nat) (pre post : List EmitCall) :
    (emit_calls { g with obj_base := 0, ptr_base := 0 } buf pre).1.obj_base
      = first_nonzero (obj_values pre)
    ∧ (emit_calls { g with obj_base := 0, ptr_base := 0 } buf pre).1.ptr_base
      = first_nonzero (ptr_values pre)
    ∧ ((emit_calls { g with obj_base := 0, ptr_base := 0 } buf pre).1.obj_base ≠ 0 →
        (emit_calls { g with obj_base := 0, ptr_base := 0 } buf (pre ++ post)).1.obj_base
          = (emit_calls { g with obj_base := 0, ptr_base := 0 } buf pre).1.obj_base)
    ∧ ((emit_calls { g with obj_base := 0, ptr_base := 0 } buf pre).1.ptr_base ≠ 0 →
        (emit_calls { g with obj_base := 0, ptr_base := 0 } buf (pre ++ post)).1.ptr_base
          = (emit_calls { g with obj_base := 0, ptr_base := 0 } buf pre).1.ptr_base) := by
  refine ⟨?_, ?_, ?_, ?_⟩
  · rw [emit_calls_obj_base]
    simp
  · rw [emit_calls_ptr_base]
    simp
  · intro h
    rw [emit_calls_append, emit_calls_obj_base _ _ post, if_pos h]
  · intro h
    rw [emit_calls_append, emit_calls_ptr_base _ _ post, if_pos h]

/-- Witness of the amended C9: once `emit_obj(16)` and `emit_ptr(24)` have
set the baselines, the later calls `emit_obj(32)` and `emit_ptr(40)` leave
them unchanged. -/
theorem C9_baseline_set_once_witness :
    (emit_calls { MonoProfiler.init 0 with obj_base := 0, ptr_base := 0 } []
        ([EmitCall.obj 16, EmitCall.ptr 24] ++ [EmitCall.obj 32, EmitCall.ptr 40])).1.obj_base = 2
    ∧ (emit_calls { MonoProfiler.init 0 with obj_base := 0, ptr_base := 0 } []
        ([EmitCall.obj 16, EmitCall.ptr 24] ++ [EmitCall.obj 32, EmitCall.ptr 40])).1.ptr_base
        = 24 := by
  obtain ⟨h1, h2, h3, h4⟩ := C9_baseline_set_once (MonoProfiler.init 0) []
    [EmitCall.obj 16, EmitCall.ptr 24] [EmitCall.obj 32, EmitCall.ptr 40]
  have e1 : first_nonzero (obj_values [EmitCall.obj 16, EmitCall.ptr 24]) = 2 := by decide
  have e2 : first_nonzero (ptr_values [EmitCall.obj 16, EmitCall.ptr 24]) = 24 := by decide
  rw [e1] at h1
  rw [e2] at h2
  exact ⟨(h3 (by rw [h1]; decide)).trans h1, (h4 (by rw [h2]; decide)).trans h2⟩

/-! ## Claim C10 -/

/-- Counterexample to claim C10 as stated: for the object addresses 0 and 16
emitted into a fresh buffer, the record carries the object baseline 2 and
the first emitted delta is 0, so replaying the first delta gives 2 and not
`0 >> 3 = 0`. -/
theorem C10_counterexample :
    ¬ (∀ (g : MonoProfiler) (now : Nat) (addrs : List Nat), (∀ a ∈ addrs, a < 2 ^ 64) →
        ∃ ds, decode_svalues addrs.length
              (record_payload (record_of_calls g now (addrs.map EmitCall.obj))) = some (ds, [])
          ∧ ds.map (replay (record_obj_base (record_of_calls g now (addrs.map EmitCall.obj))))
            = addrs.map (fun a => a >>> 3)) := by
  intro h
  obtain ⟨ds, hd, hm⟩ := h (MonoProfiler.init 0) 0 [0, 16] (by decide)
  obtain ⟨ds2, hd2, -, hb2⟩ := replay_objects_core (MonoProfiler.init 0) 0 [0] [16]
    (by decide) (by decide) (by decide)
  have e : ([0] ++ [16] : List Nat) = [0, 16] := rfl
  rw [e] at hd2 hb2
  rw [hd2] at hd
  rw [hb2] at hm
  simp only [Option.some.injEq, Prod.mk.injEq, and_true] at hd
  rw [← hd] at hm
  revert hm
  simp [replay, toUInt64]

/-- Claim C10, amended: for 64-bit object addresses emitted with `emit_obj`
into a freshly reset buffer, the addresses `zs` emitted before the first one
with a nonzero `a >> 3` produce the delta 0, and every delta emitted from
that address on (`rs`), added modulo `2^64` to the object baseline that
`dump_buffer` writes in the buffer's record, gives `a >> 3`; that recorded
baseline is `a >> 3` of the first address of `rs` (0 when `rs` is empty).
Likewise for `emit_ptr`, the first nonzero pointer and the recorded pointer
baseline. -/
theorem C10_replay_from_record (g : MonoProfiler) (now : Nat) (zs rs zp rp : List Nat)
    (hz : ∀ a ∈ zs, a >>> 3 = 0) (hr : ∀ a, rs.head? = some a → a >>> 3 ≠ 0)
    (hlt : ∀ a ∈ rs, a < 2 ^ 64)
    (hzp : ∀ a ∈ zp, a = 0) (hrp : ∀ a, rp.head? = some a → a ≠ 0)
    (hltp : ∀ a ∈ rp, a < 2 ^ 64) :
    (∃ ds, decode_svalues (zs ++ rs).length
          (record_payload (record_of_calls g now ((zs ++ rs).map EmitCall.obj)))
        = some (List.replicate zs.length 0 ++ ds, [])
      ∧ ds.map (replay (record_obj_base (record_of_calls g now ((zs ++ rs).map EmitCall.obj))))
        = rs.map (fun a => a >>> 3)
      ∧ record_obj_base (record_of_calls g now ((zs ++ rs).map EmitCall.obj))
        = (rs.headD 0 >>> 3) % 2 ^ 64)
    ∧ (∃ ds, decode_svalues (zp ++ rp).length
          (record_payload (record_of_calls g now ((zp ++ rp).map EmitCall.ptr)))
        = some (List.replicate zp.length 0 ++ ds, [])
      ∧ ds.map (replay (record_ptr_base (record_of_calls g now ((zp ++ rp).map EmitCall.ptr))))
        = rp
      ∧ record_ptr_base (record_of_calls g now ((zp ++ rp).map EmitCall.ptr))
        = rp.headD 0 % 2 ^ 64) :=
  ⟨replay_objects_core g now zs rs hz hr hlt, replay_pointers_core g now zp rp hzp hrp hltp⟩

/-- Witness of the amended C10: object addresses 0, 16, 32 and pointers
0, 4096, 4104. -/
theorem C10_replay_from_record_witness :
    (∃ ds, decode_svalues ([0] ++ [16, 32]).length
          (record_payload (record_of_calls (MonoProfiler.init 0) 0
            (([0] ++ [16, 32]).map EmitCall.obj)))
        = some (List.replicate [0].length 0 ++ ds, [])
      ∧ ds.map (replay (record_obj_base (record_of_calls (MonoProfiler.init 0) 0
            (([0] ++ [16, 32]).map EmitCall.obj))))
        = [16, 32].map (fun a => a >>> 3)
      ∧ record_obj_base (record_of_calls (MonoProfiler.init 0) 0
            (([0] ++ [16, 32]).map EmitCall.obj))
        = ([16, 32].headD 0 >>> 3) % 2 ^ 64)
    ∧ (∃ ds, decode_svalues ([0] ++ [4096, 4104]).length
          (record_payload (record_of_calls (MonoProfiler.init 0) 0
            (([0] ++ [4096, 4104]).map EmitCall.ptr)))
        = some (List.replicate [0].length 0 ++ ds, [])
      ∧ ds.map (replay (record_ptr_base (record_of_calls (MonoProfiler.init 0) 0
            (([0] ++ [4096, 4104]).map EmitCall.ptr))))
        = [4096, 4104]
      ∧ record_ptr_base (record_of_calls (MonoProfiler.init 0) 0
            (([0] ++ [4096, 4104]).map EmitCall.ptr))
        = [4096, 4104].headD 0 % 2 ^ 64) :=
  C10_replay_from_record (MonoProfiler.init 0) 0 [0] [16, 32] [0] [4096, 4104]
    (by decide) (by decide) (by decide) (by decide) (by decide) (by decide)

/-! ## Claim C11 -/

/-- Claim C11: a collector callback (pre-pause, post-pause-still-stopped,
post-resume, or any other event) reported with a generation below the
oldest generation succeeds and returns the state it was given: the buffers,
the baselines, the class set, the walk-requested flag and the trace file are
all unchanged, so no buffer is allocated or released, no heap walk is run
and nothing is appended to the file. -/
theorem C11_generation_filter (rt : MonoRuntime) (h : Host) (ev : MonoGCEvent)
    (generation : Int) (walk : HeapWalk) (now : Nat) (hgen : generation < rt.max_generation) :
    gc_event rt h ev generation walk now = some h := by
  have hne : ¬ generation = rt.max_generation := by omega
  cases ev with
  | PRE_STOP_WORLD => simp only [gc_event, hne, and_false, if_false]
  | PRE_START_WORLD => simp only [gc_event, hne, and_false, if_false]
  | POST_START_WORLD_UNLOCKED =>
    cases hfb : h.profiler.fileBuffer with
    | none => simp only [gc_event, hfb]
    | some fb => simp only [gc_event, hfb, hne, if_false]
  | other => rfl

/-- Witness of C11: the three callbacks at generation 0 on a state that has
buffers and a requested walk, the oldest generation being 1. -/
theorem C11_generation_filter_witness :
    (0 : Int) < demo_runtime.max_generation
    ∧ gc_event demo_runtime demo_capturing
        MonoGCEvent.PRE_STOP_WORLD 0 demo_walk 7
      = some demo_capturing
    ∧ gc_event demo_runtime demo_capturing
        MonoGCEvent.PRE_START_WORLD 0 demo_walk 7
      = some demo_capturing
    ∧ gc_event demo_runtime demo_capturing
        MonoGCEvent.POST_START_WORLD_UNLOCKED 0 demo_walk 7
      = some demo_capturing :=
  ⟨by decide,
    C11_generation_filter demo_runtime _ MonoGCEvent.PRE_STOP_WORLD 0 demo_walk 7 (by decide),
    C11_generation_filter demo_runtime _ MonoGCEvent.PRE_START_WORLD 0 demo_walk 7 (by decide),
    C11_generation_filter demo_runtime _ MonoGCEvent.POST_START_WORLD_UNLOCKED 0 demo_walk 7
      (by decide)⟩

/-! ## Claim C12 -/

/-- Claim C12: from a state with paired buffers, with tick times that are
non-negative `int64_t` clock readings (in any order, in particular
non-decreasing) and `lastLog` holding such a reading as the constructor
leaves it, every sequence of scheduler ticks succeeds and each of the two
actions is throttled by its cooldown. The forced collections are exactly
those of a throttle of 120000 ms started at `lastLog`. For the flush, whose
timestamp `lastStackLog` starts uninitialised, every tick after the first
flush flushes exactly when it comes more than 60000 ms after the previous
flush; if `lastStackLog` starts as a clock reading too, the flushes are
exactly those of a throttle of 60000 ms started there. A tick that performs
an action records its own time as the new timestamp: afterwards each
timestamp is the time of the last tick that performed the action, or its
start value. If any two of the tick times differ by less than 120000 ms
(resp. 60000 ms), at most one forced collection (resp. flush) happens in the
sequence. -/
theorem C12_scheduler_throttling (rt : MonoRuntime)
    (sort : List (List Nat × List Nat × Nat) → List (List Nat × List Nat × Nat))
    (w : TickWorld) (ticks : List Tick)
    (hinv : BuffersPaired w.host.profiler)
    (htimes : ∀ t ∈ ticks, 0 ≤ t.msNow ∧ t.msNow < 2 ^ 63)
    (hlog : 0 ≤ w.self.lastLog ∧ w.self.lastLog < 2 ^ 63) :
    ∃ w2 log, run_ticks rt sort w ticks = some (w2, log)
      ∧ log.map TickActions.collected
          = throttle_log 120000 w.self.lastLog (ticks.map Tick.msNow)
      ∧ respects_cooldown 120000 (some w.self.lastLog) (ticks.map Tick.msNow)
          (log.map TickActions.collected)
      ∧ respects_cooldown 60000 none (ticks.map Tick.msNow) (log.map TickActions.flushed)
      ∧ (0 ≤ w.self.lastStackLog ∧ w.self.lastStackLog < 2 ^ 63 →
          log.map TickActions.flushed
            = throttle_log 60000 w.self.lastStackLog (ticks.map Tick.msNow))
      ∧ w2.self.lastLog
          = last_performed w.self.lastLog (ticks.map Tick.msNow) (log.map TickActions.collected)
      ∧ w2.self.lastStackLog
          = last_performed w.self.lastStackLog (ticks.map Tick.msNow)
              (log.map TickActions.flushed)
      ∧ ((∀ t ∈ ticks, ∀ u ∈ ticks, u.msNow - t.msNow < 120000) →
          (log.map TickActions.collected).count true ≤ 1)
      ∧ ((∀ t ∈ ticks, ∀ u ∈ ticks, u.msNow - t.msNow < 60000) →
          (log.map TickActions.flushed).count true ≤ 1) := by
  obtain ⟨w2, hrun, hp, hl, hs⟩ := run_ticks_spec rt sort ticks w hinv
  have hlen : (tick_flags 120000 w.self.lastLog (ticks.map Tick.msNow)).length
      = (tick_flags 60000 w.self.lastStackLog (ticks.map Tick.msNow)).length := by
    rw [tick_flags_length, tick_flags_length]
  have hrange : ∀ t ∈ ticks.map Tick.msNow, 0 ≤ t ∧ t < 2 ^ 63 := by
    intro t ht
    obtain ⟨a, ha, rfl⟩ := List.mem_map.1 ht
    exact htimes a ha
  have hspan : ∀ bound : Int, (∀ t ∈ ticks, ∀ u ∈ ticks, u.msNow - t.msNow < bound) →
      ∀ t ∈ ticks.map Tick.msNow, ∀ u ∈ ticks.map Tick.msNow, u - t < bound := by
    intro bound hb t ht u hu
    obtain ⟨a, ha, rfl⟩ := List.mem_map.1 ht
    obtain ⟨b, hb2, rfl⟩ := List.mem_map.1 hu
    exact hb a ha b hb2
  have hc := zipWith_collected _ _ hlen
  have hf := zipWith_flushed _ _ hlen
  refine ⟨w2, _, hrun, ?_, ?_, ?_, ?_, ?_, ?_, ?_, ?_⟩
  · rw [hc]
    exact (tick_flags_eq_throttle 120000 _ _ hlog hrange).1
  · rw [hc]
    refine tick_flags_respects 120000 _ _ _ (fun p hp => ?_) hrange
    have : w.self.lastLog = p := Option.some.inj hp
    subst this
    exact ⟨rfl, hlog.1, hlog.2⟩
  · rw [hf]
    exact tick_flags_respects 60000 _ _ none (fun p hp => absurd hp (by simp)) hrange
  · intro hstack
    rw [hf]
    exact (tick_flags_eq_throttle 60000 _ _ hstack hrange).1
  · rw [hc, hl]
    exact tick_stamp_last_performed _ _ _
  · rw [hf, hs]
    exact tick_stamp_last_performed _ _ _
  · intro h
    rw [hc]
    exact tick_flags_count _ _ _ (hspan _ h) (by norm_num)
  · intro h
    rw [hf]
    exact tick_flags_count _ _ _ (hspan _ h) (by norm_num)

/-- Witness of C12: the three demo ticks from start-up. -/
theorem C12_scheduler_throttling_witness :
    BuffersPaired demo_world.host.profiler
    ∧ (∀ t ∈ demo_ticks, 0 ≤ t.msNow ∧ t.msNow < 2 ^ 63)
    ∧ (0 ≤ demo_world.self.lastLog ∧ demo_world.self.lastLog < 2 ^ 63)
    ∧ ∃ w2 log, run_ticks demo_runtime sort_by_count demo_world demo_ticks = some (w2, log)
      ∧ log.map TickActions.collected = [false, false, true]
      ∧ log.map TickActions.flushed = [false, false, true]
      ∧ w2.self.lastLog = 125000
      ∧ w2.self.lastStackLog = 125000 := by
  have hinv : BuffersPaired demo_world.host.profiler := initFunction_paired 0
  have htimes : ∀ t ∈ demo_ticks, 0 ≤ t.msNow ∧ t.msNow < 2 ^ 63 := by
    intro t ht
    simp only [demo_ticks, List.mem_cons, List.mem_singleton, List.not_mem_nil, or_false] at ht
    rcases ht with h | h | h <;> rw [h] <;> norm_num
  have hlog : 0 ≤ demo_world.self.lastLog ∧ demo_world.self.lastLog < 2 ^ 63 := by
    constructor <;> norm_num [demo_world, GcDumpResource.construct]
  obtain ⟨w2, log, hrun, hc, -, -, hf, hl, hs, -⟩ :=
    C12_scheduler_throttling demo_runtime sort_by_count demo_world demo_ticks hinv htimes hlog
  have hf2 := hf hlog
  have ec : log.map TickActions.collected = [false, false, true] := by
    rw [hc]
    decide
  have ef : log.map TickActions.flushed = [false, false, true] := by
    rw [hf2]
    decide
  refine ⟨hinv, htimes, hlog, w2, log, hrun, ec, ef, ?_, ?_⟩
  · rw [hl, ec]
    rfl
  · rw [hs, ef]
    rfl

/-! ## Claim C13 -/

/-- Counterexample to claim C13 as stated: with both timestamps 0, the tick
at 125000 ms comes 125000 ms after the last forced collection, which is more
than the cooldown of 120000 ms, so it forces a collection as well as
flushing. -/
theorem C13_counterexample :
    ¬ (∀ (rt : MonoRuntime)
        (sort : List (List Nat × List Nat × Nat) → List (List Nat × List Nat × Nat))
        (w : TickWorld) (c0 c1 c2 : List Step),
        BuffersPaired w.host.profiler → w.self.lastLog = 0 → w.self.lastStackLog = 0 →
        (run_ticks rt sort w [Tick.mk 0 c0, Tick.mk 30000 c1, Tick.mk 125000 c2]).map Prod.snd
          = some [TickActions.mk false false, TickActions.mk false false,
              TickActions.mk false true]) := by
  intro hclaim
  have h1 := hclaim demo_runtime sort_by_count demo_world [] [] [] (initFunction_paired 0)
    rfl rfl
  obtain ⟨w2, hrun, -⟩ := run_ticks_spec demo_runtime sort_by_count
    [Tick.mk 0 [], Tick.mk 30000 [], Tick.mk 125000 []] demo_world (initFunction_paired 0)
  rw [hrun, Option.map_some', Option.some.injEq] at h1
  dsimp only at h1
  clear hrun
  revert h1
  decide

/-- Claim C13, amended: with cooldowns of 2 minutes and 1 minute and both
timestamps 0, the ticks at 0 and 30000 ms perform no action, and the tick at
125000 ms performs both a forced collection and an aggregator flush, both
timestamps being 125000 afterwards. -/
theorem C13_tick_scenario (rt : MonoRuntime)
    (sort : List (List Nat × List Nat × Nat) → List (List Nat × List Nat × Nat))
    (w : TickWorld) (c0 c1 c2 : List Step)
    (hinv : BuffersPaired w.host.profiler) (hlog : w.self.lastLog = 0)
    (hstack : w.self.lastStackLog = 0) :
    ∃ w2, run_ticks rt sort w [Tick.mk 0 c0, Tick.mk 30000 c1, Tick.mk 125000 c2]
        = some (w2, [TickActions.mk false false, TickActions.mk false false,
            TickActions.mk true true])
      ∧ w2.self.lastLog = 125000 ∧ w2.self.lastStackLog = 125000 := by
  obtain ⟨w2, hrun, -, hl, hs⟩ := run_ticks_spec rt sort
    [Tick.mk 0 c0, Tick.mk 30000 c1, Tick.mk 125000 c2] w hinv
  rw [hlog, hstack] at hrun
  rw [hlog] at hl
  rw [hstack] at hs
  have hrange : ∀ t ∈ [(0 : Int), 30000, 125000], 0 ≤ t ∧ t < 2 ^ 63 := by
    intro t ht
    simp only [List.mem_cons, List.mem_singleton, List.not_mem_nil, or_false] at ht
    rcases ht with h | h | h <;> rw [h] <;> norm_num
  have h120 := tick_flags_eq_throttle 120000 [0, 30000, 125000] 0 (by norm_num) hrange
  have h60 := tick_flags_eq_throttle 60000 [0, 30000, 125000] 0 (by norm_num) hrange
  simp only [List.map_cons, List.map_nil] at hrun hl hs
  rw [h120.1, h60.1] at hrun
  rw [h120.2] at hl
  rw [h60.2] at hs
  refine ⟨w2, hrun.trans ?_, hl.trans ?_, hs.trans ?_⟩
  · simp [throttle_log]
  · simp [throttle_stamp]
  · simp [throttle_stamp]

/-- Witness of the amended C13: the demo ticks from start-up. -/
theorem C13_tick_scenario_witness :
    BuffersPaired demo_world.host.profiler ∧ demo_world.self.lastLog = 0
    ∧ demo_world.self.lastStackLog = 0
    ∧ ∃ w2, run_ticks demo_runtime sort_by_count demo_world demo_ticks
        = some (w2, [TickActions.mk false false, TickActions.mk false false,
            TickActions.mk true true])
      ∧ w2.self.lastLog = 125000 ∧ w2.self.lastStackLog = 125000 :=
  ⟨initFunction_paired 0, rfl, rfl,
    C13_tick_scenario demo_runtime sort_by_count demo_world _ _ _ (initFunction_paired 0)
      rfl rfl⟩

/-! ## Claim C14 -/

/-- Claim C14: after `n < 2^64` allocations of the traced type have been
recorded, one after the other, into an empty aggregator map, the snapshot
`CopyTraces` returns has counts that sum to `n`, holds each key once, and
maps every `(typeName, stackText)` key to the number of allocations recorded
with that key (no entry for a key never recorded); recording one more
allocation stores 1 under a key not yet present and the old count plus 1
under a key already present; and after `Clear` the snapshot is empty. -/
theorem C14_aggregator_counts (rt : MonoRuntime) (prof : MonoProfiler)
    (allocs : List (Nat × List StackFrame)) (hempty : prof.gchandles = [])
    (htype : ∀ a ∈ allocs, c_str (rt.type_name a.1) = traced_type_name)
    (hn : allocs.length < 2 ^ 64) :
    ((CopyTraces (record_allocations rt prof allocs)).map Prod.snd).sum = allocs.length
    ∧ ((CopyTraces (record_allocations rt prof allocs)).map Prod.fst).Nodup
    ∧ (∀ key, map_find (CopyTraces (record_allocations rt prof allocs)) key
        = if tally rt allocs key = 0 then none else some (tally rt allocs key))
    ∧ (∀ klass frames, c_str (rt.type_name klass) = traced_type_name →
        map_find (CopyTraces (gc_allocation rt (record_allocations rt prof allocs) klass frames))
            (allocation_key rt klass frames)
          = some (match map_find (CopyTraces (record_allocations rt prof allocs))
                (allocation_key rt klass frames) with
              | some second => (second + 1) % 2 ^ 64
              | none => 1))
    ∧ CopyTraces (Clear (record_allocations rt prof allocs)) = [] := by
  obtain ⟨hsum, hnodup, hfind⟩ := record_allocations_spec rt prof allocs hempty htype hn
  refine ⟨hsum, hnodup, hfind, fun klass frames hk => ?_, rfl⟩
  unfold CopyTraces
  rw [gc_allocation_eq rt _ klass frames hk, map_find_insert_or_assign, if_pos rfl]

/-- Witness of C14: three allocations of the traced type, two of them from
the same stack. -/
theorem C14_aggregator_counts_witness :
    (MonoProfiler.init 0).gchandles = []
    ∧ (∀ a ∈ demo_allocations, c_str (task_runtime.type_name a.1) = traced_type_name)
    ∧ demo_allocations.length < 2 ^ 64
    ∧ ((CopyTraces (record_allocations task_runtime (MonoProfiler.init 0)
          demo_allocations)).map Prod.snd).sum = 3
    ∧ map_find (CopyTraces (record_allocations task_runtime (MonoProfiler.init 0)
          demo_allocations)) (allocation_key task_runtime 65536
            [{ managed := true, full_name := [102, 0] }, { managed := false, full_name := [] }])
        = some 2
    ∧ CopyTraces (Clear (record_allocations task_runtime (MonoProfiler.init 0)
          demo_allocations)) = [] := by
  have htype : ∀ a ∈ demo_allocations,
      c_str (task_runtime.type_name a.1) = traced_type_name := by
    have e : c_str (traced_type_name ++ [0]) = traced_type_name := by decide
    exact fun _ _ => e
  have hn : demo_allocations.length < 2 ^ 64 := by
    simp [demo_allocations]
  obtain ⟨hsum, -, hfind, -, hclear⟩ := C14_aggregator_counts task_runtime
    (MonoProfiler.init 0) demo_allocations rfl htype hn
  refine ⟨rfl, htype, hn, hsum, ?_, hclear⟩
  rw [hfind]
  decide

/-! ## Claim C15 -/

/-- Counterexample to claim C15 as stated: for the snapshot with one key
whose stack text is 50000 bytes long (count 1, no NUL byte anywhere), the
full text `Called: 1, Caller: T, Trace: <stackText>` does not occur in the
report: the entry is cut to the 49999 bytes that fit the formatting
buffer. -/
theorem C15_counterexample :
    ¬ (∀ (sort : List (List Nat × List Nat × Nat) → List (List Nat × List Nat × Nat))
        (traces : List ((List Nat × List Nat) × Nat)) (it : (List Nat × List Nat) × Nat),
        SortsByCount sort →
        it ∈ traces → it.2 < 2 ^ 31 → 0 ∉ it.1.1 → 0 ∉ it.1.2 →
        ∃ before after,
          format_traces sort traces
            = before ++ report_line (it.1.1, it.1.2, it.2) ++ after) := by
  intro hclaim
  have key : ∀ text : List Nat, text.length = 50000 → 0 ∉ text → False := by
    intro text hlong hnul
    have hname : (0 : Nat) ∉ [84] := by decide
    obtain ⟨before, after, h⟩ := hclaim sort_by_count [(([84], text), 1)] (([84], text), 1)
      sort_by_count_contract (List.mem_singleton_self _) (by norm_num) hname hnul
    have hlen := congrArg List.length h
    have h1 := format_traces_single_length sort_by_count sort_by_count_contract
      (([84], text), 1)
    have h2 := report_line_length ([84], text, 1)
    rw [List.length_append, List.length_append] at hlen
    dsimp only at hlen h2
    omega
  refine key (List.replicate 50000 102) (List.length_replicate _ _) ?_
  intro h
  exact absurd (List.eq_of_mem_replicate h) (by decide)

/-- Claim C15, amended: whatever order `std::sort` gives entries of equal
count, the report built from a snapshot consists of one entry per snapshot
entry, in an order of non-increasing count, each entry being the formatted
text cut to at most 49999 bytes and followed by four newline characters; for
an entry whose count is below `2^31` and whose type name and stack text hold
no NUL byte, the formatted text is
`Called: <count>, Caller: <typeName>, Trace: <stackText>` with the count in
decimal. A tick in a state with paired buffers succeeds; if it flushes, it
writes this report of the aggregator map to the report file and empties the
map, and if it does not, it leaves the report file and the map as they
are. -/
theorem C15_report_layout
    (sort : List (List Nat × List Nat × Nat) → List (List Nat × List Nat × Nat))
    (hsort : SortsByCount sort) (traces : List ((List Nat × List Nat) × Nat)) :
    ∃ sorted : List (List Nat × List Nat × Nat),
      sorted.Perm (traces.map (fun it => (it.1.1, it.1.2, it.2)))
      ∧ sorted.Pairwise (fun left right => right.2.2 ≤ left.2.2)
      ∧ format_traces sort traces
          = (sorted.map (fun entry => (format_entry entry).take 49999
              ++ [10, 10, 10, 10])).flatten
      ∧ (∀ entry ∈ sorted, entry.2.2 < 2 ^ 31 → 0 ∉ entry.1 → 0 ∉ entry.2.1 →
          format_entry entry = report_line entry)
      ∧ ∀ (rt : MonoRuntime) (w : TickWorld) (msNow : Int) (collection : List Step),
          BuffersPaired w.host.profiler → w.host.profiler.gchandles = traces →
          ∃ w2 actions, StartTick rt sort w msNow collection = some (w2, actions)
            ∧ actions.flushed = decide (sub_int64 msNow w.self.lastStackLog > 60000)
            ∧ (actions.flushed = true →
                w2.stack_txt = format_traces sort traces ∧ CopyTraces w2.host.profiler = [])
            ∧ (actions.flushed = false →
                w2.stack_txt = w.stack_txt ∧ CopyTraces w2.host.profiler = traces) := by
  refine ⟨sort (traces.map (fun it => (it.1.1, it.1.2, it.2))), (hsort _).1,
    List.Pairwise.imp (fun {a b} h => (not_after_iff a b).1 h) (hsort _).2,
    format_traces_eq sort traces,
    fun entry _ h1 h2 h3 => format_entry_eq entry h1 h2 h3, ?_⟩
  intro rt w msNow collection hinv htraces
  obtain ⟨w2, he, -, -, -, hw⟩ := StartTick_spec rt sort w msNow collection hinv
  refine ⟨w2, _, he, rfl, fun hf => ?_, fun hf => ?_⟩
  · have hflush : sub_int64 msNow w.self.lastStackLog > 60000 := by simpa using hf
    rw [if_pos hflush, htraces] at hw
    exact hw
  · have hquiet : ¬ sub_int64 msNow w.self.lastStackLog > 60000 := by simpa using hf
    rw [if_neg hquiet, htraces] at hw
    exact hw

/-- Witness of the amended C15: with the insertion sort as `std::sort`, a
tick that flushes the demo snapshot writes the entry counted twice before the
entry counted once. -/
theorem C15_report_layout_witness :
    SortsByCount sort_by_count
    ∧ BuffersPaired demo_flush_world.host.profiler
    ∧ ∃ w2 actions,
      StartTick demo_runtime sort_by_count demo_flush_world 70000 [] = some (w2, actions)
      ∧ actions.flushed = true
      ∧ w2.stack_txt
        = str ['C', 'a', 'l', 'l', 'e', 'd', ':', ' ', '2', ',', ' ', 'C', 'a', 'l', 'l', 'e',
            'r', ':', ' ', 'T', ',', ' ', 'T', 'r', 'a', 'c', 'e', ':', ' ', 'g']
          ++ [10, 10, 10, 10]
          ++ str ['C', 'a', 'l', 'l', 'e', 'd', ':', ' ', '1', ',', ' ', 'C', 'a', 'l', 'l', 'e',
            'r', ':', ' ', 'T', ',', ' ', 'T', 'r', 'a', 'c', 'e', ':', ' ', 'f']
          ++ [10, 10, 10, 10]
      ∧ CopyTraces w2.host.profiler = [] := by
  have hinv : BuffersPaired demo_flush_world.host.profiler := initFunction_paired 0
  obtain ⟨sorted, -, -, -, -, htick⟩ :=
    C15_report_layout sort_by_count sort_by_count_contract demo_traces
  obtain ⟨w2, actions, he, hf, hyes, -⟩ :=
    htick demo_runtime demo_flush_world 70000 [] hinv rfl
  have hflushed : actions.flushed = true := by
    rw [hf]
    decide
  obtain ⟨htxt, hclear⟩ := hyes hflushed
  refine ⟨sort_by_count_contract, hinv, w2, actions, he, hflushed, htxt.trans ?_, hclear⟩
  decide

/-! ## Claim C16 -/

/-- Counterexample to claim C17 as stated: in the state reached from
start-up by a walk request, a pre-pause at the oldest generation and a root
report, buffers exist and the trace buffer holds a `HeapRoot` record; a
second pre-pause at the oldest generation does not leave that state
unchanged but replaces the trace buffer by an empty one. -/
theorem C17_counterexample :
    ¬ (∀ (rt : MonoRuntime) (now0 : Nat) (steps : List Step) (h : Host) (walk : HeapWalk)
        (now : Nat), run rt (initFunction now0) steps = some h →
        gc_event rt h MonoGCEvent.PRE_STOP_WORLD rt.max_generation walk now
          = some (if h.profiler.do_heap_walk = true
                    ∧ h.profiler.logBuffer = none ∧ h.profiler.fileBuffer = none
                  then start_capture h else h)) := by
  intro hclaim
  have h1 := hclaim demo_runtime 0 _ demo_capturing demo_walk 7 demo_capturing_reachable
  rw [pre_stop_eq] at h1
  have h2 : (some (start_capture demo_capturing)).map (fun h => h.profiler.logBuffer)
      = (some demo_capturing).map (fun h => h.profiler.logBuffer) := by
    have h3 := congrArg (Option.map (fun h => h.profiler.logBuffer)) h1
    simpa [demo_capturing, MonoProfiler.init] using h3
  revert h2
  simp [start_capture, demo_capturing, MonoProfiler.init]

/-- Claim C17, amended: a pre-pause callback at the oldest generation always
succeeds; when a walk has been requested, whether or not buffers exist
already, the resulting state has a new empty trace buffer, a new empty
staging buffer, both baselines 0 and an empty class set, everything else
(the requested flag, the aggregator map, the trace file) being unchanged;
when no walk has been requested the state is unchanged. -/
theorem C17_pre_stop_world (rt : MonoRuntime) (h : Host) (walk : HeapWalk) (now : Nat) :
    gc_event rt h MonoGCEvent.PRE_STOP_WORLD rt.max_generation walk now
      = some (if h.profiler.do_heap_walk = true then start_capture h else h)
    ∧ (start_capture h).profiler.logBuffer = some []
    ∧ (start_capture h).profiler.fileBuffer = some []
    ∧ (start_capture h).profiler.obj_base = 0
    ∧ (start_capture h).profiler.ptr_base = 0
    ∧ (start_capture h).profiler.logClasses = []
    ∧ (start_capture h).profiler.do_heap_walk = h.profiler.do_heap_walk
    ∧ (start_capture h).profiler.gchandles = h.profiler.gchandles
    ∧ (start_capture h).profiler.last_hs_time = h.profiler.last_hs_time
    ∧ (start_capture h).test_mlpd = h.test_mlpd :=
  ⟨pre_stop_eq rt h walk now, rfl, rfl, rfl, rfl, rfl, rfl, rfl, rfl, rfl⟩

/-! ## Claim C18 -/

/-- Claim C18: in every state reached from start-up by collector
callbacks, root reports and walk requests, a post-resume callback at the
oldest generation succeeds. If a staging buffer exists, then a trace buffer
exists as well, the trace file afterwards is the file before followed by
exactly the one buffer record `dump_buffer` produces from the trace buffer
and the baselines, both buffers are released and nothing else changes; if no
staging buffer exists, the state and the file are unchanged. -/
theorem C18_post_resume (rt : MonoRuntime) (now0 : Nat) (steps : List Step)
    (walk : HeapWalk) (now : Nat) :
    ∃ h, run rt (initFunction now0) steps = some h
      ∧ ((h.profiler.fileBuffer = none
            ∧ gc_event rt h MonoGCEvent.POST_START_WORLD_UNLOCKED rt.max_generation walk now
                = some h)
          ∨ (∃ lb, h.profiler.fileBuffer ≠ none ∧ h.profiler.logBuffer = some lb
            ∧ gc_event rt h MonoGCEvent.POST_START_WORLD_UNLOCKED rt.max_generation walk now
                = some (finish_capture h (dump_buffer [] lb h.profiler now))
            ∧ (finish_capture h (dump_buffer [] lb h.profiler now)).test_mlpd
                = h.test_mlpd ++ dump_buffer [] lb h.profiler now
            ∧ (finish_capture h (dump_buffer [] lb h.profiler now)).profiler.fileBuffer = none
            ∧ (finish_capture h (dump_buffer [] lb h.profiler now)).profiler.logBuffer
                = none)) := by
  obtain ⟨h, walked, -, ⟨hbuf, -⟩, hrun⟩ :=
    tracked_run_total rt steps (initFunction now0) false (initFunction_tracked now0)
  refine ⟨h, hrun, ?_⟩
  rcases hbuf with ⟨-, hfb⟩ | ⟨hlb, hfb⟩
  · exact Or.inl ⟨hfb, by simp only [gc_event, hfb]⟩
  · obtain ⟨lb, hlb2⟩ := Option.ne_none_iff_exists'.1 hlb
    refine Or.inr ⟨lb, by simp [hfb], hlb2, ?_, rfl, rfl, rfl⟩
    simp only [gc_event, hfb, hlb2, if_true, finish_capture]

/-! ## Claim C19 -/

/-- Claim C19, evaluated where it fails: for an object of
`2147483648 = 2^31` bytes, a size that is a multiple of 8 already, reported
while the trace buffer is empty, `gc_reference` succeeds and the size field
of the record it appends reads back as `18446744071562067968 = 2^64 - 2^31`
and not as `2147483648`: the aligned size goes through the `int` parameter
of `emit_value` and is sign-extended to 64 bits. -/
theorem C19_size_field_of_two_gib :
    aligned_size 2147483648 = 2147483648
    ∧ ∃ prof2 bytes head unread,
      gc_reference 3 (start_capture demo_host).profiler 4096 65536 2147483648 [] = some prof2
      ∧ prof2.logBuffer = some bytes
      ∧ read_heap_object_head bytes = some (head, unread)
      ∧ head.size = 18446744071562067968 := by
  obtain ⟨prof2, bytes, he, hb, ⟨head, unread, hr, -, hs, -⟩, -⟩ :=
    gc_reference_fields 3 (start_capture demo_host).profiler 4096 65536 2147483648 [] [] rfl
  have ha : aligned_size 2147483648 = 2147483648 := by decide
  refine ⟨ha, prof2, bytes, head, unread, he, hb, hr, ?_⟩
  rw [hs, ha]
  decide

/-! ## Claim C20 -/

/-- Claim C20, evaluated where it fails: for an object with one reference,
held in the field at offset `2147483648 = 2^31`, reported while the trace
buffer is empty, `gc_reference` succeeds and the record it appends carries
one pair whose offset value reads back as
`18446744071562067968 = 2^64 - 2^31` and not as `2147483648`: the offset
difference goes through the `int` parameter of `emit_value` and is
sign-extended to 64 bits, so the running sum of the offset values is not the
offset. -/
theorem C20_offset_value_of_two_gib :
    ∃ prof2 bytes head pairs,
      gc_reference 3 (start_capture demo_host).profiler 4096 65536 24 [(2147483648, 4128)]
        = some prof2
      ∧ prof2.logBuffer = some bytes
      ∧ read_heap_object bytes = some ((head, pairs), [])
      ∧ head.num = 1
      ∧ pairs.map Prod.fst = [18446744071562067968]
      ∧ running_sums 0 (pairs.map Prod.fst) = [18446744071562067968] := by
  obtain ⟨prof2, bytes, he, hb, -, hfull⟩ :=
    gc_reference_fields 3 (start_capture demo_host).profiler 4096 65536 24
      [(2147483648, 4128)] [] rfl
  obtain ⟨head, pairs, hr, -, hn, hm⟩ := hfull (by decide)
  have hv : offset_values 0 [(2147483648, 4128)] = [18446744071562067968] := by decide
  refine ⟨prof2, bytes, head, pairs, he, hb, hr, hn, hm.trans hv, ?_⟩
  rw [hm, hv]
  rfl

/-! ## Claim C21 -/

/-- Claim C21: a heap walk started with an existing trace buffer and an
empty class set, over objects whose class pointers are non-null 64-bit
values, succeeds. When the enumeration is over the buffer holds `HeapStart`
and everything the `gc_reference` callbacks wrote; behind that the walk
appends the class records and behind them the `HeapEnd` record. The class
records read back as exactly one `ClassMeta` record for each class of a list
`classes` without repetition whose members are precisely the classes of the
visited objects: replaying the class delta of each record against the
pointer baseline gives the classes of the list, in order, and each record
carries the name of its class. When no object has `2^31` or more references,
the appended bytes parse as `HeapStart`, one `HeapObject` per object, one
`ClassMeta` per class, `HeapEnd`. -/
theorem C21_class_meta_once (rt : MonoRuntime) (prof : MonoProfiler) (walk : HeapWalk)
    (buf : List Nat) (hbuf : prof.logBuffer = some buf) (hfresh : prof.logClasses = [])
    (hklass : ∀ o ∈ walk.objects, o.klass ≠ 0 ∧ o.klass < 2 ^ 64) :
    ∃ prof2 enumerated classes metas fields,
      heap_walk rt prof walk = some prof2
      ∧ (walk_heap (begin_walk prof walk buf) walk.objects).bind (fun p => p.logBuffer)
          = some enumerated
      ∧ prof2.logBuffer
          = some (emit_event walk.now_end (enumerated ++ metas)
              ((TYPE_HEAP_END ||| TYPE_HEAP : Nat) : Int))
      ∧ classes.Nodup
      ∧ (∀ k, k ∈ classes ↔ ∃ o ∈ walk.objects, o.klass = k)
      ∧ read_class_metas classes.length metas = some (fields, [])
      ∧ fields.map (fun f => replay (prof2.ptr_base % 2 ^ 64) f.klass) = classes
      ∧ fields.map ClassMetaFields.name = classes.map (fun k => c_str (rt.type_name k))
      ∧ ((∀ o ∈ walk.objects, o.refs.length < 2 ^ 31) →
          ∃ appended, prof2.logBuffer = some (buf ++ appended)
            ∧ parse_payload appended
              = some ([RecordKind.HeapStart]
                ++ List.replicate walk.objects.length RecordKind.HeapObject
                ++ List.replicate classes.length RecordKind.ClassMeta
                ++ [RecordKind.HeapEnd])) := by
  obtain ⟨h1, h2, h3, h4, h5, h6⟩ := tag_bytes
  obtain ⟨p1, objs, prof2, he1, hb1, hc1, -, hn1, hm1, he2, hb2, hp2⟩ :=
    heap_walk_sections rt prof walk buf hbuf
  rw [hfresh] at hc1
  have hsorted : p1.logClasses.Pairwise (fun a b => a < b) := by
    rw [hc1]
    exact visited_classes_sorted _ _ List.Pairwise.nil
  have hmem : ∀ k, k ∈ p1.logClasses ↔ ∃ o ∈ walk.objects, o.klass = k := by
    intro k
    rw [hc1, mem_visited_classes]
    simp
  have hbegin : begin_walk prof walk buf
      = { prof with logBuffer := some (buf ++ ([6] ++ encode_uleb128 walk.now_start [])) } := by
    unfold begin_walk
    rw [emit_event_eq, h1]
  have hread : ∃ fields, read_class_metas p1.logClasses.length
        (dump_classes_bytes rt walk.now_class p1 p1.logClasses) = some (fields, [])
      ∧ fields.map (fun f => replay (prof2.ptr_base % 2 ^ 64) f.klass) = p1.logClasses
      ∧ fields.map ClassMetaFields.name
          = p1.logClasses.map (fun k => c_str (rt.type_name k)) := by
    by_cases hobj : walk.objects = []
    · have hnil : p1.logClasses = [] := by
        rw [hc1, hobj]
        rfl
      rw [hnil]
      exact ⟨[], rfl, rfl, rfl⟩
    · have hbase : p1.ptr_base ≠ 0 := hn1 (fun o ho => (hklass o ho).1) hobj
      obtain ⟨fields, hr, hk, hn, hp⟩ :=
        read_dump_classes rt walk.now_class p1 p1.logClasses [] hbase
      rw [List.append_nil] at hr
      refine ⟨fields, hr, ?_, hn⟩
      rw [hp2, hp]
      have hmap : fields.map (fun f => replay (p1.ptr_base % 2 ^ 64) f.klass)
          = (fields.map ClassMetaFields.klass).map (replay (p1.ptr_base % 2 ^ 64)) := by
        rw [List.map_map]
        rfl
      rw [hmap, hk]
      apply replay_deltas
      intro k hk2
      obtain ⟨o, ho, rfl⟩ := (hmem k).1 hk2
      exact (hklass o ho).2
  obtain ⟨fields, hr, hk, hn⟩ := hread
  refine ⟨prof2, buf ++ ([6] ++ encode_uleb128 walk.now_start []) ++ objs, p1.logClasses,
    dump_classes_bytes rt walk.now_class p1 p1.logClasses, fields, he2, ?_, ?_,
    sorted_nodup _ hsorted, hmem, hr, hk, hn, ?_⟩
  · rw [hbegin, he1]
    exact hb1
  · rw [hb2, emit_event_eq, h2]
  · intro hrefs
    refine ⟨([6] ++ encode_uleb128 walk.now_start []) ++ objs
        ++ dump_classes_bytes rt walk.now_class p1 p1.logClasses
        ++ ([22] ++ encode_uleb128 walk.now_end []), ?_, ?_⟩
    · rw [hb2]
      simp only [List.append_assoc]
    · exact emits_parse_payload (emits_append (emits_append (emits_append
        (emits_heap_start walk.now_start) (hm1 hrefs))
        (emits_dump_classes rt walk.now_class p1 p1.logClasses))
        (emits_heap_end walk.now_end))

/-- Witness of C21: a walk over three objects of two classes, started right
after a pre-pause. -/
theorem C21_class_meta_once_witness :
    (start_capture demo_host).profiler.logBuffer = some []
    ∧ (start_capture demo_host).profiler.logClasses = []
    ∧ (∀ o ∈ shared_class_walk.objects, o.klass ≠ 0 ∧ o.klass < 2 ^ 64)
    ∧ ∃ prof2 enumerated classes metas fields,
      heap_walk demo_runtime (start_capture demo_host).profiler shared_class_walk = some prof2
      ∧ (walk_heap (begin_walk (start_capture demo_host).profiler shared_class_walk [])
            shared_class_walk.objects).bind (fun p => p.logBuffer) = some enumerated
      ∧ prof2.logBuffer
          = some (emit_event shared_class_walk.now_end (enumerated ++ metas)
              ((TYPE_HEAP_END ||| TYPE_HEAP : Nat) : Int))
      ∧ classes.Nodup
      ∧ (∀ k, k ∈ classes ↔ ∃ o ∈ shared_class_walk.objects, o.klass = k)
      ∧ read_class_metas classes.length metas = some (fields, [])
      ∧ fields.map (fun f => replay (prof2.ptr_base % 2 ^ 64) f.klass) = classes
      ∧ fields.map ClassMetaFields.name
          = classes.map (fun k => c_str (demo_runtime.type_name k))
      ∧ ((∀ o ∈ shared_class_walk.objects, o.refs.length < 2 ^ 31) →
          ∃ appended, prof2.logBuffer = some ([] ++ appended)
            ∧ parse_payload appended
              = some ([RecordKind.HeapStart]
                ++ List.replicate shared_class_walk.objects.length RecordKind.HeapObject
                ++ List.replicate classes.length RecordKind.ClassMeta
                ++ [RecordKind.HeapEnd])) :=
  ⟨rfl, rfl, by decide,
    C21_class_meta_once demo_runtime (start_capture demo_host).profiler shared_class_walk []
      rfl rfl (by decide)⟩

/-! ## Claim C22 -/

/-- Counterexample to claim C22 as stated: the record `dump_classes` writes
is one byte longer than the layout in which the class pointer follows the
timestamp directly, because the metadata kind byte `TYPE_CLASS` stands
between the two. -/
theorem C22_counterexample :
    ¬ (∀ (rt : MonoRuntime) (now : Nat → Nat) (g : MonoProfiler) (buf : List Nat) (klass : Nat),
        (dump_classes rt now g buf [klass]).2 = buf ++ class_meta_layout rt now g klass) := by
  intro hclaim
  have h := hclaim demo_runtime (fun _ => 4) (start_capture demo_host).profiler [] 65536
  rw [dump_classes_cons] at h
  have hlen := congrArg List.length h
  simp only [dump_classes, List.nil_append] at hlen
  rw [class_meta_record_length] at hlen
  omega

/-- Claim C22, amended: for the first class of its list `dump_classes`
appends one record and goes on with the remaining classes. The record is the
tag byte `0x22`, the varint timestamp, the metadata kind byte `TYPE_CLASS`
(1), and then the class pointer and the owning-image pointer as signed
deltas from the pointer baseline (the baseline in force, or the pointer
itself when none is set yet), the flags value 0, the bytes of the class name
up to its first NUL, and one terminating NUL byte. Read back, the record
yields these fields and nothing is left over. -/
theorem C22_class_meta_layout (rt : MonoRuntime) (now : Nat → Nat) (g : MonoProfiler)
    (buf : List Nat) (klass : Nat) (classes : List Nat) :
    ∃ base1 base2 record,
      base1 = (if g.ptr_base = 0 then klass else g.ptr_base)
      ∧ base2 = (if base1 = 0 then rt.class_image klass else base1)
      ∧ record = [0x22] ++ encode_uleb128 (now klass) [] ++ [1]
          ++ encode_sleb128 (toInt64 (sub64 klass base1)) []
          ++ encode_sleb128 (toInt64 (sub64 (rt.class_image klass) base2)) []
          ++ [0] ++ c_str (rt.type_name klass) ++ [0]
      ∧ 0 ∉ c_str (rt.type_name klass)
      ∧ dump_classes rt now g buf (klass :: classes)
          = dump_classes rt now (emit_ptr_next (emit_ptr_next g klass) (rt.class_image klass))
              (buf ++ record) classes
      ∧ (emit_ptr_next (emit_ptr_next g klass) (rt.class_image klass)).ptr_base = base2
      ∧ ∀ unread, read_class_meta (record ++ unread)
          = some (ClassMetaFields.mk (now klass) TYPE_CLASS (toInt64 (sub64 klass base1))
              (toInt64 (sub64 (rt.class_image klass) base2)) 0 (c_str (rt.type_name klass)),
            unread) := by
  have hb1 : (emit_ptr_next g klass).ptr_base = (if g.ptr_base = 0 then klass else g.ptr_base) :=
    emit_ptr_next_ptr_base g klass
  have hb2 : (emit_ptr_next (emit_ptr_next g klass) (rt.class_image klass)).ptr_base
      = (if (if g.ptr_base = 0 then klass else g.ptr_base) = 0 then rt.class_image klass
          else (if g.ptr_base = 0 then klass else g.ptr_base)) := by
    rw [emit_ptr_next_ptr_base, hb1]
  have hrec : class_meta_record rt now g klass
      = [0x22] ++ encode_uleb128 (now klass) [] ++ [1]
          ++ encode_sleb128 (toInt64 (sub64 klass
              (if g.ptr_base = 0 then klass else g.ptr_base))) []
          ++ encode_sleb128 (toInt64 (sub64 (rt.class_image klass)
              (if (if g.ptr_base = 0 then klass else g.ptr_base) = 0 then rt.class_image klass
                else (if g.ptr_base = 0 then klass else g.ptr_base)))) []
          ++ [0] ++ c_str (rt.type_name klass) ++ [0] := by
    unfold class_meta_record
    rw [hb2, hb1]
    rfl
  refine ⟨_, _, _, rfl, rfl, rfl, c_str_no_nul _, ?_, hb2, ?_⟩
  · rw [← hrec]
    exact dump_classes_cons rt now g buf klass classes
  · intro unread
    rw [← hrec, read_class_meta_record, hb2, hb1]

/-! ## Claim C23 -/

/-- Claim C23: every sequence of collector callbacks (any events, any
generations, any order), root reports and walk requests from start-up
succeeds, and in the state it leads to the trace buffer exists exactly when
the staging buffer exists. Consequently, in that state, a heap walk started
because the staging buffer exists finds the trace buffer and succeeds, a
post-resume callback that calls `dump_buffer` because the staging buffer
exists finds the trace buffer and appends its record, and every further
step succeeds: no absent buffer is ever dereferenced. -/
theorem C23_buffers_paired (rt : MonoRuntime) (now0 : Nat) (steps : List Step) :
    ∃ h, run rt (initFunction now0) steps = some h
      ∧ (h.profiler.logBuffer ≠ none ↔ h.profiler.fileBuffer ≠ none)
      ∧ (h.profiler.fileBuffer ≠ none →
          ∃ lb, h.profiler.logBuffer = some lb
            ∧ (∀ walk, ∃ prof2, heap_walk rt h.profiler walk = some prof2)
            ∧ ∀ fb walk now, h.profiler.fileBuffer = some fb →
                gc_event rt h MonoGCEvent.POST_START_WORLD_UNLOCKED rt.max_generation walk now
                  = some (finish_capture h (dump_buffer fb lb h.profiler now)))
      ∧ ∀ s, ∃ h2, step rt h s = some h2
          ∧ (h2.profiler.logBuffer ≠ none ↔ h2.profiler.fileBuffer ≠ none) := by
  obtain ⟨h, appended, hrun, hinv, -⟩ :=
    run_total rt steps (initFunction now0) (initFunction_paired now0)
  refine ⟨h, hrun, not_congr hinv, ?_, ?_⟩
  · intro hfb
    have hlb : h.profiler.logBuffer ≠ none := fun hn => hfb (hinv.1 hn)
    obtain ⟨lb, hlb2⟩ := Option.ne_none_iff_exists'.1 hlb
    refine ⟨lb, hlb2, fun walk => ?_, fun fb walk now hfb2 => ?_⟩
    · obtain ⟨prof2, -, -, he, -⟩ := heap_walk_spec rt h.profiler walk lb hlb2
      exact ⟨prof2, he⟩
    · simp only [gc_event, hfb2, hlb2, if_true, finish_capture]
  · intro s
    obtain ⟨h2, -, he, hinv2, -⟩ := step_total rt h s hinv
    exact ⟨h2, he, not_congr hinv2⟩

end MonoComponentHost
